import Mathlib

/-!
Constraint cursors and bound-pair enumeration (isl_constraint.c).

A shallow embedding of `src/isl_constraint.c`.

* `isl_int` is an arbitrary-precision integer: `Int`.
* A row (`isl_int *`) is a `List Int`: entry 0 is the constant term, entry
  `1 + k` the coefficient of dimension `k`.
* A container (`isl_basic_map`, and `isl_basic_set`, which the source casts to
  it) is a record of its reference count, its flags, its dimension
  descriptor and its rows.  The two arrays of row pointers `ineq` and `eq`
  live in one block, `eq` lying `eq_pos` slots after `ineq`; a row pointer
  `isl_int **line` is the offset of the slot from `ineq`.
* Heap objects are passed by value; allocation is assumed to succeed, so the
  `goto error` exits taken on a null pointer are not part of the model.
* An integer point assigns a value to every column of a row after the
  constant, existentially quantified ("div") columns included: `Nat → Int`.
* An index `pos` is a `Nat`.  Where the source declares it `int` it compares
  it with an unsigned count, so a negative value converts to one above every
  count and behaves as an index out of range.
-/

namespace Isl

/-! ## Data model -/

/-- The dimension types.  The source uses `isl_dim_set` for the set dimensions
of a basic set; it is the same enumerator as `isl_dim_out`. -/
inductive isl_dim_type where
  | isl_dim_param
  | isl_dim_in
  | isl_dim_out
  | isl_dim_div
  | isl_dim_all
  deriving DecidableEq, Repr

/-- The enumerator `isl_dim_set`, an alias of `isl_dim_out`. -/
abbrev isl_dim_set : isl_dim_type := isl_dim_type.isl_dim_out

/-- The dimension descriptor `struct isl_dim`: the fields the source reads. -/
structure isl_dim where
  nparam : Nat
  n_in : Nat
  n_out : Nat
  deriving DecidableEq, Repr

/-- The container `struct isl_basic_map`: the fields the source reads and
writes.  `eq_pos` is `bmap->eq - bmap->ineq`, `n_eq` is `eq.length`, `n_ineq`
is `ineq.length`, `n_div` is `div.length`. -/
structure isl_basic_map where
  ref : Int
  final : Bool
  normalized : Bool
  dim : isl_dim
  eq_pos : Nat
  eq : List (List Int)
  ineq : List (List Int)
  div : List (List Int)
  deriving DecidableEq, Repr

/-- A basic set is a basic map seen through a cast. -/
abbrev isl_basic_set := isl_basic_map

/-- The cursor `struct isl_constraint`: its own reference count, its container
and the row pointer `line`, an offset in the block of row pointers. -/
structure isl_constraint where
  ref : Int
  bmap : isl_basic_map
  line : Nat
  deriving DecidableEq, Repr

/-- Modelled from the spec: `isl_dim_total`, the number of parameter, input and
output dimensions of a descriptor. -/
def isl_dim_total (d : isl_dim) : Nat := d.nparam + d.n_in + d.n_out

/-- Modelled from the spec: `isl_basic_map_total_dim`, all dimensions of a
container, the existential ones included. -/
def isl_basic_map_total_dim (bmap : isl_basic_map) : Nat :=
  isl_dim_total bmap.dim + bmap.div.length

/-- Modelled from the spec: `isl_basic_map_dim`, the function `n(type)` giving
the number of dimensions of a type. -/
def isl_basic_map_dim (bmap : isl_basic_map) : isl_dim_type → Nat
  | .isl_dim_param => bmap.dim.nparam
  | .isl_dim_in => bmap.dim.n_in
  | .isl_dim_out => bmap.dim.n_out
  | .isl_dim_div => bmap.div.length
  | .isl_dim_all => isl_basic_map_total_dim bmap

/-- The same on a basic set. -/
abbrev isl_basic_set_dim (bset : isl_basic_set) (type : isl_dim_type) : Nat :=
  isl_basic_map_dim bset type

/-- The same on a basic set. -/
abbrev isl_basic_set_total_dim (bset : isl_basic_set) : Nat :=
  isl_basic_map_total_dim bset

/-- The static function `n`. -/
def n (c : isl_constraint) (type : isl_dim_type) : Nat :=
  isl_basic_map_dim c.bmap type

/-- The static function `offset`. -/
def offset (c : isl_constraint) : isl_dim_type → Nat
  | .isl_dim_param => 1
  | .isl_dim_in => 1 + c.bmap.dim.nparam
  | .isl_dim_out => 1 + c.bmap.dim.nparam + c.bmap.dim.n_in
  | .isl_dim_div => 1 + c.bmap.dim.nparam + c.bmap.dim.n_in + c.bmap.dim.n_out
  | .isl_dim_all => 0

/-- The static function `basic_set_offset`. -/
def basic_set_offset (bset : isl_basic_set) : isl_dim_type → Nat
  | .isl_dim_param => 1
  | .isl_dim_in => 1 + bset.dim.nparam
  | .isl_dim_out => 1 + bset.dim.nparam + bset.dim.n_in
  | .isl_dim_div => 1 + bset.dim.nparam + bset.dim.n_in + bset.dim.n_out
  | .isl_dim_all => 0

/-! ## Rows behind a row pointer -/

/-- The row `line[0]` behind the row pointer at offset `line`: an equality row
from `eq_pos` on, an inequality row before. -/
def rowAt (bmap : isl_basic_map) (line : Nat) : List Int :=
  if bmap.eq_pos ≤ line then bmap.eq.getD (line - bmap.eq_pos) []
  else bmap.ineq.getD line []

/-- Store `row` as `line[0]`. -/
def setRowAt (bmap : isl_basic_map) (line : Nat) (row : List Int) : isl_basic_map :=
  if bmap.eq_pos ≤ line then { bmap with eq := bmap.eq.set (line - bmap.eq_pos) row }
  else { bmap with ineq := bmap.ineq.set line row }

/-- The entry `rows[i][k]`. -/
def coef (rows : List (List Int)) (i k : Nat) : Int := (rows.getD i []).getD k 0

/-! ## Vector primitives -/

/-- Modelled from the spec: `isl_seq_neg(dst, src, len)` with `dst = src`,
negating the first `len` entries of a row. -/
def isl_seq_neg (src : List Int) (len : Nat) : List Int :=
  (src.take len).map (fun v => -v) ++ src.drop len

/-- Modelled from the spec: `isl_seq_combine(dst, m1, src1, m2, src2, len)`,
the `len` entries `m1 * src1[i] + m2 * src2[i]`. -/
def isl_seq_combine (m1 : Int) (src1 : List Int) (m2 : Int) (src2 : List Int)
    (len : Nat) : List Int :=
  List.zipWith (fun u v => m1 * u + m2 * v) (src1.take len) (src2.take len)

/-! ## Container collaborators -/

/-- Modelled from the spec: `isl_basic_map_copy`, one more holder of the same
container. -/
def isl_basic_map_copy (bmap : isl_basic_map) : isl_basic_map :=
  { bmap with ref := bmap.ref + 1 }

/-- The same on a basic set. -/
abbrev isl_basic_set_copy (bset : isl_basic_set) : isl_basic_set := isl_basic_map_copy bset

/-- Modelled from the spec: `isl_basic_map_cow`, the container itself when it
has one holder and a private duplicate, not yet final, otherwise. -/
def isl_basic_map_cow (bmap : isl_basic_map) : isl_basic_map :=
  if bmap.ref = 1 then bmap else { bmap with ref := 1, final := false }

/-- The same on a basic set. -/
abbrev isl_basic_set_cow (bset : isl_basic_set) : isl_basic_set := isl_basic_map_cow bset

/-- Modelled from the spec: `isl_basic_map_free`, one holder fewer; the
container that is left, if any. -/
def isl_basic_map_free (bmap : isl_basic_map) : Option isl_basic_map :=
  if 0 < bmap.ref - 1 then some { bmap with ref := bmap.ref - 1 } else none

/-- Modelled from the spec: `isl_basic_set_extend_constraints`, room for
`n_ineq` more inequality rows below the equality region (no row changes). -/
def isl_basic_set_extend_constraints (bset : isl_basic_set) (_n_eq n_ineq : Nat) :
    isl_basic_set :=
  { bset with eq_pos := max bset.eq_pos (bset.ineq.length + n_ineq) }

/-- Modelled from the spec: `isl_basic_set_alloc_inequality`, one more
inequality row (its content not yet written) and its index. -/
def isl_basic_set_alloc_inequality (bset : isl_basic_set) : isl_basic_set × Nat :=
  ({ bset with ineq := bset.ineq ++ [[]], normalized := false }, bset.ineq.length)

/-- Modelled from the spec: `isl_basic_set_drop_inequality`, removal of the
inequality row of index `pos`. -/
def isl_basic_set_drop_inequality (bset : isl_basic_set) (pos : Nat) : isl_basic_set :=
  { bset with ineq := bset.ineq.eraseIdx pos }

/-- Drop `nb` dimensions of a type from a descriptor. -/
def isl_dim_drop (d : isl_dim) (type : isl_dim_type) (nb : Nat) : isl_dim :=
  match type with
  | .isl_dim_param => { d with nparam := d.nparam - nb }
  | .isl_dim_in => { d with n_in := d.n_in - nb }
  | .isl_dim_out => { d with n_out := d.n_out - nb }
  | _ => d

/-- Modelled from the spec: `isl_basic_set_drop(bset, type, pos, 1)`, the
container with the column of dimension `(type, pos)` deleted from every row
and the dimension removed from the descriptor. -/
def isl_basic_set_drop (bset : isl_basic_set) (type : isl_dim_type) (pos : Nat) :
    isl_basic_set :=
  { bset with
    dim := isl_dim_drop bset.dim type 1
    eq := bset.eq.map (fun r => r.eraseIdx (basic_set_offset bset type + pos))
    ineq := bset.ineq.map (fun r => r.eraseIdx (basic_set_offset bset type + pos))
    div := bset.div.map (fun r => r.eraseIdx (1 + (basic_set_offset bset type + pos)))
    normalized := false }

/-- Modelled from the spec: `isl_basic_set_finalize`, locking the row layout. -/
def isl_basic_set_finalize (bset : isl_basic_set) : isl_basic_set :=
  { bset with final := true }

/-- The collaborators of the container that are taken as parameters:
simplification, the emptiness test (non-zero for "empty") and the removal of
a dimension by elimination. -/
structure Collab where
  isl_basic_set_simplify : isl_basic_set → isl_basic_set
  isl_basic_set_is_empty : isl_basic_set → Int
  isl_basic_set_remove : isl_basic_set → isl_dim_type → Nat → Nat → isl_basic_set

/-! ## Cursors -/

/-- The function `isl_basic_map_constraint`: a fresh cursor with one holder. -/
def isl_basic_map_constraint (bmap : isl_basic_map) (line : Nat) : isl_constraint :=
  { ref := 1, bmap := bmap, line := line }

/-- The function `isl_basic_set_constraint`. -/
def isl_basic_set_constraint (bset : isl_basic_set) (line : Nat) : isl_constraint :=
  isl_basic_map_constraint bset line

/-- The function `isl_constraint_copy`: one more holder of the cursor. -/
def isl_constraint_copy (constraint : isl_constraint) : isl_constraint :=
  { constraint with ref := constraint.ref + 1 }

/-- What is left after a release: the cursor object, when it still has a
holder, and its container, when that still has one. -/
structure Released where
  cursor : Option isl_constraint
  bmap : Option isl_basic_map
  deriving DecidableEq, Repr

/-- The function `isl_constraint_free`. -/
def isl_constraint_free (c : isl_constraint) : Released :=
  if 0 < c.ref - 1 then
    { cursor := some { c with ref := c.ref - 1 }, bmap := some c.bmap }
  else
    { cursor := none, bmap := isl_basic_map_free c.bmap }

/-- The function `isl_constraint_is_equality`. -/
def isl_constraint_is_equality (constraint : isl_constraint) : Int :=
  if constraint.bmap.eq_pos ≤ constraint.line then 1 else 0

/-- The function `isl_constraint_negate`: `.ok` is the cursor returned, its row
rewritten in place; `.error` is the null return, with what the release on the
error exit leaves behind. -/
def isl_constraint_negate (constraint : isl_constraint) :
    Except Released isl_constraint :=
  if isl_constraint_is_equality constraint ≠ 0 then
    .error (isl_constraint_free constraint)
  else if constraint.bmap.ref ≠ 1 then
    .error (isl_constraint_free constraint)
  else
    let total := isl_basic_map_total_dim constraint.bmap
    let r1 := isl_seq_neg (rowAt constraint.bmap constraint.line) (1 + total)
    let r2 := r1.set 0 (r1.getD 0 0 - 1)
    .ok { constraint with
          bmap := { setRowAt constraint.bmap constraint.line r2 with normalized := false } }

/-! ## Bound-pair enumeration -/

/-- The callback of the enumeration: `fn(lower, upper, bset, user)`, returning
its result and the user state it leaves. -/
abbrev BoundFn (σ : Type) :=
  Option isl_constraint → Option isl_constraint → isl_basic_set → σ → Int × σ

/-- The arguments of one invocation of the callback. -/
structure BoundCall where
  lower : Option isl_constraint
  upper : Option isl_constraint
  bset : isl_basic_set
  deriving DecidableEq, Repr

/-- The outcome of a loop: whether it was left through `break` (its index is
then below `n_ineq`), the user state, and the invocations made, in order. -/
structure LoopOut (σ : Type) where
  broke : Bool
  user : σ
  calls : List BoundCall

/-- The outcome of an enumeration: the value returned, the user state, and
the invocations made, in order. -/
structure Run (σ : Type) where
  ret : Int
  user : σ
  calls : List BoundCall

/-- The row that `add_larger_bound_constraint` writes into the new inequality
of a context with `total` dimensions: the two calls of `isl_seq_combine`,
before and after the column `1 + abs_pos` of `a` and `b`, and the decrement
of the constant when `strict`. -/
def larger_bound_row (total : Nat) (a b : List Int) (abs_pos : Nat) (strict : Int) :
    List Int :=
  let t := -(b.getD (1 + abs_pos) 0)
  let row := isl_seq_combine t a (a.getD (1 + abs_pos) 0) b (1 + abs_pos) ++
    isl_seq_combine t (a.drop (1 + abs_pos + 1)) (a.getD (1 + abs_pos) 0)
      (b.drop (1 + abs_pos + 1)) (total - abs_pos)
  if strict ≠ 0 then row.set 0 (row.getD 0 0 - 1) else row

/-- The static function `add_larger_bound_constraint`. -/
def add_larger_bound_constraint (bset : isl_basic_set) (a b : List Int)
    (abs_pos : Nat) (strict : Int) : isl_basic_set :=
  let alloc := isl_basic_set_alloc_inequality bset
  let bset := alloc.1
  let k := alloc.2
  let total := isl_basic_set_dim bset .isl_dim_all
  { bset with ineq := bset.ineq.set k (larger_bound_row total a b abs_pos strict) }

/-- The static function `set_smallest_upper_bound`. -/
def set_smallest_upper_bound (C : Collab) (context bset : isl_basic_set)
    (abs_pos n_upper u : Nat) : isl_basic_set :=
  let context := isl_basic_set_cow (isl_basic_set_copy context)
  let context := isl_basic_set_extend_constraints context 0 (n_upper - 1)
  let context := (List.range bset.ineq.length).foldl (fun ctx j =>
    if j = u then ctx
    else if ¬ coef bset.ineq j (1 + abs_pos) < 0 then ctx
    else add_larger_bound_constraint ctx (bset.ineq.getD j []) (bset.ineq.getD u [])
      abs_pos (if j > u then 1 else 0)) context
  isl_basic_set_finalize (C.isl_basic_set_simplify context)

/-- The static function `set_largest_lower_bound`. -/
def set_largest_lower_bound (C : Collab) (context bset : isl_basic_set)
    (abs_pos n_lower l : Nat) : isl_basic_set :=
  let context := isl_basic_set_cow (isl_basic_set_copy context)
  let context := isl_basic_set_extend_constraints context 0 (n_lower - 1)
  let context := (List.range bset.ineq.length).foldl (fun ctx j =>
    if j = l then ctx
    else if ¬ 0 < coef bset.ineq j (1 + abs_pos) then ctx
    else add_larger_bound_constraint ctx (bset.ineq.getD l []) (bset.ineq.getD j [])
      abs_pos (if j > l then 1 else 0)) context
  isl_basic_set_finalize (C.isl_basic_set_simplify context)

/-- The loop of `foreach_upper_bound` over the indices still to visit. -/
def foreach_upper_bound_loop {σ : Type} (C : Collab) (bset : isl_basic_set)
    (abs_pos : Nat) (context : isl_basic_set) (n_upper : Nat) (fn : BoundFn σ) :
    List Nat → σ → LoopOut σ
  | [], user => { broke := false, user := user, calls := [] }
  | i :: rest, user =>
    if coef bset.ineq i (1 + abs_pos) = 0 then
      foreach_upper_bound_loop C bset abs_pos context n_upper fn rest user
    else
      let context_i := set_smallest_upper_bound C context bset abs_pos n_upper i
      if C.isl_basic_set_is_empty context_i ≠ 0 then
        foreach_upper_bound_loop C bset abs_pos context n_upper fn rest user
      else
        let upper := isl_basic_set_constraint (isl_basic_set_copy bset) i
        let r := fn none (some upper) context_i user
        if r.1 < 0 then
          { broke := true, user := r.2, calls := [⟨none, some upper, context_i⟩] }
        else
          let out := foreach_upper_bound_loop C bset abs_pos context n_upper fn rest r.2
          { broke := out.broke, user := out.user,
            calls := ⟨none, some upper, context_i⟩ :: out.calls }

/-- The static function `foreach_upper_bound`. -/
def foreach_upper_bound {σ : Type} (C : Collab) (bset : isl_basic_set)
    (abs_pos : Nat) (context : isl_basic_set) (n_upper : Nat) (fn : BoundFn σ)
    (user : σ) : Run σ :=
  let out := foreach_upper_bound_loop C bset abs_pos context n_upper fn
    (List.range bset.ineq.length) user
  { ret := if out.broke then -1 else 0, user := out.user, calls := out.calls }

/-- The loop of `foreach_lower_bound` over the indices still to visit. -/
def foreach_lower_bound_loop {σ : Type} (C : Collab) (bset : isl_basic_set)
    (abs_pos : Nat) (context : isl_basic_set) (n_lower : Nat) (fn : BoundFn σ) :
    List Nat → σ → LoopOut σ
  | [], user => { broke := false, user := user, calls := [] }
  | i :: rest, user =>
    if coef bset.ineq i (1 + abs_pos) = 0 then
      foreach_lower_bound_loop C bset abs_pos context n_lower fn rest user
    else
      let context_i := set_largest_lower_bound C context bset abs_pos n_lower i
      if C.isl_basic_set_is_empty context_i ≠ 0 then
        foreach_lower_bound_loop C bset abs_pos context n_lower fn rest user
      else
        let lower := isl_basic_set_constraint (isl_basic_set_copy bset) i
        let r := fn (some lower) none context_i user
        if r.1 < 0 then
          { broke := true, user := r.2, calls := [⟨some lower, none, context_i⟩] }
        else
          let out := foreach_lower_bound_loop C bset abs_pos context n_lower fn rest r.2
          { broke := out.broke, user := out.user,
            calls := ⟨some lower, none, context_i⟩ :: out.calls }

/-- The static function `foreach_lower_bound`. -/
def foreach_lower_bound {σ : Type} (C : Collab) (bset : isl_basic_set)
    (abs_pos : Nat) (context : isl_basic_set) (n_lower : Nat) (fn : BoundFn σ)
    (user : σ) : Run σ :=
  let out := foreach_lower_bound_loop C bset abs_pos context n_lower fn
    (List.range bset.ineq.length) user
  { ret := if out.broke then -1 else 0, user := out.user, calls := out.calls }

/-- The context that `foreach_bound_pair` builds for the lower bound `i` and
the upper bound `j`, from the context `context_i` of the lower bound. -/
def bound_pair_context (C : Collab) (bset : isl_basic_set) (abs_pos : Nat)
    (context_i : isl_basic_set) (n_upper i j : Nat) : isl_basic_set :=
  let context_j := set_smallest_upper_bound C context_i bset abs_pos n_upper j
  let context_j := isl_basic_set_extend_constraints context_j 0 1
  let context_j := add_larger_bound_constraint context_j (bset.ineq.getD i [])
    (bset.ineq.getD j []) abs_pos 0
  let context_j := C.isl_basic_set_simplify context_j
  isl_basic_set_finalize context_j

/-- The inner loop of `foreach_bound_pair`, over the upper bounds `j`. -/
def foreach_bound_pair_inner {σ : Type} (C : Collab) (bset : isl_basic_set)
    (abs_pos : Nat) (context_i : isl_basic_set) (n_upper i : Nat) (fn : BoundFn σ) :
    List Nat → σ → LoopOut σ
  | [], user => { broke := false, user := user, calls := [] }
  | j :: rest, user =>
    if ¬ coef bset.ineq j (1 + abs_pos) < 0 then
      foreach_bound_pair_inner C bset abs_pos context_i n_upper i fn rest user
    else
      let context_j := bound_pair_context C bset abs_pos context_i n_upper i j
      if C.isl_basic_set_is_empty context_j ≠ 0 then
        foreach_bound_pair_inner C bset abs_pos context_i n_upper i fn rest user
      else
        let lower := isl_basic_set_constraint (isl_basic_set_copy bset) i
        let upper := isl_basic_set_constraint (isl_basic_set_copy bset) j
        let r := fn (some lower) (some upper) context_j user
        if r.1 < 0 then
          { broke := true, user := r.2, calls := [⟨some lower, some upper, context_j⟩] }
        else
          let out := foreach_bound_pair_inner C bset abs_pos context_i n_upper i fn rest r.2
          { broke := out.broke, user := out.user,
            calls := ⟨some lower, some upper, context_j⟩ :: out.calls }

/-- The outer loop of `foreach_bound_pair`, over the lower bounds `i`. -/
def foreach_bound_pair_outer {σ : Type} (C : Collab) (bset : isl_basic_set)
    (abs_pos : Nat) (context : isl_basic_set) (n_lower n_upper : Nat) (fn : BoundFn σ) :
    List Nat → σ → LoopOut σ
  | [], user => { broke := false, user := user, calls := [] }
  | i :: rest, user =>
    if ¬ 0 < coef bset.ineq i (1 + abs_pos) then
      foreach_bound_pair_outer C bset abs_pos context n_lower n_upper fn rest user
    else
      let context_i := set_largest_lower_bound C context bset abs_pos n_lower i
      if C.isl_basic_set_is_empty context_i ≠ 0 then
        foreach_bound_pair_outer C bset abs_pos context n_lower n_upper fn rest user
      else
        let inner := foreach_bound_pair_inner C bset abs_pos context_i n_upper i fn
          (List.range bset.ineq.length) user
        if inner.broke then
          { broke := true, user := inner.user, calls := inner.calls }
        else
          let out := foreach_bound_pair_outer C bset abs_pos context n_lower n_upper fn
            rest inner.user
          { broke := out.broke, user := out.user, calls := inner.calls ++ out.calls }

/-- The static function `foreach_bound_pair`. -/
def foreach_bound_pair {σ : Type} (C : Collab) (bset : isl_basic_set)
    (abs_pos : Nat) (context : isl_basic_set) (n_lower n_upper : Nat) (fn : BoundFn σ)
    (user : σ) : Run σ :=
  let out := foreach_bound_pair_outer C bset abs_pos context n_lower n_upper fn
    (List.range bset.ineq.length) user
  { ret := if out.broke then -1 else 0, user := out.user, calls := out.calls }

/-- The position `abs_pos` that `isl_basic_set_foreach_bound_pair` computes. -/
def bound_abs_pos (bset : isl_basic_set) (type : isl_dim_type) (pos : Nat) : Nat :=
  if type = isl_dim_set then pos + isl_basic_set_dim bset .isl_dim_param else pos

/-- The counting loop of `isl_basic_set_foreach_bound_pair`: the pair
`(n_lower, n_upper)`. -/
def count_bounds (bset : isl_basic_set) (abs_pos : Nat) : Nat × Nat :=
  (List.range bset.ineq.length).foldl (fun cnt i =>
    if 0 < coef bset.ineq i (1 + abs_pos) then (cnt.1 + 1, cnt.2)
    else if coef bset.ineq i (1 + abs_pos) < 0 then (cnt.1, cnt.2 + 1)
    else cnt) (0, 0)

/-- The context that `isl_basic_set_foreach_bound_pair` starts from: a private
copy of the container, the inequality rows with a non-zero coefficient at
`1 + abs_pos` dropped from the last index down, then the dimension dropped. -/
def base_context (bset : isl_basic_set) (type : isl_dim_type) (pos abs_pos : Nat) :
    isl_basic_set :=
  let context := isl_basic_set_cow (isl_basic_set_copy bset)
  let context := (List.range context.ineq.length).reverse.foldl (fun ctx i =>
    if coef ctx.ineq i (1 + abs_pos) ≠ 0 then isl_basic_set_drop_inequality ctx i
    else ctx) context
  isl_basic_set_drop context type pos

/-- The function `isl_basic_set_foreach_bound_pair`. -/
def isl_basic_set_foreach_bound_pair {σ : Type} (C : Collab) (bset : isl_basic_set)
    (type : isl_dim_type) (pos : Nat) (fn : BoundFn σ) (user : σ) : Run σ :=
  if ¬ pos < isl_basic_set_dim bset type then { ret := -1, user := user, calls := [] }
  else if ¬ (type = .isl_dim_param ∨ type = isl_dim_set) then
    { ret := -1, user := user, calls := [] }
  else
    let abs_pos := bound_abs_pos bset type pos
    match (List.range bset.eq.length).find? (fun i => coef bset.eq i (1 + abs_pos) ≠ 0) with
    | some i =>
      let lower := isl_basic_set_constraint (isl_basic_set_copy bset) (bset.eq_pos + i)
      let upper := isl_constraint_copy lower
      let lower := upper
      let context := C.isl_basic_set_remove (isl_basic_set_copy bset) type pos 1
      let r := fn (some lower) (some upper) context user
      { ret := r.1, user := r.2, calls := [⟨some lower, some upper, context⟩] }
    | none =>
      let n_lower := (count_bounds bset abs_pos).1
      let n_upper := (count_bounds bset abs_pos).2
      let context := base_context bset type pos abs_pos
      if n_lower = 0 ∧ n_upper = 0 then
        let r := fn none none context user
        { ret := r.1, user := r.2, calls := [⟨none, none, context⟩] }
      else if n_lower = 0 then
        foreach_upper_bound C bset abs_pos context n_upper fn user
      else if n_upper = 0 then
        foreach_lower_bound C bset abs_pos context n_lower fn user
      else
        foreach_bound_pair C bset abs_pos context n_lower n_upper fn user

/-! ## The loops as enumerations of candidates -/

/-- The common shape of the loops over the rows: the indices are visited in
order; at an index that is kept the callback is invoked on `mk i`, and the
loop is left when the callback fails. -/
def bound_loop {σ : Type} (fn : BoundFn σ) (keep : Nat → Bool) (mk : Nat → BoundCall) :
    List Nat → σ → LoopOut σ
  | [], user => { broke := false, user := user, calls := [] }
  | i :: rest, user =>
    if keep i then
      let r := fn (mk i).lower (mk i).upper (mk i).bset user
      if r.1 < 0 then { broke := true, user := r.2, calls := [mk i] }
      else
        let out := bound_loop fn keep mk rest r.2
        { broke := out.broke, user := out.user, calls := mk i :: out.calls }
    else bound_loop fn keep mk rest user

/-- The invocation that `foreach_upper_bound` makes for the upper bound `i`. -/
def upper_call (C : Collab) (bset : isl_basic_set) (abs_pos : Nat) (context : isl_basic_set)
    (n_upper i : Nat) : BoundCall :=
  { lower := none
    upper := some (isl_basic_set_constraint (isl_basic_set_copy bset) i)
    bset := set_smallest_upper_bound C context bset abs_pos n_upper i }

/-- The invocation that `foreach_lower_bound` makes for the lower bound `i`. -/
def lower_call (C : Collab) (bset : isl_basic_set) (abs_pos : Nat) (context : isl_basic_set)
    (n_lower i : Nat) : BoundCall :=
  { lower := some (isl_basic_set_constraint (isl_basic_set_copy bset) i)
    upper := none
    bset := set_largest_lower_bound C context bset abs_pos n_lower i }

/-- The invocation that `foreach_bound_pair` makes for the lower bound `i` and
the upper bound `j`. -/
def pair_call (C : Collab) (bset : isl_basic_set) (abs_pos : Nat) (context : isl_basic_set)
    (n_lower n_upper i j : Nat) : BoundCall :=
  { lower := some (isl_basic_set_constraint (isl_basic_set_copy bset) i)
    upper := some (isl_basic_set_constraint (isl_basic_set_copy bset) j)
    bset := bound_pair_context C bset abs_pos
      (set_largest_lower_bound C context bset abs_pos n_lower i) n_upper i j }

/-- The upper bounds whose context passes the emptiness test. -/
def upper_keep (C : Collab) (bset : isl_basic_set) (abs_pos : Nat) (context : isl_basic_set)
    (n_upper i : Nat) : Bool :=
  decide (coef bset.ineq i (1 + abs_pos) ≠ 0) &&
    decide (C.isl_basic_set_is_empty (upper_call C bset abs_pos context n_upper i).bset = 0)

/-- The lower bounds whose context passes the emptiness test. -/
def lower_keep (C : Collab) (bset : isl_basic_set) (abs_pos : Nat) (context : isl_basic_set)
    (n_lower i : Nat) : Bool :=
  decide (coef bset.ineq i (1 + abs_pos) ≠ 0) &&
    decide (C.isl_basic_set_is_empty (lower_call C bset abs_pos context n_lower i).bset = 0)

/-- The lower bounds of the two-sided case whose context passes the emptiness
test. -/
def pair_keep_lower (C : Collab) (bset : isl_basic_set) (abs_pos : Nat)
    (context : isl_basic_set) (n_lower i : Nat) : Bool :=
  decide (0 < coef bset.ineq i (1 + abs_pos)) &&
    decide (C.isl_basic_set_is_empty
      (set_largest_lower_bound C context bset abs_pos n_lower i) = 0)

/-- The upper bounds whose pair with the lower bound `i` passes the emptiness
test. -/
def pair_keep_upper (C : Collab) (bset : isl_basic_set) (abs_pos : Nat)
    (context : isl_basic_set) (n_lower n_upper i j : Nat) : Bool :=
  decide (coef bset.ineq j (1 + abs_pos) < 0) &&
    decide (C.isl_basic_set_is_empty
      (pair_call C bset abs_pos context n_lower n_upper i j).bset = 0)

/-- The candidate invocations of the two-sided case, in the order of the
loops. -/
def pair_candidates (C : Collab) (bset : isl_basic_set) (abs_pos : Nat)
    (context : isl_basic_set) (n_lower n_upper : Nat) (is : List Nat) : List BoundCall :=
  (is.filter (pair_keep_lower C bset abs_pos context n_lower)).flatMap (fun i =>
    ((List.range bset.ineq.length).filter
      (pair_keep_upper C bset abs_pos context n_lower n_upper i)).map
      (pair_call C bset abs_pos context n_lower n_upper i))

/-! ## Integer points -/

/-- The sum of `as[k] * x k` over the entries of `as`. -/
def seqDot : List Int → (Nat → Int) → Int
  | [], _ => 0
  | a :: as, x => a * x 0 + seqDot as (fun k => x (k + 1))

/-- The value of a row at a point: the constant plus the coefficients applied
to the point. -/
def rowValue : List Int → (Nat → Int) → Int
  | [], _ => 0
  | c :: as, x => c + seqDot as x

/-- The point `x` is an integer point of the container: every equality row
vanishes and every inequality row is non-negative at `x`. -/
def sat (bmap : isl_basic_map) (x : Nat → Int) : Prop :=
  (∀ r ∈ bmap.eq, rowValue r x = 0) ∧ (∀ r ∈ bmap.ineq, 0 ≤ rowValue r x)

instance (bmap : isl_basic_map) (x : Nat → Int) : Decidable (sat bmap x) := by
  unfold sat; infer_instance

/-- The point `x` with coordinate `d` deleted. -/
def dropCoord (d : Nat) (x : Nat → Int) : Nat → Int :=
  fun k => if k < d then x k else x (k + 1)

/-- A well-formed basic set: no input dimensions, every row as long as the
dimensions say, and the inequality rows below the equality region. -/
def wellFormed (bset : isl_basic_set) : Prop :=
  bset.dim.n_in = 0 ∧
  (∀ r ∈ bset.eq, r.length = 1 + isl_basic_set_total_dim bset) ∧
  (∀ r ∈ bset.ineq, r.length = 1 + isl_basic_set_total_dim bset) ∧
  bset.ineq.length ≤ bset.eq_pos

instance (bset : isl_basic_set) : Decidable (wellFormed bset) := by
  unfold wellFormed; infer_instance

/-! ## Iteration over the rows -/

/-- The function `isl_constraint_dup`: `eq` and the index `i` as the source
computes them, on a copy of the container (which shares its row layout). -/
def isl_constraint_dup (c : isl_constraint) : isl_constraint :=
  let eq := decide (c.line < c.bmap.eq_pos + c.bmap.eq.length)
  let i : Int := if eq then (c.line : Int) - (c.bmap.eq_pos : Int) else (c.line : Int)
  let bmap := isl_basic_map_copy c.bmap
  isl_basic_map_constraint bmap
    (if eq then ((bmap.eq_pos : Int) + i).toNat else i.toNat)

/-- The function `isl_constraint_cow`: the cursor itself when it has one
holder, a duplicate otherwise. -/
def isl_constraint_cow (c : isl_constraint) : isl_constraint :=
  if c.ref = 1 then c else isl_constraint_dup c

/-- The function `isl_basic_map_first_constraint`; `none` is the null
return. -/
def isl_basic_map_first_constraint (bmap : isl_basic_map) : Option isl_constraint :=
  if 0 < bmap.eq.length then some (isl_basic_map_constraint bmap (bmap.eq_pos + 0))
  else if 0 < bmap.ineq.length then some (isl_basic_map_constraint bmap 0)
  else none

/-- The function `isl_constraint_next`; `none` is the null return, after the
cursor has been released. -/
def isl_constraint_next (c : isl_constraint) : Option isl_constraint :=
  let c := isl_constraint_cow c
  if c.bmap.eq_pos ≤ c.line then
    let c := { c with line := c.line + 1 }
    if c.line < c.bmap.eq_pos + c.bmap.eq.length then some c
    else
      let c := { c with line := 0 }
      if c.line < 0 + c.bmap.ineq.length then some c else none
  else
    let c := { c with line := c.line + 1 }
    if c.line < 0 + c.bmap.ineq.length then some c else none

/-- The cursors produced by at most `fuel` steps of a traversal that is at
`c`: `c` itself, then what `isl_constraint_next` gives, until it gives
`none`. -/
def constraint_walk : Nat → Option isl_constraint → List isl_constraint
  | 0, _ => []
  | _ + 1, none => []
  | fuel + 1, some c => c :: constraint_walk fuel (isl_constraint_next c)

/-! ## Coefficient access -/

/-- The function `isl_constraint_get_constant`. -/
def isl_constraint_get_constant (constraint : isl_constraint) : Int :=
  (rowAt constraint.bmap constraint.line).getD 0 0

/-- The function `isl_constraint_get_coefficient`: the value stored into `*v`,
`none` when the assertion fails and `*v` is left alone. -/
def isl_constraint_get_coefficient (constraint : isl_constraint) (type : isl_dim_type)
    (pos : Nat) : Option Int :=
  if ¬ pos < n constraint type then none
  else some ((rowAt constraint.bmap constraint.line).getD (offset constraint type + pos) 0)

/-- The function `isl_constraint_set_constant`: the cursor after the write. -/
def isl_constraint_set_constant (constraint : isl_constraint) (v : Int) : isl_constraint :=
  { constraint with
    bmap := setRowAt constraint.bmap constraint.line
      ((rowAt constraint.bmap constraint.line).set 0 v) }

/-- The function `isl_constraint_set_coefficient`: the cursor after the call,
unchanged when the assertion fails. -/
def isl_constraint_set_coefficient (constraint : isl_constraint) (type : isl_dim_type)
    (pos : Nat) (v : Int) : isl_constraint :=
  if ¬ pos < n constraint type then constraint
  else
    { constraint with
      bmap := setRowAt constraint.bmap constraint.line
        ((rowAt constraint.bmap constraint.line).set (offset constraint type + pos) v) }

/-! ## Materialization -/

/-- Modelled from the spec: `isl_seq_cpy(dst, src, len)`, the first `len`
entries of `dst` replaced by those of `src`. -/
def isl_seq_cpy (dst src : List Int) (len : Nat) : List Int :=
  src.take len ++ dst.drop len

/-- Modelled from the spec: `isl_basic_map_universe_like`, a fresh container
without rows on the dimension descriptor of the model. -/
def isl_basic_map_universe_like (model : isl_basic_map) : isl_basic_map :=
  { ref := 1, final := false, normalized := false, dim := model.dim,
    eq_pos := 0, eq := [], ineq := [], div := [] }

/-- Modelled from the spec: `isl_basic_map_align_divs(dst, src)` on a
container `dst` without existential dimensions, which receives those of
`src`. -/
def isl_basic_map_align_divs (dst src : isl_basic_map) : isl_basic_map :=
  { dst with div := src.div }

/-- Modelled from the spec: `isl_basic_map_extend_constraints`, room for more
rows (no row changes). -/
abbrev isl_basic_map_extend_constraints (bmap : isl_basic_map) (n_eq n_ineq : Nat) :
    isl_basic_map :=
  isl_basic_set_extend_constraints bmap n_eq n_ineq

/-- Modelled from the spec: `isl_basic_map_alloc_equality`, one more equality
row (its content not yet written) and its index. -/
def isl_basic_map_alloc_equality (bmap : isl_basic_map) : isl_basic_map × Nat :=
  ({ bmap with eq := bmap.eq ++ [[]], normalized := false }, bmap.eq.length)

/-- Modelled from the spec: `isl_basic_map_alloc_inequality`. -/
abbrev isl_basic_map_alloc_inequality (bmap : isl_basic_map) : isl_basic_map × Nat :=
  isl_basic_set_alloc_inequality bmap

/-- Modelled from the spec: `isl_basic_map_finalize`. -/
abbrev isl_basic_map_finalize (bmap : isl_basic_map) : isl_basic_map :=
  isl_basic_set_finalize bmap

/-- The function `isl_basic_map_from_constraint`.  In the first branch the
container gains a holder and loses the cursor's when the cursor is
released. -/
def isl_basic_map_from_constraint (constraint : isl_constraint) : isl_basic_map :=
  if constraint.bmap.eq.length + constraint.bmap.ineq.length = 1 then
    let bmap := isl_basic_map_copy constraint.bmap
    match (isl_constraint_free { constraint with bmap := bmap }).bmap with
    | some b => b
    | none => bmap
  else
    let bmap := isl_basic_map_universe_like constraint.bmap
    let bmap := isl_basic_map_align_divs bmap constraint.bmap
    let bmap := isl_basic_map_cow bmap
    let bmap := isl_basic_map_extend_constraints bmap 1 1
    if isl_constraint_is_equality constraint ≠ 0 then
      let alloc := isl_basic_map_alloc_equality bmap
      let bmap := alloc.1
      let k := alloc.2
      let total := isl_basic_map_total_dim bmap
      let c := isl_seq_cpy (bmap.eq.getD k []) (rowAt constraint.bmap constraint.line)
        (1 + total)
      let bmap := { bmap with eq := bmap.eq.set k c }
      isl_basic_map_finalize bmap
    else
      let alloc := isl_basic_map_alloc_inequality bmap
      let bmap := alloc.1
      let k := alloc.2
      let total := isl_basic_map_total_dim bmap
      let c := isl_seq_cpy (bmap.ineq.getD k []) (rowAt constraint.bmap constraint.line)
        (1 + total)
      let bmap := { bmap with ineq := bmap.ineq.set k c }
      isl_basic_map_finalize bmap

/-! ## Existential dimensions -/

/-- The handle `struct isl_div`: its container and the row `line[0]` that
defines the existential dimension. -/
structure isl_div where
  bmap : isl_basic_map
  line : List Int
  deriving DecidableEq, Repr

/-- Modelled from the spec: `isl_dim_equal`, equality of two dimension
descriptors. -/
def isl_dim_equal (d1 d2 : isl_dim) : Bool := decide (d1 = d2)

/-- Modelled from the spec: `isl_basic_map_extend_dim(bmap, dim, extra, n_eq,
n_ineq)` on the container's own descriptor: room for `extra` more existential
dimensions and `n_ineq` more inequality rows; the result is not final. -/
def isl_basic_map_extend_dim (bmap : isl_basic_map) (_dim : isl_dim)
    (_extra _n_eq n_ineq : Nat) : isl_basic_map :=
  { bmap with final := false, eq_pos := max bmap.eq_pos (bmap.ineq.length + n_ineq) }

/-- Modelled from the spec: `isl_basic_map_alloc_div`, one more existential
dimension: a zero coefficient at the end of every row, a defining row not yet
written, and the index of the new dimension. -/
def isl_basic_map_alloc_div (bmap : isl_basic_map) : isl_basic_map × Nat :=
  ({ bmap with
     eq := bmap.eq.map (fun r => r ++ [0])
     ineq := bmap.ineq.map (fun r => r ++ [0])
     div := bmap.div.map (fun r => r ++ [0]) ++ [[]] }, bmap.div.length)

/-- The function `isl_constraint_add_div`: the cursor returned and the index
stored into `*pos`; `none` is the null return. -/
def isl_constraint_add_div (constraint : isl_constraint) (div : isl_div) :
    Option (isl_constraint × Nat) :=
  if ¬ isl_dim_equal div.bmap.dim constraint.bmap.dim then none
  else if ¬ constraint.bmap.eq.length + constraint.bmap.ineq.length = 1 then none
  else
    let bmap := isl_basic_map_cow constraint.bmap
    let bmap := isl_basic_map_extend_dim bmap bmap.dim 1 0 0
    let constraint := { constraint with bmap := bmap }
    let constraint := { constraint with line := constraint.bmap.eq_pos + 0 }
    let alloc := isl_basic_map_alloc_div constraint.bmap
    let constraint := { constraint with bmap := alloc.1 }
    let pos := alloc.2
    let row := isl_seq_cpy (constraint.bmap.div.getD pos []) div.line
      (1 + 1 + isl_basic_map_total_dim constraint.bmap)
    let bmap := { constraint.bmap with div := constraint.bmap.div.set pos row }
    let constraint := { constraint with bmap := bmap }
    some (constraint, pos)

/-! ## Defining equality and defining inequalities -/

/-- Modelled from the spec: `isl_seq_first_non_zero(p, len)`, the index of the
first non-zero entry among the first `len`, or `-1`. -/
def isl_seq_first_non_zero (p : List Int) (len : Nat) : Int :=
  match (List.range len).find? (fun k => decide (p.getD k 0 ≠ 0)) with
  | some k => (k : Int)
  | none => -1

/-- Modelled from the spec: `isl_seq_is_neg(p1, p2, len)`, whether the first
`len` entries of `p1` are the negations of those of `p2`. -/
def isl_seq_is_neg (p1 p2 : List Int) (len : Nat) : Bool :=
  (List.range len).all (fun k => decide (p1.getD k 0 = -(p2.getD k 0)))

/-- Modelled from the spec: `isl_int_abs_ge(a, b)`. -/
def isl_int_abs_ge (a b : Int) : Bool := decide (a.natAbs ≥ b.natAbs)

/-- The function `isl_basic_set_has_defining_equality`: the value returned and
the cursor stored into `*c` (`none` when nothing is stored). -/
def isl_basic_set_has_defining_equality (bset : isl_basic_set) (type : isl_dim_type)
    (pos : Nat) : Int × Option isl_constraint :=
  let offset := basic_set_offset bset type
  let total := isl_basic_set_total_dim bset
  if ¬ pos < isl_basic_set_dim bset type then (-1, none)
  else
    match (List.range bset.eq.length).find? (fun i =>
      decide (coef bset.eq i (offset + pos) ≠ 0) &&
      decide (isl_seq_first_non_zero ((bset.eq.getD i []).drop (offset + pos + 1))
        (1 + total - offset - pos - 1) = -1)) with
    | some i =>
      (1, some (isl_basic_set_constraint (isl_basic_set_copy bset) (bset.eq_pos + i)))
    | none => (0, none)

/-- The test that row `j` completes row `i` in
`isl_basic_set_has_defining_inequalities`. -/
def defining_pair_test (bset : isl_basic_set) (offset pos total i j : Nat) : Bool :=
  isl_seq_is_neg ((bset.ineq.getD i []).drop 1) ((bset.ineq.getD j []).drop 1) total &&
    !isl_int_abs_ge (coef bset.ineq i 0 + coef bset.ineq j 0) (coef bset.ineq i (offset + pos))

/-- The outer loop of `isl_basic_set_has_defining_inequalities` over the
indices still to visit: the first pair `(i, j)` found. -/
def defining_inequalities_loop (bset : isl_basic_set) (offset pos total : Nat) :
    List Nat → Option (Nat × Nat)
  | [] => none
  | i :: rest =>
    if coef bset.ineq i (offset + pos) = 0 then
      defining_inequalities_loop bset offset pos total rest
    else if coef bset.ineq i (offset + pos) = 1 then
      defining_inequalities_loop bset offset pos total rest
    else if coef bset.ineq i (offset + pos) = -1 then
      defining_inequalities_loop bset offset pos total rest
    else if isl_seq_first_non_zero ((bset.ineq.getD i []).drop (offset + pos + 1))
        (1 + total - offset - pos - 1) ≠ -1 then
      defining_inequalities_loop bset offset pos total rest
    else
      match (List.range' (i + 1) (bset.ineq.length - (i + 1))).find?
        (fun j => defining_pair_test bset offset pos total i j) with
      | some j => some (i, j)
      | none => defining_inequalities_loop bset offset pos total rest

/-- The function `isl_basic_set_has_defining_inequalities`: the value returned
and the cursors stored into `*lower` and `*upper` (`none` for null or when
nothing is stored). -/
def isl_basic_set_has_defining_inequalities (bset : isl_basic_set) (type : isl_dim_type)
    (pos : Nat) : Int × Option isl_constraint × Option isl_constraint :=
  let offset := basic_set_offset bset type
  let total := isl_basic_set_total_dim bset
  if ¬ pos < isl_basic_set_dim bset type then (-1, none, none)
  else
    match defining_inequalities_loop bset offset pos total (List.range bset.ineq.length) with
    | some (i, j) =>
      let lower_line := if 0 < coef bset.ineq i (offset + pos) then i else j
      let upper_line := if 0 < coef bset.ineq i (offset + pos) then j else i
      (1, some (isl_basic_set_constraint (isl_basic_set_copy bset) lower_line),
        some (isl_basic_set_constraint (isl_basic_set_copy bset) upper_line))
    | none => (0, none, none)

/-! ## Rational values of a bound -/

/-- The spec's words: the rational value of the dimension `d` that the row `r`
implies at the point `x` of the remaining dimensions: the row reads
`c * d + rest >= 0`, and the value is `-rest / c`. -/
def implied_bound (r : List Int) (d : Nat) (x : Nat → Int) : ℚ :=
  -(rowValue (r.eraseIdx (1 + d)) x : ℚ) / (r.getD (1 + d) 0 : ℚ)

/-- The spec's words: the value of the row `r` at the point `x` of the
remaining dimensions completed by the rational value `q` of the dimension
`d`. -/
def rowValueAt (r : List Int) (d : Nat) (x : Nat → Int) (q : ℚ) : ℚ :=
  (r.getD (1 + d) 0 : ℚ) * q + (rowValue (r.eraseIdx (1 + d)) x : ℚ)

/-! ## The results of the invocations -/

/-- The user state after the invocations `calls`, made in order from `user`. -/
def user_after {σ : Type} (fn : BoundFn σ) : σ → List BoundCall → σ
  | user, [] => user
  | user, c :: cs => user_after fn (fn c.lower c.upper c.bset user).2 cs

/-- The values that the callback returns on the invocations `calls`, made in
order from `user`. -/
def call_results {σ : Type} (fn : BoundFn σ) : σ → List BoundCall → List Int
  | _, [] => []
  | user, c :: cs =>
    (fn c.lower c.upper c.bset user).1 ::
      call_results fn (fn c.lower c.upper c.bset user).2 cs

/-- The candidate invocations of a run with valid arguments and no equality
row on the dimension: the single one of the case without bounds, or the
bounds or pairs of bounds whose context passes the emptiness test, in the
order of the loops. -/
def bound_candidates (C : Collab) (bset : isl_basic_set) (type : isl_dim_type) (pos : Nat) :
    List BoundCall :=
  let abs_pos := bound_abs_pos bset type pos
  let n_lower := (count_bounds bset abs_pos).1
  let n_upper := (count_bounds bset abs_pos).2
  let context := base_context bset type pos abs_pos
  if n_lower = 0 ∧ n_upper = 0 then [⟨none, none, context⟩]
  else if n_lower = 0 then
    ((List.range bset.ineq.length).filter (upper_keep C bset abs_pos context n_upper)).map
      (upper_call C bset abs_pos context n_upper)
  else if n_upper = 0 then
    ((List.range bset.ineq.length).filter (lower_keep C bset abs_pos context n_lower)).map
      (lower_call C bset abs_pos context n_lower)
  else pair_candidates C bset abs_pos context n_lower n_upper (List.range bset.ineq.length)

/-- The invariant of a loop that started in the state `user` with the
candidates `cands` ahead: the invocations made are the first candidates, in
order, the user state is the one they leave, and either the loop ran to its
end, every invocation returned a non-negative value and every candidate was
invoked, or the loop was left through `break` and the last invocation is the
only one that returned a negative value. -/
def LoopTrace {σ : Type} (fn : BoundFn σ) (user : σ) (cands : List BoundCall)
    (out : LoopOut σ) : Prop :=
  out.user = user_after fn user out.calls ∧
  out.calls <+: cands ∧
  ((out.broke = false ∧ (∀ v ∈ call_results fn user out.calls, 0 ≤ v) ∧ out.calls = cands) ∨
   (out.broke = true ∧ ∃ pre c, out.calls = pre ++ [c] ∧
      (∀ v ∈ call_results fn user pre, 0 ≤ v) ∧
      (fn c.lower c.upper c.bset (user_after fn user pre)).1 < 0))

/-! ## Concrete inputs -/

/-- A simplification that changes nothing. -/
def simplifyId : isl_basic_set → isl_basic_set := fun b => b

/-- An emptiness test that looks at the origin only. -/
def isEmptyAtOrigin : isl_basic_set → Int :=
  fun b => if sat b (fun _ => 0) then 0 else 1

/-- Simplification preserves the dimensions and the integer points. -/
def SimplifyPreserves (C : Collab) : Prop :=
  ∀ b, isl_basic_set_total_dim (C.isl_basic_set_simplify b) = isl_basic_set_total_dim b ∧
    ∀ x, sat (C.isl_basic_set_simplify b) x ↔ sat b x

/-- Collaborators whose emptiness test never answers "empty". -/
def collabNever : Collab :=
  { isl_basic_set_simplify := simplifyId
    isl_basic_set_is_empty := fun _ => 0
    isl_basic_set_remove := fun b type pos _ => isl_basic_set_drop b type pos }

/-- An inequality cursor with two holders on a container with one holder. -/
def sharedCursor : isl_constraint :=
  { ref := 2, line := 0,
    bmap := { ref := 1, final := false, normalized := false,
              dim := { nparam := 0, n_in := 0, n_out := 1 },
              eq_pos := 1, eq := [], ineq := [[0, 1]], div := [] } }

/-- An inequality cursor with one holder on a container with one holder. -/
def ownedCursor : isl_constraint :=
  { ref := 1, line := 0,
    bmap := { ref := 1, final := false, normalized := true,
              dim := { nparam := 0, n_in := 0, n_out := 1 },
              eq_pos := 1, eq := [], ineq := [[3, 2]], div := [] } }

/-- An inequality cursor with one holder on a container with two holders. -/
def sharedContainerCursor : isl_constraint :=
  { ref := 1, line := 0,
    bmap := { ref := 2, final := true, normalized := false,
              dim := { nparam := 0, n_in := 0, n_out := 1 },
              eq_pos := 1, eq := [], ineq := [[3, 2]], div := [] } }

/-- Collaborators for concrete runs. -/
def collab0 : Collab :=
  { isl_basic_set_simplify := simplifyId
    isl_basic_set_is_empty := isEmptyAtOrigin
    isl_basic_set_remove := fun b type pos _ => isl_basic_set_drop b type pos }

/-- A callback that counts its invocations and never fails. -/
def countFn : BoundFn Nat := fun _ _ _ k => (0, k + 1)

/-- The container over one set dimension `d` with rows `d >= 0`, `d - 5 >= 0`
and `-d + 10 >= 0`. -/
def bsetDominated : isl_basic_set :=
  { ref := 1, final := true, normalized := false,
    dim := { nparam := 0, n_in := 0, n_out := 1 },
    eq_pos := 3, eq := [], ineq := [[0, 1], [-5, 1], [10, -1]], div := [] }

/-- A container over two set dimensions `x`, `y` with the equalities
`y + 1 = 0` and `2 x - 4 = 0` and the inequalities `x >= 0`, `-x + 10 >= 0`. -/
def bsetEquality : isl_basic_set :=
  { ref := 1, final := true, normalized := false,
    dim := { nparam := 0, n_in := 0, n_out := 2 },
    eq_pos := 2, eq := [[1, 0, 1], [-4, 2, 0]], ineq := [[0, 1, 0], [10, -1, 0]], div := [] }

/-- A container over two set dimensions `x`, `y` with the equality `y - 3 = 0`
and the inequality `y >= 0`: no row mentions `x`. -/
def bsetNoBound : isl_basic_set :=
  { ref := 1, final := true, normalized := false,
    dim := { nparam := 0, n_in := 0, n_out := 2 },
    eq_pos := 1, eq := [[-3, 0, 1]], ineq := [[0, 0, 1]], div := [] }

/-- A container over two set dimensions `x`, `y` with the single inequality
`-1 >= 0`: it has no integer point and no row mentions `x`. -/
def bsetInfeasible : isl_basic_set :=
  { ref := 1, final := true, normalized := false,
    dim := { nparam := 0, n_in := 0, n_out := 2 },
    eq_pos := 1, eq := [], ineq := [[-1, 0, 0]], div := [] }

/-- A container over one parameter `p` and one set dimension `d` with rows
`d >= 0`, `d - p >= 0` and `-d + 10 >= 0`. -/
def bsetParam : isl_basic_set :=
  { ref := 1, final := true, normalized := false,
    dim := { nparam := 1, n_in := 0, n_out := 1 },
    eq_pos := 3, eq := [], ineq := [[0, 0, 1], [0, -1, 1], [10, 0, -1]], div := [] }

/-- The point with every coordinate equal to 7. -/
def pointSeven : Nat → Int := fun _ => 7

/-- The cursor addresses a live row of its container: the inequality rows lie
below the equality region, the row pointer is on an equality row or on an
inequality row, and that row is as long as the dimensions say. -/
def liveCursor (c : isl_constraint) : Prop :=
  c.bmap.ineq.length ≤ c.bmap.eq_pos ∧
  ((c.bmap.eq_pos ≤ c.line ∧ c.line - c.bmap.eq_pos < c.bmap.eq.length) ∨
    c.line < c.bmap.ineq.length) ∧
  (rowAt c.bmap c.line).length = 1 + isl_basic_map_total_dim c.bmap

instance (c : isl_constraint) : Decidable (liveCursor c) := by
  unfold liveCursor; infer_instance

/-- The spec's words: a row defines the dimension at position `p` when its
coefficient there is non-zero and every coefficient strictly after that
position, up to position `total`, is zero. -/
def definesAt (total p : Nat) (r : List Int) : Prop :=
  r.getD p 0 ≠ 0 ∧ ∀ k, k < 1 + total → p < k → r.getD k 0 = 0

instance (total p : Nat) (r : List Int) : Decidable (definesAt total p r) := by
  unfold definesAt; infer_instance

/-- The spec's words: inequality rows `ri` and `rj` sandwich the dimension at
position `p`: the coefficient of `ri` there is not 0, 1 or -1, `ri` is zero
after that position, the non-constant part of `rj` is the elementwise
negation of that of `ri`, and the sum of the two constants is smaller in
absolute value than that coefficient. -/
def definingPair (total p : Nat) (ri rj : List Int) : Prop :=
  (ri.getD p 0 ≠ 0 ∧ ri.getD p 0 ≠ 1 ∧ ri.getD p 0 ≠ -1) ∧
  (∀ k, k < 1 + total → p < k → ri.getD k 0 = 0) ∧
  (∀ k, k < 1 + total → 1 ≤ k → rj.getD k 0 = -(ri.getD k 0)) ∧
  (ri.getD 0 0 + rj.getD 0 0).natAbs < (ri.getD p 0).natAbs

instance (total p : Nat) (ri rj : List Int) : Decidable (definingPair total p ri rj) := by
  unfold definingPair; infer_instance

/-- A cursor with one holder on the second equality row, `2 x - 4 = 0`, of a
container with two equality and two inequality rows. -/
def equalityCursor : isl_constraint :=
  { ref := 1, bmap := bsetEquality, line := 3 }

/-- A cursor with one holder on the second inequality row, `-x + 10 >= 0`, of
the same container. -/
def inequalityCursor : isl_constraint :=
  { ref := 1, bmap := bsetEquality, line := 1 }

/-- The definition `floor(d / 2)` of an existential dimension over one set
dimension `d`: denominator 2, constant 0, coefficient 1 of `d`, coefficient 0
of the new dimension. -/
def divHalf : isl_div :=
  { bmap := ownedCursor.bmap, line := [2, 0, 1, 0] }

/-- The container over one set dimension `d` with rows `3 d - 1 >= 0` and
`-3 d + 1 >= 0`: no integer `d` satisfies both. -/
def bsetSandwich : isl_basic_set :=
  { ref := 1, final := true, normalized := false,
    dim := { nparam := 0, n_in := 0, n_out := 1 },
    eq_pos := 2, eq := [], ineq := [[-1, 3], [1, -3]], div := [] }

/-- The container over one parameter `p` and one set dimension `d` with rows
`p >= 0`, `-3 d + p + 2 >= 0` and `3 d - p >= 0`: `d` is `floor((p + 2) / 3)`. -/
def bsetTight : isl_basic_set :=
  { ref := 1, final := true, normalized := false,
    dim := { nparam := 1, n_in := 0, n_out := 1 },
    eq_pos := 3, eq := [], ineq := [[0, 1, 0], [2, 1, -3], [0, -1, 3]], div := [] }

/-- The container over two set dimensions `x`, `y` with the equalities
`x + y = 0` and `2 x - 4 = 0` and `x - 1 = 0`: the second is the first to
define `x`. -/
def bsetDefined : isl_basic_set :=
  { ref := 1, final := true, normalized := false,
    dim := { nparam := 0, n_in := 0, n_out := 2 },
    eq_pos := 0, eq := [[0, 1, 1], [-4, 2, 0], [-1, 1, 0]], ineq := [], div := [] }

/-- The points of the line `p = 4`: `d` free. -/
def pointFour (d : Int) : Nat → Int := fun k => if k = 1 then d else 4

/-- A callback that counts its invocations and fails on each. -/
def failFn : BoundFn Nat := fun _ _ _ k => (-1, k + 1)

/-! ## Rows and points -/

theorem seqDot_neg (as : List Int) (x : Nat → Int) :
    seqDot (as.map (fun v => -v)) x = -seqDot as x := by
  induction as generalizing x with
  | nil => simp [seqDot]
  | cons a as ih => simp only [List.map_cons, seqDot, ih]; ring

theorem isl_seq_neg_full (r : List Int) (len : Nat) (h : r.length ≤ len) :
    isl_seq_neg r len = r.map (fun v => -v) := by
  unfold isl_seq_neg
  rw [List.take_of_length_le h, List.drop_eq_nil_of_le h, List.append_nil]

theorem rowAt_ineq (bmap : isl_basic_map) (line : Nat) (h : ¬ bmap.eq_pos ≤ line) :
    rowAt bmap line = bmap.ineq.getD line [] := by
  simp [rowAt, h]

theorem is_equality_eq_zero (c : isl_constraint) :
    isl_constraint_is_equality c = 0 ↔ ¬ c.bmap.eq_pos ≤ c.line := by
  unfold isl_constraint_is_equality
  by_cases h : c.bmap.eq_pos ≤ c.line <;> simp [h]

/-- The row that negation stores: constant `-c - 1`, every coefficient negated. -/
theorem negate_row (c0 : Int) (as : List Int) (len : Nat) (h : as.length + 1 ≤ len) :
    (isl_seq_neg (c0 :: as) len).set 0 ((isl_seq_neg (c0 :: as) len).getD 0 0 - 1)
      = (-c0 - 1) :: as.map (fun v => -v) := by
  rw [isl_seq_neg_full _ _ (by simpa using h)]
  simp

theorem negate_ok (c : isl_constraint) (c0 : Int) (as : List Int)
    (hineq : isl_constraint_is_equality c = 0)
    (hrow : rowAt c.bmap c.line = c0 :: as)
    (hlen : as.length = isl_basic_map_total_dim c.bmap)
    (href : c.bmap.ref = 1) :
    ∃ c', isl_constraint_negate c = .ok c' ∧ c'.line = c.line ∧ c'.ref = c.ref ∧
      c'.bmap.ineq = c.bmap.ineq.set c.line ((-c0 - 1) :: as.map (fun v => -v)) ∧
      c'.bmap.eq = c.bmap.eq ∧ c'.bmap.eq_pos = c.bmap.eq_pos ∧
      c'.bmap.ref = c.bmap.ref ∧ c'.bmap.dim = c.bmap.dim ∧ c'.bmap.div = c.bmap.div := by
  have hpos : ¬ c.bmap.eq_pos ≤ c.line := (is_equality_eq_zero c).1 hineq
  have hr := negate_row c0 as (1 + isl_basic_map_total_dim c.bmap) (by omega)
  unfold isl_constraint_negate
  rw [if_neg (by simp [hineq]), if_neg (by simp [href])]
  dsimp only
  rw [hrow, hr]
  refine ⟨_, rfl, rfl, rfl, ?_, ?_, ?_, ?_, ?_, ?_⟩ <;> simp [setRowAt, hpos]

theorem rowAt_of_ineq_set (b b' : isl_basic_map) (line : Nat) (row : List Int)
    (hpos : ¬ b.eq_pos ≤ line) (hlive : line < b.ineq.length)
    (hpos' : b'.eq_pos = b.eq_pos) (hineq : b'.ineq = b.ineq.set line row) :
    rowAt b' line = row := by
  rw [rowAt_ineq _ _ (by rw [hpos']; exact hpos), hineq]
  simp [List.getD_eq_getElem?_getD, hlive]

theorem row_cases (r : List Int) (m : Nat) (h : r.length = 1 + m) :
    ∃ c0 as, r = c0 :: as ∧ as.length = m := by
  cases r with
  | nil => simp at h; omega
  | cons c0 as => exact ⟨c0, as, rfl, by simp at h; omega⟩

/-! ## Negation -/

/-- C8: on an inequality cursor that addresses a live row `c0 :: as` of a
container with one holder, `isl_constraint_negate` succeeds, keeps the cursor
on its row, stores there the constant `-c0 - 1` and the negated coefficients,
leaves every other row alone, and an integer point satisfies the new
inequality exactly when it violates the old one. -/
theorem isl_constraint_negate_complement (c : isl_constraint)
    (hineq : isl_constraint_is_equality c = 0)
    (hlive : c.line < c.bmap.ineq.length)
    (hlen : (rowAt c.bmap c.line).length = 1 + isl_basic_map_total_dim c.bmap)
    (href : c.bmap.ref = 1) :
    ∃ c', isl_constraint_negate c = .ok c' ∧ c'.line = c.line ∧ c'.ref = c.ref ∧
      rowAt c'.bmap c'.line =
        (-(rowAt c.bmap c.line).headD 0 - 1) :: (rowAt c.bmap c.line).tail.map (fun v => -v) ∧
      c'.bmap.eq = c.bmap.eq ∧
      c'.bmap.ineq = c.bmap.ineq.set c.line (rowAt c'.bmap c'.line) ∧
      ∀ x : Nat → Int, 0 ≤ rowValue (rowAt c'.bmap c'.line) x ↔
        ¬ 0 ≤ rowValue (rowAt c.bmap c.line) x := by
  have hpos : ¬ c.bmap.eq_pos ≤ c.line := (is_equality_eq_zero c).1 hineq
  obtain ⟨c0, as, hrow, hlen'⟩ := row_cases _ _ hlen
  obtain ⟨c', hok, hline, hrefc, hin, heq, hep, -, -, -⟩ :=
    negate_ok c c0 as hineq hrow hlen' href
  have hnew : rowAt c'.bmap c'.line = (-c0 - 1) :: as.map (fun v => -v) := by
    rw [hline]; exact rowAt_of_ineq_set c.bmap c'.bmap c.line _ hpos hlive hep hin
  refine ⟨c', hok, hline, hrefc, ?_, heq, ?_, ?_⟩
  · rw [hnew, hrow]; rfl
  · rw [hnew]; exact hin
  · intro x
    rw [hnew, hrow]
    simp only [rowValue, seqDot_neg]
    constructor <;> intro h <;> omega

/-- Witness of C8 on the row `2 d + 3 >= 0`. -/
theorem isl_constraint_negate_complement_witness :
    ∃ c', isl_constraint_negate ownedCursor = .ok c' ∧ c'.line = ownedCursor.line ∧
      c'.ref = ownedCursor.ref ∧
      rowAt c'.bmap c'.line =
        (-(rowAt ownedCursor.bmap ownedCursor.line).headD 0 - 1) ::
          (rowAt ownedCursor.bmap ownedCursor.line).tail.map (fun v => -v) ∧
      c'.bmap.eq = ownedCursor.bmap.eq ∧
      c'.bmap.ineq = ownedCursor.bmap.ineq.set ownedCursor.line (rowAt c'.bmap c'.line) ∧
      ∀ x : Nat → Int, 0 ≤ rowValue (rowAt c'.bmap c'.line) x ↔
        ¬ 0 ≤ rowValue (rowAt ownedCursor.bmap ownedCursor.line) x :=
  isl_constraint_negate_complement ownedCursor (by decide) (by decide) (by decide) (by decide)

/-- C9: on an inequality cursor that addresses a live row of a container with
one holder, two applications of `isl_constraint_negate` both succeed and
leave every equality and inequality row of the container, the addressed one
included, exactly as it was. -/
theorem isl_constraint_negate_involution (c : isl_constraint)
    (hineq : isl_constraint_is_equality c = 0)
    (hlive : c.line < c.bmap.ineq.length)
    (hlen : (rowAt c.bmap c.line).length = 1 + isl_basic_map_total_dim c.bmap)
    (href : c.bmap.ref = 1) :
    ∃ c' c'', isl_constraint_negate c = .ok c' ∧ isl_constraint_negate c' = .ok c'' ∧
      c''.line = c.line ∧
      rowAt c''.bmap c''.line = rowAt c.bmap c.line ∧
      c''.bmap.ineq = c.bmap.ineq ∧ c''.bmap.eq = c.bmap.eq := by
  have hpos : ¬ c.bmap.eq_pos ≤ c.line := (is_equality_eq_zero c).1 hineq
  obtain ⟨c0, as, hrow, hlen'⟩ := row_cases _ _ hlen
  have hget : c.bmap.ineq.getD c.line [] = c0 :: as := by
    rw [← rowAt_ineq _ _ hpos]; exact hrow
  obtain ⟨c', hok, hline, -, hin, heq, hep, hrf, hdim, hdiv⟩ :=
    negate_ok c c0 as hineq hrow hlen' href
  have hpos' : ¬ c'.bmap.eq_pos ≤ c'.line := by rw [hep, hline]; exact hpos
  have hnew : rowAt c'.bmap c'.line = (-c0 - 1) :: as.map (fun v => -v) := by
    rw [hline]; exact rowAt_of_ineq_set c.bmap c'.bmap c.line _ hpos hlive hep hin
  obtain ⟨c'', hok2, hline2, -, hin2, heq2, hep2, -, -, -⟩ :=
    negate_ok c' (-c0 - 1) (as.map (fun v => -v)) ((is_equality_eq_zero c').2 hpos') hnew
      (by simp [isl_basic_map_total_dim, hdim, hdiv] at hlen' ⊢; exact hlen')
      (by rw [hrf]; exact href)
  have hback : c''.bmap.ineq = c.bmap.ineq := by
    have hrow2 : (-(-c0 - 1) - 1) :: (as.map (fun v => -v)).map (fun v => -v) = c0 :: as := by
      simp
    rw [hin2, hin, hline, hrow2, List.set_set]
    apply List.ext_getElem (by simp)
    intro k hk1 hk2
    rw [List.getElem_set]
    split
    · next hk =>
      subst hk
      rw [List.getD_eq_getElem?_getD, List.getElem?_eq_getElem hk2] at hget
      simpa using hget.symm
    · rfl
  refine ⟨c', c'', hok, hok2, by rw [hline2, hline], ?_, hback, by rw [heq2, heq]⟩
  rw [rowAt_ineq _ _ (by rw [hep2, hep, hline2, hline]; exact hpos), rowAt_ineq _ _ hpos,
    hback, hline2, hline]

/-- Witness of C9 on the row `2 d + 3 >= 0`. -/
theorem isl_constraint_negate_involution_witness :
    ∃ c' c'', isl_constraint_negate ownedCursor = .ok c' ∧
      isl_constraint_negate c' = .ok c'' ∧ c''.line = ownedCursor.line ∧
      rowAt c''.bmap c''.line = rowAt ownedCursor.bmap ownedCursor.line ∧
      c''.bmap.ineq = ownedCursor.bmap.ineq ∧ c''.bmap.eq = ownedCursor.bmap.eq :=
  isl_constraint_negate_involution ownedCursor (by decide) (by decide) (by decide) (by decide)

/-- C10, as stated, fails: a cursor with two holders whose container has one
holder is negated in place, the call succeeds and the row `d >= 0` becomes
`-d - 1 >= 0`. -/
theorem isl_constraint_negate_shared_cursor_succeeds :
    1 < sharedCursor.ref ∧
    ∃ c', isl_constraint_negate sharedCursor = .ok c' ∧
      rowAt sharedCursor.bmap sharedCursor.line = [0, 1] ∧
      rowAt c'.bmap c'.line = [-1, -1] :=
  ⟨by decide, _, rfl, by decide, by decide⟩

/-- C10, amended: on a cursor whose container has more than one holder,
whatever the number of holders of the cursor itself,
`isl_constraint_negate` fails, and what its release leaves behind, the cursor
(still on the same row) and the container, has every row unchanged. -/
theorem isl_constraint_negate_shared_container (c : isl_constraint)
    (href : 1 < c.bmap.ref) :
    isl_constraint_negate c = .error (isl_constraint_free c) ∧
    (∀ c', (isl_constraint_free c).cursor = some c' →
      c'.line = c.line ∧ c'.bmap = c.bmap ∧ rowAt c'.bmap c'.line = rowAt c.bmap c.line) ∧
    (∀ b, (isl_constraint_free c).bmap = some b →
      b.eq = c.bmap.eq ∧ b.ineq = c.bmap.ineq ∧ b.eq_pos = c.bmap.eq_pos ∧
      rowAt b c.line = rowAt c.bmap c.line) := by
  refine ⟨?_, ?_, ?_⟩
  · unfold isl_constraint_negate
    by_cases h : isl_constraint_is_equality c ≠ 0
    · rw [if_pos h]
    · rw [if_neg h, if_pos (by omega)]
  · intro c' hc'
    unfold isl_constraint_free at hc'
    split at hc'
    · simp only [Option.some.injEq] at hc'
      subst hc'
      exact ⟨rfl, rfl, rfl⟩
    · simp at hc'
  · intro b hb
    unfold isl_constraint_free at hb
    split at hb
    · simp only [Option.some.injEq] at hb
      subst hb
      exact ⟨rfl, rfl, rfl, rfl⟩
    · simp only [isl_basic_map_free] at hb
      split at hb
      · simp only [Option.some.injEq] at hb
        subst hb
        exact ⟨rfl, rfl, rfl, rfl⟩
      · simp at hb

/-- Witness of the amended C10 on a container with two holders. -/
theorem isl_constraint_negate_shared_container_witness :
    isl_constraint_negate sharedContainerCursor =
      .error (isl_constraint_free sharedContainerCursor) ∧
    (∀ c', (isl_constraint_free sharedContainerCursor).cursor = some c' →
      c'.line = sharedContainerCursor.line ∧ c'.bmap = sharedContainerCursor.bmap ∧
      rowAt c'.bmap c'.line = rowAt sharedContainerCursor.bmap sharedContainerCursor.line) ∧
    (∀ b, (isl_constraint_free sharedContainerCursor).bmap = some b →
      b.eq = sharedContainerCursor.bmap.eq ∧ b.ineq = sharedContainerCursor.bmap.ineq ∧
      b.eq_pos = sharedContainerCursor.bmap.eq_pos ∧
      rowAt b sharedContainerCursor.line =
        rowAt sharedContainerCursor.bmap sharedContainerCursor.line) :=
  isl_constraint_negate_shared_container sharedContainerCursor (by decide)

/-! ## The row of a comparison of two bounds -/

theorem seqDot_zipWith (m1 m2 : Int) (a b : List Int) (h : a.length = b.length)
    (x : Nat → Int) :
    seqDot (List.zipWith (fun u v => m1 * u + m2 * v) a b) x
      = m1 * seqDot a x + m2 * seqDot b x := by
  induction a generalizing b x with
  | nil =>
    cases b with
    | nil => simp [seqDot]
    | cons v b => simp at h
  | cons u a ih =>
    cases b with
    | nil => simp at h
    | cons v b =>
      simp only [List.zipWith_cons_cons, seqDot]
      rw [ih b (by simpa using h)]
      ring

theorem dropCoord_succ (d : Nat) (p : Nat → Int) :
    (fun k => dropCoord (d + 1) p (k + 1)) = dropCoord d (fun k => p (k + 1)) := by
  funext k
  simp [dropCoord]

theorem seqDot_eraseIdx (as : List Int) (d : Nat) (p : Nat → Int) :
    seqDot (as.eraseIdx d) (dropCoord d p) = seqDot as p - as.getD d 0 * p d := by
  induction as generalizing d p with
  | nil => simp [seqDot]
  | cons a as ih =>
    cases d with
    | zero =>
      simp only [List.eraseIdx_cons_zero, seqDot, List.getD_cons_zero]
      have : dropCoord 0 p = fun k => p (k + 1) := by funext k; simp [dropCoord]
      rw [this]; ring
    | succ d =>
      simp only [List.eraseIdx_cons_succ, seqDot, List.getD_cons_succ]
      rw [dropCoord_succ, ih]
      simp only [dropCoord, Nat.zero_lt_succ, if_true]
      ring

/-- The value of a row at a point splits into the value of the row without
column `1 + d` at the point without coordinate `d`, and the term of `d`. -/
theorem rowValue_eraseIdx (r : List Int) (d : Nat) (p : Nat → Int) :
    rowValue (r.eraseIdx (1 + d)) (dropCoord d p) = rowValue r p - r.getD (1 + d) 0 * p d := by
  cases r with
  | nil => simp [rowValue]
  | cons c as =>
    rw [Nat.add_comm 1 d]
    simp only [List.eraseIdx_cons_succ, rowValue, List.getD_cons_succ, seqDot_eraseIdx]
    ring

theorem larger_bound_row_eq (T : Nat) (a b : List Int) (d : Nat)
    (ha : a.length = T + 2) (hb : b.length = T + 2) (hd : d ≤ T) :
    larger_bound_row T a b d 0 =
      List.zipWith (fun u v => -(b.getD (1 + d) 0) * u + a.getD (1 + d) 0 * v)
        (a.eraseIdx (1 + d)) (b.eraseIdx (1 + d)) := by
  unfold larger_bound_row isl_seq_combine
  simp only [ne_eq, not_true_eq_false, if_false]
  rw [List.eraseIdx_eq_take_drop_succ, List.eraseIdx_eq_take_drop_succ,
    List.zipWith_append _ _ _ _ _ (by simp [ha, hb])]
  congr 1
  rw [List.take_of_length_le (by simp [ha]; omega), List.take_of_length_le (by simp [hb]; omega)]

theorem larger_bound_row_strict (T : Nat) (a b : List Int) (d : Nat) (s : Int) (hs : s ≠ 0) :
    larger_bound_row T a b d s =
      (larger_bound_row T a b d 0).set 0 ((larger_bound_row T a b d 0).getD 0 0 - 1) := by
  simp [larger_bound_row, hs]

/-- The value of the comparison row: the cross-combination of the two rows
without their column `1 + d`, minus one when strict. -/
theorem rowValue_larger_bound_row (T : Nat) (a b : List Int) (d : Nat) (s : Int)
    (ha : a.length = T + 2) (hb : b.length = T + 2) (hd : d ≤ T) (x : Nat → Int) :
    rowValue (larger_bound_row T a b d s) x =
      -(b.getD (1 + d) 0) * rowValue (a.eraseIdx (1 + d)) x
        + a.getD (1 + d) 0 * rowValue (b.eraseIdx (1 + d)) x
        - (if s ≠ 0 then 1 else 0) := by
  have h0 := larger_bound_row_eq T a b d ha hb hd
  obtain ⟨a0, as, rfl, -⟩ := row_cases a (T + 1) (by omega)
  obtain ⟨b0, bs, rfl, -⟩ := row_cases b (T + 1) (by omega)
  have hlen : (as.eraseIdx d).length = (bs.eraseIdx d).length := by
    simp only [List.length_cons] at ha hb
    rw [List.length_eraseIdx, List.length_eraseIdx]
    simp [show d < as.length by omega, show d < bs.length by omega]
    omega
  rw [Nat.add_comm 1 d] at h0 ⊢
  simp only [List.eraseIdx_cons_succ, List.zipWith_cons_cons] at h0
  by_cases hs : s ≠ 0
  · rw [larger_bound_row_strict T _ _ d s hs, h0]
    simp only [List.eraseIdx_cons_succ, List.set_cons_zero, List.getD_cons_zero, rowValue,
      seqDot_zipWith _ _ _ _ hlen, if_pos hs]
    ring
  · have hs' : s = 0 := by simpa using hs
    subst hs'
    rw [h0]
    simp only [List.eraseIdx_cons_succ, rowValue, seqDot_zipWith _ _ _ _ hlen]
    simp
    ring


/-! ## Contexts -/

theorem cow_copy_fields (b : isl_basic_set) :
    (isl_basic_set_cow (isl_basic_set_copy b)).eq = b.eq ∧
    (isl_basic_set_cow (isl_basic_set_copy b)).ineq = b.ineq ∧
    (isl_basic_set_cow (isl_basic_set_copy b)).dim = b.dim ∧
    (isl_basic_set_cow (isl_basic_set_copy b)).div = b.div := by
  unfold isl_basic_set_cow isl_basic_map_cow isl_basic_set_copy isl_basic_map_copy
  split <;> simp

theorem total_dim_congr (b b' : isl_basic_map) (hdim : b.dim = b'.dim) (hdiv : b.div = b'.div) :
    isl_basic_set_total_dim b = isl_basic_set_total_dim b' := by
  simp [isl_basic_set_total_dim, isl_basic_map_total_dim, hdim, hdiv]

theorem sat_append (r ctx : isl_basic_map) (rows : List (List Int)) (x : Nat → Int)
    (heq : r.eq = ctx.eq) (hineq : r.ineq = ctx.ineq ++ rows) :
    sat r x ↔ sat ctx x ∧ ∀ row ∈ rows, 0 ≤ rowValue row x := by
  unfold sat
  rw [heq, hineq]
  simp only [List.mem_append]
  constructor
  · rintro ⟨h1, h2⟩
    exact ⟨⟨h1, fun r hr => h2 r (Or.inl hr)⟩, fun r hr => h2 r (Or.inr hr)⟩
  · rintro ⟨⟨h1, h2⟩, h3⟩
    exact ⟨h1, fun r hr => hr.elim (h2 r) (h3 r)⟩

theorem sat_congr (r ctx : isl_basic_map) (x : Nat → Int)
    (heq : r.eq = ctx.eq) (hineq : r.ineq = ctx.ineq) : sat r x ↔ sat ctx x := by
  unfold sat
  rw [heq, hineq]

theorem sat_finalize (b : isl_basic_set) (x : Nat → Int) :
    sat (isl_basic_set_finalize b) x ↔ sat b x := Iff.rfl

theorem total_finalize (b : isl_basic_set) :
    isl_basic_set_total_dim (isl_basic_set_finalize b) = isl_basic_set_total_dim b := rfl

theorem total_extend (b : isl_basic_set) (k m : Nat) :
    isl_basic_set_total_dim (isl_basic_set_extend_constraints b k m) =
      isl_basic_set_total_dim b := rfl

theorem set_append_singleton (l : List (List Int)) (row : List Int) :
    (l ++ [[]]).set l.length row = l ++ [row] := by
  induction l with
  | nil => rfl
  | cons a l ih => simp [ih]

theorem add_larger_fields (ctx : isl_basic_set) (a b : List Int) (d : Nat) (s : Int) :
    (add_larger_bound_constraint ctx a b d s).eq = ctx.eq ∧
    (add_larger_bound_constraint ctx a b d s).ineq =
      ctx.ineq ++ [larger_bound_row (isl_basic_set_total_dim ctx) a b d s] ∧
    (add_larger_bound_constraint ctx a b d s).dim = ctx.dim ∧
    (add_larger_bound_constraint ctx a b d s).div = ctx.div := by
  unfold add_larger_bound_constraint isl_basic_set_alloc_inequality
  refine ⟨rfl, ?_, rfl, rfl⟩
  dsimp only
  rw [set_append_singleton]
  rfl

theorem foldl_add_larger (keep : Nat → Prop) [DecidablePred keep] (A B : Nat → List Int)
    (S : Nat → Int) (d : Nat) (js : List Nat) (ctx : isl_basic_set) :
    (js.foldl (fun c j => if keep j then add_larger_bound_constraint c (A j) (B j) d (S j)
        else c) ctx).eq = ctx.eq ∧
    (js.foldl (fun c j => if keep j then add_larger_bound_constraint c (A j) (B j) d (S j)
        else c) ctx).ineq = ctx.ineq ++ (js.filter (fun j => decide (keep j))).map
          (fun j => larger_bound_row (isl_basic_set_total_dim ctx) (A j) (B j) d (S j)) ∧
    (js.foldl (fun c j => if keep j then add_larger_bound_constraint c (A j) (B j) d (S j)
        else c) ctx).dim = ctx.dim ∧
    (js.foldl (fun c j => if keep j then add_larger_bound_constraint c (A j) (B j) d (S j)
        else c) ctx).div = ctx.div := by
  induction js generalizing ctx with
  | nil => simp
  | cons j js ih =>
    simp only [List.foldl_cons]
    by_cases hk : keep j
    · obtain ⟨h1, h2, h3, h4⟩ := add_larger_fields ctx (A j) (B j) d (S j)
      obtain ⟨i1, i2, i3, i4⟩ := ih (add_larger_bound_constraint ctx (A j) (B j) d (S j))
      simp only [if_pos hk]
      refine ⟨i1.trans h1, ?_, i3.trans h3, i4.trans h4⟩
      rw [i2, h2, total_dim_congr _ ctx h3 h4]
      simp [List.filter_cons, hk]
    · obtain ⟨i1, i2, i3, i4⟩ := ih ctx
      simp only [if_neg hk]
      refine ⟨i1, ?_, i3, i4⟩
      rw [i2]
      simp [List.filter_cons, hk]

/-- The points of the context of "lower bound `l` is the largest": those of
the context it starts from that satisfy the comparison row of `l` with every
other lower bound `j`, strict when `j > l`. -/
theorem sat_set_largest_lower_bound (C : Collab) (hs : SimplifyPreserves C)
    (ctx bset : isl_basic_set) (d nl l : Nat) (x : Nat → Int) :
    sat (set_largest_lower_bound C ctx bset d nl l) x ↔
      sat ctx x ∧ ∀ j, j < bset.ineq.length → j ≠ l → 0 < coef bset.ineq j (1 + d) →
        0 ≤ rowValue (larger_bound_row (isl_basic_set_total_dim ctx)
          (bset.ineq.getD l []) (bset.ineq.getD j []) d (if j > l then 1 else 0)) x := by
  unfold set_largest_lower_bound
  have hfun : (fun (c : isl_basic_set) j =>
      if j = l then c
      else if ¬ 0 < coef bset.ineq j (1 + d) then c
      else add_larger_bound_constraint c (bset.ineq.getD l []) (bset.ineq.getD j []) d
        (if j > l then 1 else 0)) =
      (fun c j => if (j ≠ l ∧ 0 < coef bset.ineq j (1 + d)) then
        add_larger_bound_constraint c (bset.ineq.getD l []) (bset.ineq.getD j []) d
          (if j > l then 1 else 0) else c) := by
    funext c j
    by_cases h1 : j = l <;> by_cases h2 : 0 < coef bset.ineq j (1 + d) <;> simp [h1, h2]
  dsimp only
  rw [hfun]
  obtain ⟨c1, c2, c3, c4⟩ := cow_copy_fields ctx
  obtain ⟨f1, f2, f3, f4⟩ := foldl_add_larger (fun j => j ≠ l ∧ 0 < coef bset.ineq j (1 + d))
    (fun _ => bset.ineq.getD l []) (fun j => bset.ineq.getD j []) (fun j => if j > l then 1 else 0)
    d (List.range bset.ineq.length)
    (isl_basic_set_extend_constraints (isl_basic_set_cow (isl_basic_set_copy ctx)) 0 (nl - 1))
  rw [sat_finalize, (hs _).2,
    sat_append _ ctx _ x (f1.trans c1) (f2.trans (by rw [show
      (isl_basic_set_extend_constraints (isl_basic_set_cow (isl_basic_set_copy ctx)) 0
        (nl - 1)).ineq = ctx.ineq from c2]))]
  rw [total_dim_congr _ ctx (show (isl_basic_set_extend_constraints
    (isl_basic_set_cow (isl_basic_set_copy ctx)) 0 (nl - 1)).dim = ctx.dim from c3)
    (show (isl_basic_set_extend_constraints
    (isl_basic_set_cow (isl_basic_set_copy ctx)) 0 (nl - 1)).div = ctx.div from c4)]
  simp only [List.mem_map, List.mem_filter, List.mem_range, decide_eq_true_eq]
  constructor
  · rintro ⟨h1, h2⟩
    exact ⟨h1, fun j hj hne hp => h2 _ ⟨j, ⟨hj, hne, hp⟩, rfl⟩⟩
  · rintro ⟨h1, h2⟩
    refine ⟨h1, ?_⟩
    rintro row ⟨j, ⟨hj, hne, hp⟩, rfl⟩
    exact h2 j hj hne hp

theorem total_set_largest_lower_bound (C : Collab) (hs : SimplifyPreserves C)
    (ctx bset : isl_basic_set) (d nl l : Nat) :
    isl_basic_set_total_dim (set_largest_lower_bound C ctx bset d nl l) =
      isl_basic_set_total_dim ctx := by
  unfold set_largest_lower_bound
  have hfun : (fun (c : isl_basic_set) j =>
      if j = l then c
      else if ¬ 0 < coef bset.ineq j (1 + d) then c
      else add_larger_bound_constraint c (bset.ineq.getD l []) (bset.ineq.getD j []) d
        (if j > l then 1 else 0)) =
      (fun c j => if (j ≠ l ∧ 0 < coef bset.ineq j (1 + d)) then
        add_larger_bound_constraint c (bset.ineq.getD l []) (bset.ineq.getD j []) d
          (if j > l then 1 else 0) else c) := by
    funext c j
    by_cases h1 : j = l <;> by_cases h2 : 0 < coef bset.ineq j (1 + d) <;> simp [h1, h2]
  dsimp only
  rw [hfun]
  obtain ⟨-, -, c3, c4⟩ := cow_copy_fields ctx
  obtain ⟨-, -, f3, f4⟩ := foldl_add_larger (fun j => j ≠ l ∧ 0 < coef bset.ineq j (1 + d))
    (fun _ => bset.ineq.getD l []) (fun j => bset.ineq.getD j []) (fun j => if j > l then 1 else 0)
    d (List.range bset.ineq.length)
    (isl_basic_set_extend_constraints (isl_basic_set_cow (isl_basic_set_copy ctx)) 0 (nl - 1))
  rw [total_finalize, (hs _).1]
  exact total_dim_congr _ ctx (f3.trans c3) (f4.trans c4)

/-- The points of the context of "upper bound `u` is the smallest": those of
the context it starts from that satisfy the comparison row of every other
upper bound `j` with `u`, strict when `j > u`. -/
theorem sat_set_smallest_upper_bound (C : Collab) (hs : SimplifyPreserves C)
    (ctx bset : isl_basic_set) (d nu u : Nat) (x : Nat → Int) :
    sat (set_smallest_upper_bound C ctx bset d nu u) x ↔
      sat ctx x ∧ ∀ j, j < bset.ineq.length → j ≠ u → coef bset.ineq j (1 + d) < 0 →
        0 ≤ rowValue (larger_bound_row (isl_basic_set_total_dim ctx)
          (bset.ineq.getD j []) (bset.ineq.getD u []) d (if j > u then 1 else 0)) x := by
  unfold set_smallest_upper_bound
  have hfun : (fun (c : isl_basic_set) j =>
      if j = u then c
      else if ¬ coef bset.ineq j (1 + d) < 0 then c
      else add_larger_bound_constraint c (bset.ineq.getD j []) (bset.ineq.getD u []) d
        (if j > u then 1 else 0)) =
      (fun c j => if (j ≠ u ∧ coef bset.ineq j (1 + d) < 0) then
        add_larger_bound_constraint c (bset.ineq.getD j []) (bset.ineq.getD u []) d
          (if j > u then 1 else 0) else c) := by
    funext c j
    by_cases h1 : j = u <;> by_cases h2 : coef bset.ineq j (1 + d) < 0 <;> simp [h1, h2]
  dsimp only
  rw [hfun]
  obtain ⟨c1, c2, c3, c4⟩ := cow_copy_fields ctx
  obtain ⟨f1, f2, f3, f4⟩ := foldl_add_larger (fun j => j ≠ u ∧ coef bset.ineq j (1 + d) < 0)
    (fun j => bset.ineq.getD j []) (fun _ => bset.ineq.getD u []) (fun j => if j > u then 1 else 0)
    d (List.range bset.ineq.length)
    (isl_basic_set_extend_constraints (isl_basic_set_cow (isl_basic_set_copy ctx)) 0 (nu - 1))
  rw [sat_finalize, (hs _).2,
    sat_append _ ctx _ x (f1.trans c1) (f2.trans (by rw [show
      (isl_basic_set_extend_constraints (isl_basic_set_cow (isl_basic_set_copy ctx)) 0
        (nu - 1)).ineq = ctx.ineq from c2]))]
  rw [total_dim_congr _ ctx (show (isl_basic_set_extend_constraints
    (isl_basic_set_cow (isl_basic_set_copy ctx)) 0 (nu - 1)).dim = ctx.dim from c3)
    (show (isl_basic_set_extend_constraints
    (isl_basic_set_cow (isl_basic_set_copy ctx)) 0 (nu - 1)).div = ctx.div from c4)]
  simp only [List.mem_map, List.mem_filter, List.mem_range, decide_eq_true_eq]
  constructor
  · rintro ⟨h1, h2⟩
    exact ⟨h1, fun j hj hne hp => h2 _ ⟨j, ⟨hj, hne, hp⟩, rfl⟩⟩
  · rintro ⟨h1, h2⟩
    refine ⟨h1, ?_⟩
    rintro row ⟨j, ⟨hj, hne, hp⟩, rfl⟩
    exact h2 j hj hne hp

theorem total_set_smallest_upper_bound (C : Collab) (hs : SimplifyPreserves C)
    (ctx bset : isl_basic_set) (d nu u : Nat) :
    isl_basic_set_total_dim (set_smallest_upper_bound C ctx bset d nu u) =
      isl_basic_set_total_dim ctx := by
  unfold set_smallest_upper_bound
  have hfun : (fun (c : isl_basic_set) j =>
      if j = u then c
      else if ¬ coef bset.ineq j (1 + d) < 0 then c
      else add_larger_bound_constraint c (bset.ineq.getD j []) (bset.ineq.getD u []) d
        (if j > u then 1 else 0)) =
      (fun c j => if (j ≠ u ∧ coef bset.ineq j (1 + d) < 0) then
        add_larger_bound_constraint c (bset.ineq.getD j []) (bset.ineq.getD u []) d
          (if j > u then 1 else 0) else c) := by
    funext c j
    by_cases h1 : j = u <;> by_cases h2 : coef bset.ineq j (1 + d) < 0 <;> simp [h1, h2]
  dsimp only
  rw [hfun]
  obtain ⟨-, -, c3, c4⟩ := cow_copy_fields ctx
  obtain ⟨-, -, f3, f4⟩ := foldl_add_larger (fun j => j ≠ u ∧ coef bset.ineq j (1 + d) < 0)
    (fun j => bset.ineq.getD j []) (fun _ => bset.ineq.getD u []) (fun j => if j > u then 1 else 0)
    d (List.range bset.ineq.length)
    (isl_basic_set_extend_constraints (isl_basic_set_cow (isl_basic_set_copy ctx)) 0 (nu - 1))
  rw [total_finalize, (hs _).1]
  exact total_dim_congr _ ctx (f3.trans c3) (f4.trans c4)

/-- The points of the context of a pair: those of the context of the lower
bound `i` where `j` is the smallest upper bound and which satisfy the
non-strict comparison row of `i` with `j`. -/
theorem sat_bound_pair_context (C : Collab) (hs : SimplifyPreserves C)
    (bset ctx_i : isl_basic_set) (d nu i j : Nat) (x : Nat → Int) :
    sat (bound_pair_context C bset d ctx_i nu i j) x ↔
      sat (set_smallest_upper_bound C ctx_i bset d nu j) x ∧
        0 ≤ rowValue (larger_bound_row (isl_basic_set_total_dim ctx_i)
          (bset.ineq.getD i []) (bset.ineq.getD j []) d 0) x := by
  unfold bound_pair_context
  dsimp only
  obtain ⟨h1, h2, -, -⟩ := add_larger_fields
    (isl_basic_set_extend_constraints (set_smallest_upper_bound C ctx_i bset d nu j) 0 1)
    (bset.ineq.getD i []) (bset.ineq.getD j []) d 0
  rw [sat_finalize, (hs _).2,
    sat_append _ (set_smallest_upper_bound C ctx_i bset d nu j) _ x h1 h2,
    total_extend, total_set_smallest_upper_bound C hs]
  simp


/-! ## The loops -/

theorem bound_loop_sublist {σ : Type} (fn : BoundFn σ) (keep : Nat → Bool)
    (mk : Nat → BoundCall) (js : List Nat) (user : σ) :
    List.Sublist (bound_loop fn keep mk js user).calls ((js.filter keep).map mk) := by
  induction js generalizing user with
  | nil => simp [bound_loop]
  | cons i js ih =>
    unfold bound_loop
    by_cases hk : keep i = true
    · simp only [hk, if_true, List.filter_cons_of_pos, List.map_cons]
      split
      · exact List.Sublist.cons₂ _ (List.nil_sublist _)
      · exact List.Sublist.cons₂ _ (ih _)
    · simp only [hk, Bool.false_eq_true, if_false]
      rw [List.filter_cons_of_neg hk]
      exact ih _

theorem bound_loop_complete {σ : Type} (fn : BoundFn σ) (keep : Nat → Bool)
    (mk : Nat → BoundCall) (hfn : ∀ lo up b u, 0 ≤ (fn lo up b u).1)
    (js : List Nat) (user : σ) :
    (bound_loop fn keep mk js user).calls = (js.filter keep).map mk ∧
      (bound_loop fn keep mk js user).broke = false := by
  induction js generalizing user with
  | nil => simp [bound_loop]
  | cons i js ih =>
    unfold bound_loop
    by_cases hk : keep i = true
    · simp only [hk, if_true, List.filter_cons_of_pos, List.map_cons]
      rw [if_neg (not_lt.2 (hfn _ _ _ _))]
      exact ⟨by rw [(ih _).1], (ih _).2⟩
    · simp only [hk, Bool.false_eq_true, if_false]
      rw [List.filter_cons_of_neg hk]
      exact ih _

theorem foreach_upper_bound_loop_eq {σ : Type} (C : Collab) (bset : isl_basic_set)
    (d : Nat) (context : isl_basic_set) (nu : Nat) (fn : BoundFn σ) (js : List Nat)
    (user : σ) :
    foreach_upper_bound_loop C bset d context nu fn js user =
      bound_loop fn (upper_keep C bset d context nu) (upper_call C bset d context nu)
        js user := by
  induction js generalizing user with
  | nil => rfl
  | cons i js ih =>
    unfold foreach_upper_bound_loop bound_loop
    by_cases h0 : coef bset.ineq i (1 + d) = 0
    · have hk : ¬ upper_keep C bset d context nu i = true := by simp [upper_keep, h0]
      rw [if_pos h0, if_neg hk]
      exact ih user
    · rw [if_neg h0]
      by_cases he : C.isl_basic_set_is_empty (set_smallest_upper_bound C context bset d nu i) = 0
      · have hk : upper_keep C bset d context nu i = true := by
          simp [upper_keep, upper_call, h0, he]
        have hne : ¬ C.isl_basic_set_is_empty
            (set_smallest_upper_bound C context bset d nu i) ≠ 0 := by simpa using he
        rw [if_neg hne, if_pos hk]
        simp only [upper_call, ih]
      · have hk : ¬ upper_keep C bset d context nu i = true := by
          simp [upper_keep, upper_call, h0, he]
        rw [if_pos he, if_neg hk]
        exact ih user

theorem foreach_lower_bound_loop_eq {σ : Type} (C : Collab) (bset : isl_basic_set)
    (d : Nat) (context : isl_basic_set) (nl : Nat) (fn : BoundFn σ) (js : List Nat)
    (user : σ) :
    foreach_lower_bound_loop C bset d context nl fn js user =
      bound_loop fn (lower_keep C bset d context nl) (lower_call C bset d context nl)
        js user := by
  induction js generalizing user with
  | nil => rfl
  | cons i js ih =>
    unfold foreach_lower_bound_loop bound_loop
    by_cases h0 : coef bset.ineq i (1 + d) = 0
    · have hk : ¬ lower_keep C bset d context nl i = true := by simp [lower_keep, h0]
      rw [if_pos h0, if_neg hk]
      exact ih user
    · rw [if_neg h0]
      by_cases he : C.isl_basic_set_is_empty (set_largest_lower_bound C context bset d nl i) = 0
      · have hk : lower_keep C bset d context nl i = true := by
          simp [lower_keep, lower_call, h0, he]
        have hne : ¬ C.isl_basic_set_is_empty
            (set_largest_lower_bound C context bset d nl i) ≠ 0 := by simpa using he
        rw [if_neg hne, if_pos hk]
        simp only [lower_call, ih]
      · have hk : ¬ lower_keep C bset d context nl i = true := by
          simp [lower_keep, lower_call, h0, he]
        rw [if_pos he, if_neg hk]
        exact ih user

theorem foreach_bound_pair_inner_eq {σ : Type} (C : Collab) (bset : isl_basic_set)
    (d : Nat) (context : isl_basic_set) (nl nu i : Nat) (fn : BoundFn σ) (js : List Nat)
    (user : σ) :
    foreach_bound_pair_inner C bset d (set_largest_lower_bound C context bset d nl i) nu i fn
        js user =
      bound_loop fn (pair_keep_upper C bset d context nl nu i)
        (pair_call C bset d context nl nu i) js user := by
  induction js generalizing user with
  | nil => rfl
  | cons j js ih =>
    unfold foreach_bound_pair_inner bound_loop
    by_cases h0 : coef bset.ineq j (1 + d) < 0
    · have hn0 : ¬ ¬ coef bset.ineq j (1 + d) < 0 := by simpa using h0
      rw [if_neg hn0]
      by_cases he : C.isl_basic_set_is_empty (bound_pair_context C bset d
          (set_largest_lower_bound C context bset d nl i) nu i j) = 0
      · have hk : pair_keep_upper C bset d context nl nu i j = true := by
          simp [pair_keep_upper, pair_call, h0, he]
        have hne : ¬ C.isl_basic_set_is_empty (bound_pair_context C bset d
          (set_largest_lower_bound C context bset d nl i) nu i j) ≠ 0 := by simpa using he
        rw [if_neg hne, if_pos hk]
        simp only [pair_call, ih]
      · have hk : ¬ pair_keep_upper C bset d context nl nu i j = true := by
          simp [pair_keep_upper, pair_call, he]
        rw [if_pos he, if_neg hk]
        exact ih user
    · have hk : ¬ pair_keep_upper C bset d context nl nu i j = true := by
        simp [pair_keep_upper, h0]
      rw [if_pos h0, if_neg hk]
      exact ih user

theorem foreach_bound_pair_outer_sublist {σ : Type} (C : Collab) (bset : isl_basic_set)
    (d : Nat) (context : isl_basic_set) (nl nu : Nat) (fn : BoundFn σ) (is : List Nat)
    (user : σ) :
    List.Sublist (foreach_bound_pair_outer C bset d context nl nu fn is user).calls
      (pair_candidates C bset d context nl nu is) := by
  induction is generalizing user with
  | nil => simp [foreach_bound_pair_outer, pair_candidates]
  | cons i is ih =>
    unfold foreach_bound_pair_outer
    by_cases h0 : 0 < coef bset.ineq i (1 + d)
    · have hn0 : ¬ ¬ 0 < coef bset.ineq i (1 + d) := by simpa using h0
      rw [if_neg hn0]
      by_cases he : C.isl_basic_set_is_empty (set_largest_lower_bound C context bset d nl i) = 0
      · have hne : ¬ C.isl_basic_set_is_empty
            (set_largest_lower_bound C context bset d nl i) ≠ 0 := by simpa using he
        rw [if_neg hne]
        have hk : pair_keep_lower C bset d context nl i = true := by
          simp [pair_keep_lower, h0, he]
        have hc : pair_candidates C bset d context nl nu (i :: is) =
            ((List.range bset.ineq.length).filter
              (pair_keep_upper C bset d context nl nu i)).map
              (pair_call C bset d context nl nu i) ++
            pair_candidates C bset d context nl nu is := by
          simp [pair_candidates, List.filter_cons_of_pos, hk]
        rw [hc]
        dsimp only
        rw [foreach_bound_pair_inner_eq]
        split
        · simpa using (bound_loop_sublist fn _ _ _ user).trans (List.sublist_append_left _ _)
        · exact List.Sublist.append (bound_loop_sublist fn _ _ _ user) (ih _)
      · rw [if_pos he]
        have hk : ¬ pair_keep_lower C bset d context nl i = true := by
          simp [pair_keep_lower, he]
        have hc : pair_candidates C bset d context nl nu (i :: is) =
            pair_candidates C bset d context nl nu is := by
          simp [pair_candidates, List.filter_cons_of_neg, hk]
        rw [hc]
        exact ih user
    · rw [if_pos h0]
      have hk : ¬ pair_keep_lower C bset d context nl i = true := by
        simp [pair_keep_lower, h0]
      have hc : pair_candidates C bset d context nl nu (i :: is) =
          pair_candidates C bset d context nl nu is := by
        simp [pair_candidates, List.filter_cons_of_neg, hk]
      rw [hc]
      exact ih user

theorem foreach_bound_pair_outer_complete {σ : Type} (C : Collab) (bset : isl_basic_set)
    (d : Nat) (context : isl_basic_set) (nl nu : Nat) (fn : BoundFn σ)
    (hfn : ∀ lo up b u, 0 ≤ (fn lo up b u).1) (is : List Nat) (user : σ) :
    (foreach_bound_pair_outer C bset d context nl nu fn is user).calls =
      pair_candidates C bset d context nl nu is ∧
    (foreach_bound_pair_outer C bset d context nl nu fn is user).broke = false := by
  induction is generalizing user with
  | nil => simp [foreach_bound_pair_outer, pair_candidates]
  | cons i is ih =>
    unfold foreach_bound_pair_outer
    by_cases h0 : 0 < coef bset.ineq i (1 + d)
    · have hn0 : ¬ ¬ 0 < coef bset.ineq i (1 + d) := by simpa using h0
      rw [if_neg hn0]
      by_cases he : C.isl_basic_set_is_empty (set_largest_lower_bound C context bset d nl i) = 0
      · have hne : ¬ C.isl_basic_set_is_empty
            (set_largest_lower_bound C context bset d nl i) ≠ 0 := by simpa using he
        rw [if_neg hne]
        have hk : pair_keep_lower C bset d context nl i = true := by
          simp [pair_keep_lower, h0, he]
        have hc : pair_candidates C bset d context nl nu (i :: is) =
            ((List.range bset.ineq.length).filter
              (pair_keep_upper C bset d context nl nu i)).map
              (pair_call C bset d context nl nu i) ++
            pair_candidates C bset d context nl nu is := by
          simp [pair_candidates, List.filter_cons_of_pos, hk]
        rw [hc]
        dsimp only
        rw [foreach_bound_pair_inner_eq]
        obtain ⟨hc1, hb1⟩ := bound_loop_complete fn
          (pair_keep_upper C bset d context nl nu i) (pair_call C bset d context nl nu i) hfn
          (List.range bset.ineq.length) user
        have hnb : ¬ (bound_loop fn (pair_keep_upper C bset d context nl nu i)
            (pair_call C bset d context nl nu i) (List.range bset.ineq.length) user).broke
            = true := by simp [hb1]
        rw [if_neg hnb]
        exact ⟨by rw [hc1, (ih _).1], (ih _).2⟩
      · rw [if_pos he]
        have hk : ¬ pair_keep_lower C bset d context nl i = true := by
          simp [pair_keep_lower, he]
        have hc : pair_candidates C bset d context nl nu (i :: is) =
            pair_candidates C bset d context nl nu is := by
          simp [pair_candidates, List.filter_cons_of_neg, hk]
        rw [hc]
        exact ih user
    · rw [if_pos h0]
      have hk : ¬ pair_keep_lower C bset d context nl i = true := by
        simp [pair_keep_lower, h0]
      have hc : pair_candidates C bset d context nl nu (i :: is) =
          pair_candidates C bset d context nl nu is := by
        simp [pair_candidates, List.filter_cons_of_neg, hk]
      rw [hc]
      exact ih user


/-! ## The entry point -/

theorem find_range' (p : Nat → Bool) (m s i : Nat) (hs : s ≤ i) (hi : i < s + m)
    (hp : p i = true) (hfirst : ∀ k, s ≤ k → k < i → p k = false) :
    (List.range' s m).find? p = some i := by
  induction m generalizing s with
  | zero => omega
  | succ m ih =>
    rw [List.range'_succ]
    by_cases hsi : s = i
    · subst hsi
      rw [List.find?_cons_of_pos _ hp]
    · rw [List.find?_cons_of_neg _ (by simp [hfirst s (le_refl s) (by omega)])]
      exact ih (s + 1) (by omega) (by omega) (fun k hk hki => hfirst k (by omega) hki)

theorem find_range (p : Nat → Bool) (m i : Nat) (hi : i < m)
    (hp : p i = true) (hfirst : ∀ k, k < i → p k = false) :
    (List.range m).find? p = some i := by
  rw [List.range_eq_range']
  exact find_range' p m 0 i (Nat.zero_le i) (by omega) hp (fun k _ hk => hfirst k hk)

theorem foreach_bound_pair_invalid {σ : Type} (C : Collab) (bset : isl_basic_set)
    (type : isl_dim_type) (pos : Nat) (fn : BoundFn σ) (user : σ)
    (h : ¬ (pos < isl_basic_set_dim bset type ∧
      (type = .isl_dim_param ∨ type = isl_dim_set))) :
    (isl_basic_set_foreach_bound_pair C bset type pos fn user).calls = [] ∧
    (isl_basic_set_foreach_bound_pair C bset type pos fn user).ret = -1 := by
  unfold isl_basic_set_foreach_bound_pair
  by_cases hpos : pos < isl_basic_set_dim bset type
  · have ht : ¬ (type = .isl_dim_param ∨ type = isl_dim_set) := fun ht => h ⟨hpos, ht⟩
    rw [if_neg (not_not.2 hpos), if_pos ht]
    exact ⟨rfl, rfl⟩
  · rw [if_pos hpos]
    exact ⟨rfl, rfl⟩

theorem foreach_bound_pair_no_equality {σ : Type} (C : Collab) (bset : isl_basic_set)
    (type : isl_dim_type) (pos : Nat) (fn : BoundFn σ) (user : σ)
    (hpos : pos < isl_basic_set_dim bset type)
    (htype : type = .isl_dim_param ∨ type = isl_dim_set)
    (hnoeq : ∀ r ∈ bset.eq, r.getD (1 + bound_abs_pos bset type pos) 0 = 0) :
    isl_basic_set_foreach_bound_pair C bset type pos fn user =
      if (count_bounds bset (bound_abs_pos bset type pos)).1 = 0 ∧
          (count_bounds bset (bound_abs_pos bset type pos)).2 = 0 then
        { ret := (fn none none (base_context bset type pos (bound_abs_pos bset type pos)) user).1,
          user := (fn none none (base_context bset type pos (bound_abs_pos bset type pos)) user).2,
          calls := [⟨none, none, base_context bset type pos (bound_abs_pos bset type pos)⟩] }
      else if (count_bounds bset (bound_abs_pos bset type pos)).1 = 0 then
        foreach_upper_bound C bset (bound_abs_pos bset type pos)
          (base_context bset type pos (bound_abs_pos bset type pos))
          (count_bounds bset (bound_abs_pos bset type pos)).2 fn user
      else if (count_bounds bset (bound_abs_pos bset type pos)).2 = 0 then
        foreach_lower_bound C bset (bound_abs_pos bset type pos)
          (base_context bset type pos (bound_abs_pos bset type pos))
          (count_bounds bset (bound_abs_pos bset type pos)).1 fn user
      else
        foreach_bound_pair C bset (bound_abs_pos bset type pos)
          (base_context bset type pos (bound_abs_pos bset type pos))
          (count_bounds bset (bound_abs_pos bset type pos)).1
          (count_bounds bset (bound_abs_pos bset type pos)).2 fn user := by
  have hfind : (List.range bset.eq.length).find?
      (fun i => decide (coef bset.eq i (1 + bound_abs_pos bset type pos) ≠ 0)) = none := by
    rw [List.find?_eq_none]
    intro i hi
    have hi' : i < bset.eq.length := List.mem_range.1 hi
    have hmem : bset.eq.getD i [] ∈ bset.eq := by
      rw [List.getD_eq_getElem?_getD, List.getElem?_eq_getElem hi']
      exact List.getElem_mem hi'
    have h0 := hnoeq _ hmem
    simpa [coef] using h0
  unfold isl_basic_set_foreach_bound_pair
  rw [if_neg (not_not.2 hpos), if_neg (not_not.2 htype)]
  dsimp only
  rw [hfind]

theorem count_bounds_fold (f : Nat → Int) (js : List Nat) (acc : Nat × Nat) :
    js.foldl (fun cnt i =>
      if 0 < f i then (cnt.1 + 1, cnt.2) else if f i < 0 then (cnt.1, cnt.2 + 1) else cnt) acc
      = (acc.1 + js.countP (fun i => decide (0 < f i)),
         acc.2 + js.countP (fun i => decide (f i < 0))) := by
  induction js generalizing acc with
  | nil => simp
  | cons j js ih =>
    rw [List.foldl_cons, ih]
    by_cases h1 : 0 < f j
    · have h2 : ¬ f j < 0 := by omega
      simp [h1, h2, List.countP_cons]
      omega
    · by_cases h2 : f j < 0
      · simp [h1, h2, List.countP_cons]
        omega
      · simp [h1, h2, List.countP_cons]

theorem map_getD_range (l : List (List Int)) :
    (List.range l.length).map (fun i => l.getD i []) = l := by
  apply List.ext_getElem (by simp)
  intro i h1 h2
  simp [List.getD_eq_getElem?_getD, List.getElem?_eq_getElem h2]

theorem countP_range_rows (l : List (List Int)) (p : List Int → Bool) :
    (List.range l.length).countP (fun i => p (l.getD i [])) = l.countP p := by
  conv_rhs => rw [← map_getD_range l]
  rw [List.countP_map]
  rfl

/-- The counting loop counts the rows with a positive and with a negative
coefficient at `1 + d`. -/
theorem count_bounds_eq (bset : isl_basic_set) (d : Nat) :
    count_bounds bset d =
      (bset.ineq.countP (fun r => decide (0 < r.getD (1 + d) 0)),
       bset.ineq.countP (fun r => decide (r.getD (1 + d) 0 < 0))) := by
  unfold count_bounds
  rw [count_bounds_fold (fun i => coef bset.ineq i (1 + d))]
  simp only [Nat.zero_add]
  rw [← countP_range_rows bset.ineq (fun r => decide (0 < r.getD (1 + d) 0)),
    ← countP_range_rows bset.ineq (fun r => decide (r.getD (1 + d) 0 < 0))]
  rfl

theorem countP_nonzero (f : Nat → Int) (js : List Nat) :
    js.countP (fun i => decide (f i ≠ 0)) =
      js.countP (fun i => decide (0 < f i)) + js.countP (fun i => decide (f i < 0)) := by
  induction js with
  | nil => simp
  | cons j js ih =>
    simp only [List.countP_cons, ih]
    by_cases h1 : 0 < f j
    · have h2 : ¬ f j < 0 := by omega
      have h3 : f j ≠ 0 := by omega
      simp [h1, h2, h3]
      omega
    · by_cases h2 : f j < 0
      · have h3 : f j ≠ 0 := by omega
        simp [h1, h2, h3]
        omega
      · have h3 : f j = 0 := by omega
        simp [h3]

theorem count_bounds_range (bset : isl_basic_set) (d : Nat) :
    (count_bounds bset d).1 =
      (List.range bset.ineq.length).countP (fun i => decide (0 < coef bset.ineq i (1 + d))) ∧
    (count_bounds bset d).2 =
      (List.range bset.ineq.length).countP (fun i => decide (coef bset.ineq i (1 + d) < 0)) := by
  unfold count_bounds
  rw [count_bounds_fold (fun i => coef bset.ineq i (1 + d))]
  simp

theorem length_flatMap_le (l : List Nat) (f : Nat → List BoundCall) (m : Nat)
    (h : ∀ a ∈ l, (f a).length ≤ m) : (l.flatMap f).length ≤ l.length * m := by
  induction l with
  | nil => simp
  | cons a l ih =>
    simp only [List.flatMap_cons, List.length_append, List.length_cons]
    have h1 := h a (List.mem_cons_self a l)
    have h2 := ih (fun b hb => h b (List.mem_cons_of_mem a hb))
    calc (f a).length + (l.flatMap f).length ≤ m + l.length * m := Nat.add_le_add h1 h2
      _ = (l.length + 1) * m := by ring


/-! ## The starting context -/

theorem getD_append_length (pre rest : List (List Int)) (a : List Int) :
    (pre ++ a :: rest).getD pre.length [] = a := by
  induction pre with
  | nil => rfl
  | cons b pre ih => simpa using ih

theorem eraseIdx_append_length (pre rest : List (List Int)) (a : List Int) :
    (pre ++ a :: rest).eraseIdx pre.length = pre ++ rest := by
  induction pre with
  | nil => rfl
  | cons b pre ih => simpa using ih

theorem drop_inequality_ineq (c : isl_basic_set) (i : Nat) :
    (isl_basic_set_drop_inequality c i).ineq = c.ineq.eraseIdx i := rfl

theorem drop_loop (d : Nat) (suf pre : List (List Int)) (ctx : isl_basic_set)
    (h : ctx.ineq = pre ++ suf) :
    ((List.range' pre.length suf.length).foldr (fun i c =>
        if coef c.ineq i (1 + d) ≠ 0 then isl_basic_set_drop_inequality c i else c) ctx).ineq
      = pre ++ suf.filter (fun r => decide (r.getD (1 + d) 0 = 0)) ∧
    ((List.range' pre.length suf.length).foldr (fun i c =>
        if coef c.ineq i (1 + d) ≠ 0 then isl_basic_set_drop_inequality c i else c) ctx).eq
      = ctx.eq ∧
    ((List.range' pre.length suf.length).foldr (fun i c =>
        if coef c.ineq i (1 + d) ≠ 0 then isl_basic_set_drop_inequality c i else c) ctx).dim
      = ctx.dim ∧
    ((List.range' pre.length suf.length).foldr (fun i c =>
        if coef c.ineq i (1 + d) ≠ 0 then isl_basic_set_drop_inequality c i else c) ctx).div
      = ctx.div := by
  induction suf generalizing pre with
  | nil => simpa using h
  | cons a suf ih =>
    have h' : ctx.ineq = (pre ++ [a]) ++ suf := by simp [h]
    obtain ⟨i1, i2, i3, i4⟩ := ih (pre ++ [a]) h'
    simp only [List.length_append, List.length_singleton] at i1 i2 i3 i4
    simp only [List.length_cons, List.range'_succ, List.foldr_cons]
    have hco : coef (((List.range' (pre.length + 1) suf.length).foldr (fun i c =>
        if coef c.ineq i (1 + d) ≠ 0 then isl_basic_set_drop_inequality c i else c) ctx).ineq)
        pre.length (1 + d) = a.getD (1 + d) 0 := by
      rw [i1, List.append_assoc, List.singleton_append]
      unfold coef
      rw [getD_append_length]
    by_cases ha : a.getD (1 + d) 0 = 0
    · have hn : ¬ coef (((List.range' (pre.length + 1) suf.length).foldr (fun i c =>
          if coef c.ineq i (1 + d) ≠ 0 then isl_basic_set_drop_inequality c i else c) ctx).ineq)
          pre.length (1 + d) ≠ 0 := by rw [hco]; simpa using ha
      rw [if_neg hn]
      refine ⟨?_, i2, i3, i4⟩
      rw [i1, List.filter_cons_of_pos (by simpa using ha)]
      simp
    · have hn : coef (((List.range' (pre.length + 1) suf.length).foldr (fun i c =>
          if coef c.ineq i (1 + d) ≠ 0 then isl_basic_set_drop_inequality c i else c) ctx).ineq)
          pre.length (1 + d) ≠ 0 := by rw [hco]; exact ha
      rw [if_pos hn]
      refine ⟨?_, i2, i3, i4⟩
      rw [drop_inequality_ineq, i1, List.filter_cons_of_neg (by simpa using ha), List.append_assoc,
        List.singleton_append, eraseIdx_append_length]

theorem offset_abs_pos (bset : isl_basic_set) (type : isl_dim_type) (pos : Nat)
    (hin : bset.dim.n_in = 0) (htype : type = .isl_dim_param ∨ type = isl_dim_set) :
    basic_set_offset bset type + pos = 1 + bound_abs_pos bset type pos := by
  rcases htype with h | h <;> subst h <;>
    simp [basic_set_offset, bound_abs_pos, isl_basic_map_dim, hin]
  omega

/-- The rows of the starting context: every equality row and every inequality
row with a zero coefficient at `1 + d`, each without the column of the
dimension. -/
theorem base_context_fields (bset : isl_basic_set) (type : isl_dim_type) (pos d : Nat) :
    (base_context bset type pos d).eq =
      bset.eq.map (fun r => r.eraseIdx (basic_set_offset bset type + pos)) ∧
    (base_context bset type pos d).ineq =
      (bset.ineq.filter (fun r => decide (r.getD (1 + d) 0 = 0))).map
        (fun r => r.eraseIdx (basic_set_offset bset type + pos)) ∧
    (base_context bset type pos d).dim = isl_dim_drop bset.dim type 1 ∧
    (base_context bset type pos d).div =
      bset.div.map (fun r => r.eraseIdx (1 + (basic_set_offset bset type + pos))) := by
  obtain ⟨c1, c2, c3, c4⟩ := cow_copy_fields bset
  obtain ⟨d1, d2, d3, d4⟩ := drop_loop d (isl_basic_set_cow (isl_basic_set_copy bset)).ineq []
    (isl_basic_set_cow (isl_basic_set_copy bset)) (by simp)
  simp only [List.length_nil, List.nil_append] at d1 d2 d3 d4
  unfold base_context
  dsimp only
  rw [List.foldl_reverse, List.range_eq_range']
  have hoff : ∀ b : isl_basic_set, b.dim = bset.dim →
      basic_set_offset b type = basic_set_offset bset type := by
    intro b hb
    cases type <;> simp [basic_set_offset, hb]
  unfold isl_basic_set_drop
  dsimp only
  rw [hoff _ (d3.trans c3), d1, d2, d3, d4, c1, c2, c3, c4]
  exact ⟨rfl, rfl, rfl, rfl⟩

theorem total_base_context (bset : isl_basic_set) (type : isl_dim_type) (pos d : Nat)
    (hpos : pos < isl_basic_set_dim bset type)
    (htype : type = .isl_dim_param ∨ type = isl_dim_set) :
    isl_basic_set_total_dim (base_context bset type pos d) + 1 =
      isl_basic_set_total_dim bset := by
  obtain ⟨-, -, h3, h4⟩ := base_context_fields bset type pos d
  simp only [isl_basic_set_total_dim, isl_basic_map_total_dim, h3, h4, List.length_map]
  rcases htype with h | h <;> subst h <;>
    simp [isl_dim_drop, isl_dim_total, isl_basic_map_dim] at hpos ⊢ <;> omega

theorem abs_pos_lt_total (bset : isl_basic_set) (type : isl_dim_type) (pos : Nat)
    (hpos : pos < isl_basic_set_dim bset type)
    (htype : type = .isl_dim_param ∨ type = isl_dim_set) :
    bound_abs_pos bset type pos < isl_basic_set_total_dim bset := by
  simp only [isl_basic_set_total_dim, isl_basic_map_total_dim, isl_dim_total]
  rcases htype with h | h <;> subst h <;>
    simp [bound_abs_pos, isl_basic_map_dim] at hpos ⊢ <;> omega

/-- The projection of a point of the container is a point of the starting
context. -/
theorem base_context_sat (bset : isl_basic_set) (type : isl_dim_type) (pos : Nat)
    (hin : bset.dim.n_in = 0) (htype : type = .isl_dim_param ∨ type = isl_dim_set)
    (hnoeq : ∀ r ∈ bset.eq, r.getD (1 + bound_abs_pos bset type pos) 0 = 0)
    (p : Nat → Int) (hp : sat bset p) :
    sat (base_context bset type pos (bound_abs_pos bset type pos))
      (dropCoord (bound_abs_pos bset type pos) p) := by
  obtain ⟨b1, b2, -, -⟩ := base_context_fields bset type pos (bound_abs_pos bset type pos)
  rw [offset_abs_pos bset type pos hin htype] at b1 b2
  refine ⟨?_, ?_⟩
  · intro r hr
    rw [b1, List.mem_map] at hr
    obtain ⟨r0, hr0, rfl⟩ := hr
    rw [rowValue_eraseIdx, hp.1 r0 hr0, hnoeq r0 hr0]
    ring
  · intro r hr
    rw [b2, List.mem_map] at hr
    obtain ⟨r0, hr0, rfl⟩ := hr
    rw [List.mem_filter, decide_eq_true_eq] at hr0
    rw [rowValue_eraseIdx, hr0.2]
    have := hp.2 r0 hr0.1
    linarith

/-! ## The equality case and the case without bounds -/

/-- C3: when `i` is the first equality row with a non-zero coefficient at the
dimension, the enumeration invokes the callback exactly once, with lower and
upper the same cursor on that equality row of the container, whatever the
inequality rows are, and returns the result of the callback. -/
theorem foreach_bound_pair_equality {σ : Type} (C : Collab) (bset : isl_basic_set)
    (type : isl_dim_type) (pos : Nat) (fn : BoundFn σ) (user : σ) (i : Nat)
    (hpos : pos < isl_basic_set_dim bset type)
    (htype : type = .isl_dim_param ∨ type = isl_dim_set)
    (hi : i < bset.eq.length)
    (hnz : coef bset.eq i (1 + bound_abs_pos bset type pos) ≠ 0)
    (hfirst : ∀ k, k < i → coef bset.eq k (1 + bound_abs_pos bset type pos) = 0) :
    ∃ c ctx,
      (isl_basic_set_foreach_bound_pair C bset type pos fn user).calls
        = [⟨some c, some c, ctx⟩] ∧
      (isl_basic_set_foreach_bound_pair C bset type pos fn user).ret
        = (fn (some c) (some c) ctx user).1 ∧
      c.line = bset.eq_pos + i ∧ isl_constraint_is_equality c = 1 ∧
      rowAt c.bmap c.line = bset.eq.getD i [] ∧
      c.bmap.eq = bset.eq ∧ c.bmap.ineq = bset.ineq := by
  have hfind : (List.range bset.eq.length).find?
      (fun k => decide (coef bset.eq k (1 + bound_abs_pos bset type pos) ≠ 0)) = some i :=
    find_range _ _ i hi (by simpa using hnz) (fun k hk => by simpa using hfirst k hk)
  unfold isl_basic_set_foreach_bound_pair
  rw [if_neg (not_not.2 hpos), if_neg (not_not.2 htype)]
  dsimp only
  rw [hfind]
  refine ⟨_, _, rfl, rfl, rfl, ?_, ?_, rfl, rfl⟩
  · simp [isl_constraint_is_equality, isl_constraint_copy, isl_basic_set_constraint,
      isl_basic_map_constraint, isl_basic_map_copy]
  · simp [rowAt, isl_constraint_copy, isl_basic_set_constraint,
      isl_basic_map_constraint, isl_basic_map_copy]

/-- Witness of C3: dimension `x` of a container whose second equality row is
the first to mention `x`, next to two inequality rows on `x`. -/
theorem foreach_bound_pair_equality_witness :
    ∃ c ctx,
      (isl_basic_set_foreach_bound_pair collab0 bsetEquality isl_dim_set 0 countFn 0).calls
        = [⟨some c, some c, ctx⟩] ∧
      (isl_basic_set_foreach_bound_pair collab0 bsetEquality isl_dim_set 0 countFn 0).ret
        = (countFn (some c) (some c) ctx 0).1 ∧
      c.line = bsetEquality.eq_pos + 1 ∧ isl_constraint_is_equality c = 1 ∧
      rowAt c.bmap c.line = bsetEquality.eq.getD 1 [] ∧
      c.bmap.eq = bsetEquality.eq ∧ c.bmap.ineq = bsetEquality.ineq :=
  foreach_bound_pair_equality collab0 bsetEquality isl_dim_set 0 countFn 0 1
    (by decide) (by decide) (by decide) (by decide) (by decide)

/-- C4: when no equality and no inequality row has a non-zero coefficient at
the dimension (a parameter or a set dimension in range, of a basic set), the
enumeration invokes the callback exactly once, with no lower and no upper
bound and a context whose rows are the rows of the container, in order, each
without the column of the dimension; it returns the result of the callback. -/
theorem foreach_bound_pair_no_bounds {σ : Type} (C : Collab) (bset : isl_basic_set)
    (type : isl_dim_type) (pos : Nat) (fn : BoundFn σ) (user : σ)
    (hpos : pos < isl_basic_set_dim bset type)
    (htype : type = .isl_dim_param ∨ type = isl_dim_set)
    (hin : bset.dim.n_in = 0)
    (hnoeq : ∀ r ∈ bset.eq, r.getD (1 + bound_abs_pos bset type pos) 0 = 0)
    (hnoineq : ∀ r ∈ bset.ineq, r.getD (1 + bound_abs_pos bset type pos) 0 = 0) :
    ∃ ctx,
      (isl_basic_set_foreach_bound_pair C bset type pos fn user).calls
        = [⟨none, none, ctx⟩] ∧
      (isl_basic_set_foreach_bound_pair C bset type pos fn user).ret
        = (fn none none ctx user).1 ∧
      ctx.eq = bset.eq.map (fun r => r.eraseIdx (1 + bound_abs_pos bset type pos)) ∧
      ctx.ineq = bset.ineq.map (fun r => r.eraseIdx (1 + bound_abs_pos bset type pos)) ∧
      ctx.dim = isl_dim_drop bset.dim type 1 := by
  have hcnt : (count_bounds bset (bound_abs_pos bset type pos)).1 = 0 ∧
      (count_bounds bset (bound_abs_pos bset type pos)).2 = 0 := by
    rw [count_bounds_eq]
    simp only [List.countP_eq_zero, decide_eq_true_eq]
    exact ⟨fun r hr => by rw [hnoineq r hr]; decide, fun r hr => by rw [hnoineq r hr]; decide⟩
  rw [foreach_bound_pair_no_equality C bset type pos fn user hpos htype hnoeq, if_pos hcnt]
  obtain ⟨b1, b2, b3, -⟩ := base_context_fields bset type pos (bound_abs_pos bset type pos)
  refine ⟨_, rfl, rfl, ?_, ?_, b3⟩
  · rw [b1, offset_abs_pos bset type pos hin htype]
  · rw [b2, offset_abs_pos bset type pos hin htype]
    congr 1
    rw [List.filter_eq_self]
    intro r hr
    simpa using hnoineq r hr

/-- Witness of C4: dimension `x` of a container whose rows mention `y` only. -/
theorem foreach_bound_pair_no_bounds_witness :
    ∃ ctx,
      (isl_basic_set_foreach_bound_pair collab0 bsetNoBound isl_dim_set 0 countFn 0).calls
        = [⟨none, none, ctx⟩] ∧
      (isl_basic_set_foreach_bound_pair collab0 bsetNoBound isl_dim_set 0 countFn 0).ret
        = (countFn none none ctx 0).1 ∧
      ctx.eq = bsetNoBound.eq.map
        (fun r => r.eraseIdx (1 + bound_abs_pos bsetNoBound isl_dim_set 0)) ∧
      ctx.ineq = bsetNoBound.ineq.map
        (fun r => r.eraseIdx (1 + bound_abs_pos bsetNoBound isl_dim_set 0)) ∧
      ctx.dim = isl_dim_drop bsetNoBound.dim isl_dim_set 1 :=
  foreach_bound_pair_no_bounds collab0 bsetNoBound isl_dim_set 0 countFn 0
    (by decide) (by decide) (by decide) (by decide) (by decide)


/-! ## The invocations of a run -/

/-- With valid arguments and no equality row on the dimension, the invocations
of a run are the single one of the case without bounds or, in order, among
the candidates of the one-sided or two-sided case. -/
theorem run_cases_sublist {σ : Type} (C : Collab) (bset : isl_basic_set)
    (type : isl_dim_type) (pos : Nat) (fn : BoundFn σ) (user : σ)
    (hpos : pos < isl_basic_set_dim bset type)
    (htype : type = .isl_dim_param ∨ type = isl_dim_set)
    (hnoeq : ∀ r ∈ bset.eq, r.getD (1 + bound_abs_pos bset type pos) 0 = 0) :
    (((count_bounds bset (bound_abs_pos bset type pos)).1 = 0 ∧
        (count_bounds bset (bound_abs_pos bset type pos)).2 = 0) ∧
      (isl_basic_set_foreach_bound_pair C bset type pos fn user).calls =
        [⟨none, none, base_context bset type pos (bound_abs_pos bset type pos)⟩]) ∨
    (((count_bounds bset (bound_abs_pos bset type pos)).1 = 0 ∧
        (count_bounds bset (bound_abs_pos bset type pos)).2 ≠ 0) ∧
      List.Sublist (isl_basic_set_foreach_bound_pair C bset type pos fn user).calls
        (((List.range bset.ineq.length).filter
          (upper_keep C bset (bound_abs_pos bset type pos)
            (base_context bset type pos (bound_abs_pos bset type pos))
            (count_bounds bset (bound_abs_pos bset type pos)).2)).map
          (upper_call C bset (bound_abs_pos bset type pos)
            (base_context bset type pos (bound_abs_pos bset type pos))
            (count_bounds bset (bound_abs_pos bset type pos)).2))) ∨
    (((count_bounds bset (bound_abs_pos bset type pos)).1 ≠ 0 ∧
        (count_bounds bset (bound_abs_pos bset type pos)).2 = 0) ∧
      List.Sublist (isl_basic_set_foreach_bound_pair C bset type pos fn user).calls
        (((List.range bset.ineq.length).filter
          (lower_keep C bset (bound_abs_pos bset type pos)
            (base_context bset type pos (bound_abs_pos bset type pos))
            (count_bounds bset (bound_abs_pos bset type pos)).1)).map
          (lower_call C bset (bound_abs_pos bset type pos)
            (base_context bset type pos (bound_abs_pos bset type pos))
            (count_bounds bset (bound_abs_pos bset type pos)).1))) ∨
    (((count_bounds bset (bound_abs_pos bset type pos)).1 ≠ 0 ∧
        (count_bounds bset (bound_abs_pos bset type pos)).2 ≠ 0) ∧
      List.Sublist (isl_basic_set_foreach_bound_pair C bset type pos fn user).calls
        (pair_candidates C bset (bound_abs_pos bset type pos)
          (base_context bset type pos (bound_abs_pos bset type pos))
          (count_bounds bset (bound_abs_pos bset type pos)).1
          (count_bounds bset (bound_abs_pos bset type pos)).2
          (List.range bset.ineq.length))) := by
  rw [foreach_bound_pair_no_equality C bset type pos fn user hpos htype hnoeq]
  by_cases h1 : (count_bounds bset (bound_abs_pos bset type pos)).1 = 0
  · by_cases h2 : (count_bounds bset (bound_abs_pos bset type pos)).2 = 0
    · rw [if_pos ⟨h1, h2⟩]
      exact Or.inl ⟨⟨h1, h2⟩, rfl⟩
    · rw [if_neg (fun h => h2 h.2), if_pos h1]
      refine Or.inr (Or.inl ⟨⟨h1, h2⟩, ?_⟩)
      unfold foreach_upper_bound
      dsimp only
      rw [foreach_upper_bound_loop_eq]
      exact bound_loop_sublist _ _ _ _ _
  · by_cases h2 : (count_bounds bset (bound_abs_pos bset type pos)).2 = 0
    · rw [if_neg (fun h => h1 h.1), if_neg h1, if_pos h2]
      refine Or.inr (Or.inr (Or.inl ⟨⟨h1, h2⟩, ?_⟩))
      unfold foreach_lower_bound
      dsimp only
      rw [foreach_lower_bound_loop_eq]
      exact bound_loop_sublist _ _ _ _ _
    · rw [if_neg (fun h => h1 h.1), if_neg h1, if_neg h2]
      refine Or.inr (Or.inr (Or.inr ⟨⟨h1, h2⟩, ?_⟩))
      unfold foreach_bound_pair
      exact foreach_bound_pair_outer_sublist _ _ _ _ _ _ _ _ _

/-- The same when the callback never fails: the invocations are exactly the
candidates, and the run returns 0 in the cases with a bound. -/
theorem run_cases_complete {σ : Type} (C : Collab) (bset : isl_basic_set)
    (type : isl_dim_type) (pos : Nat) (fn : BoundFn σ) (user : σ)
    (hfn : ∀ lo up b u, 0 ≤ (fn lo up b u).1)
    (hpos : pos < isl_basic_set_dim bset type)
    (htype : type = .isl_dim_param ∨ type = isl_dim_set)
    (hnoeq : ∀ r ∈ bset.eq, r.getD (1 + bound_abs_pos bset type pos) 0 = 0) :
    (((count_bounds bset (bound_abs_pos bset type pos)).1 = 0 ∧
        (count_bounds bset (bound_abs_pos bset type pos)).2 = 0) ∧
      (isl_basic_set_foreach_bound_pair C bset type pos fn user).calls =
        [⟨none, none, base_context bset type pos (bound_abs_pos bset type pos)⟩]) ∨
    (((count_bounds bset (bound_abs_pos bset type pos)).1 = 0 ∧
        (count_bounds bset (bound_abs_pos bset type pos)).2 ≠ 0) ∧
      (isl_basic_set_foreach_bound_pair C bset type pos fn user).calls =
        (((List.range bset.ineq.length).filter
          (upper_keep C bset (bound_abs_pos bset type pos)
            (base_context bset type pos (bound_abs_pos bset type pos))
            (count_bounds bset (bound_abs_pos bset type pos)).2)).map
          (upper_call C bset (bound_abs_pos bset type pos)
            (base_context bset type pos (bound_abs_pos bset type pos))
            (count_bounds bset (bound_abs_pos bset type pos)).2))) ∨
    (((count_bounds bset (bound_abs_pos bset type pos)).1 ≠ 0 ∧
        (count_bounds bset (bound_abs_pos bset type pos)).2 = 0) ∧
      (isl_basic_set_foreach_bound_pair C bset type pos fn user).calls =
        (((List.range bset.ineq.length).filter
          (lower_keep C bset (bound_abs_pos bset type pos)
            (base_context bset type pos (bound_abs_pos bset type pos))
            (count_bounds bset (bound_abs_pos bset type pos)).1)).map
          (lower_call C bset (bound_abs_pos bset type pos)
            (base_context bset type pos (bound_abs_pos bset type pos))
            (count_bounds bset (bound_abs_pos bset type pos)).1))) ∨
    (((count_bounds bset (bound_abs_pos bset type pos)).1 ≠ 0 ∧
        (count_bounds bset (bound_abs_pos bset type pos)).2 ≠ 0) ∧
      (isl_basic_set_foreach_bound_pair C bset type pos fn user).calls =
        (pair_candidates C bset (bound_abs_pos bset type pos)
          (base_context bset type pos (bound_abs_pos bset type pos))
          (count_bounds bset (bound_abs_pos bset type pos)).1
          (count_bounds bset (bound_abs_pos bset type pos)).2
          (List.range bset.ineq.length))) := by
  rw [foreach_bound_pair_no_equality C bset type pos fn user hpos htype hnoeq]
  by_cases h1 : (count_bounds bset (bound_abs_pos bset type pos)).1 = 0
  · by_cases h2 : (count_bounds bset (bound_abs_pos bset type pos)).2 = 0
    · rw [if_pos ⟨h1, h2⟩]
      exact Or.inl ⟨⟨h1, h2⟩, rfl⟩
    · rw [if_neg (fun h => h2 h.2), if_pos h1]
      refine Or.inr (Or.inl ⟨⟨h1, h2⟩, ?_⟩)
      unfold foreach_upper_bound
      dsimp only
      rw [foreach_upper_bound_loop_eq]
      exact (bound_loop_complete _ _ _ hfn _ _).1
  · by_cases h2 : (count_bounds bset (bound_abs_pos bset type pos)).2 = 0
    · rw [if_neg (fun h => h1 h.1), if_neg h1, if_pos h2]
      refine Or.inr (Or.inr (Or.inl ⟨⟨h1, h2⟩, ?_⟩))
      unfold foreach_lower_bound
      dsimp only
      rw [foreach_lower_bound_loop_eq]
      exact (bound_loop_complete _ _ _ hfn _ _).1
    · rw [if_neg (fun h => h1 h.1), if_neg h1, if_neg h2]
      refine Or.inr (Or.inr (Or.inr ⟨⟨h1, h2⟩, ?_⟩))
      unfold foreach_bound_pair
      exact (foreach_bound_pair_outer_complete _ _ _ _ _ _ _ hfn _ _).1

theorem length_pair_candidates (C : Collab) (bset : isl_basic_set) (d : Nat)
    (context : isl_basic_set) (nl nu : Nat) :
    (pair_candidates C bset d context nl nu (List.range bset.ineq.length)).length ≤
      (count_bounds bset d).1 * (count_bounds bset d).2 := by
  obtain ⟨h1, h2⟩ := count_bounds_range bset d
  unfold pair_candidates
  refine (length_flatMap_le _ _ (count_bounds bset d).2 ?_).trans
    (Nat.mul_le_mul_right _ ?_)
  · intro i _
    rw [List.length_map, h2, ← List.countP_eq_length_filter]
    apply List.countP_mono_left
    intro j _ hj
    simp only [pair_keep_upper, Bool.and_eq_true] at hj
    exact hj.1
  · rw [h1, ← List.countP_eq_length_filter]
    apply List.countP_mono_left
    intro j _ hj
    simp only [pair_keep_lower, Bool.and_eq_true] at hj
    exact hj.1

theorem length_upper_candidates (C : Collab) (bset : isl_basic_set) (d : Nat)
    (context : isl_basic_set) (nu : Nat) :
    (((List.range bset.ineq.length).filter (upper_keep C bset d context nu)).map
      (upper_call C bset d context nu)).length ≤
      (count_bounds bset d).1 + (count_bounds bset d).2 := by
  obtain ⟨h1, h2⟩ := count_bounds_range bset d
  rw [List.length_map, h1, h2, ← countP_nonzero, ← List.countP_eq_length_filter]
  apply List.countP_mono_left
  intro j _ hj
  simp only [upper_keep, Bool.and_eq_true] at hj
  exact hj.1

theorem length_lower_candidates (C : Collab) (bset : isl_basic_set) (d : Nat)
    (context : isl_basic_set) (nl : Nat) :
    (((List.range bset.ineq.length).filter (lower_keep C bset d context nl)).map
      (lower_call C bset d context nl)).length ≤
      (count_bounds bset d).1 + (count_bounds bset d).2 := by
  obtain ⟨h1, h2⟩ := count_bounds_range bset d
  rw [List.length_map, h1, h2, ← countP_nonzero, ← List.countP_eq_length_filter]
  apply List.countP_mono_left
  intro j _ hj
  simp only [lower_keep, Bool.and_eq_true] at hj
  exact hj.1

/-- C5, as stated, fails when neither side is present: with no lower and no
upper bound on the dimension the callback is still invoked once, which
exceeds `n_upper = 0` (and `n_lower = 0`). -/
theorem invocation_count_without_bounds :
    (∀ r ∈ bsetNoBound.eq, r.getD (1 + bound_abs_pos bsetNoBound isl_dim_set 0) 0 = 0) ∧
    bsetNoBound.ineq.countP
      (fun r => decide (0 < r.getD (1 + bound_abs_pos bsetNoBound isl_dim_set 0) 0)) = 0 ∧
    bsetNoBound.ineq.countP
      (fun r => decide (r.getD (1 + bound_abs_pos bsetNoBound isl_dim_set 0) 0 < 0)) = 0 ∧
    (isl_basic_set_foreach_bound_pair collab0 bsetNoBound isl_dim_set 0 countFn 0).calls.length
      = 1 := by
  decide

/-- C5, amended to the cases with a bound: with no equality row on the
dimension, `n_lower` rows of positive and `n_upper` rows of negative
coefficient there, the number of invocations is at most `n_lower * n_upper`
when both are positive, at most `n_upper` when only upper bounds exist and at
most `n_lower` when only lower bounds exist. -/
theorem invocation_count_bound {σ : Type} (C : Collab) (bset : isl_basic_set)
    (type : isl_dim_type) (pos : Nat) (fn : BoundFn σ) (user : σ)
    (hnoeq : ∀ r ∈ bset.eq, r.getD (1 + bound_abs_pos bset type pos) 0 = 0) :
    (0 < bset.ineq.countP (fun r => decide (0 < r.getD (1 + bound_abs_pos bset type pos) 0)) →
     0 < bset.ineq.countP (fun r => decide (r.getD (1 + bound_abs_pos bset type pos) 0 < 0)) →
      (isl_basic_set_foreach_bound_pair C bset type pos fn user).calls.length ≤
        bset.ineq.countP (fun r => decide (0 < r.getD (1 + bound_abs_pos bset type pos) 0)) *
        bset.ineq.countP (fun r => decide (r.getD (1 + bound_abs_pos bset type pos) 0 < 0))) ∧
    (bset.ineq.countP (fun r => decide (0 < r.getD (1 + bound_abs_pos bset type pos) 0)) = 0 →
     0 < bset.ineq.countP (fun r => decide (r.getD (1 + bound_abs_pos bset type pos) 0 < 0)) →
      (isl_basic_set_foreach_bound_pair C bset type pos fn user).calls.length ≤
        bset.ineq.countP (fun r => decide (r.getD (1 + bound_abs_pos bset type pos) 0 < 0))) ∧
    (0 < bset.ineq.countP (fun r => decide (0 < r.getD (1 + bound_abs_pos bset type pos) 0)) →
     bset.ineq.countP (fun r => decide (r.getD (1 + bound_abs_pos bset type pos) 0 < 0)) = 0 →
      (isl_basic_set_foreach_bound_pair C bset type pos fn user).calls.length ≤
        bset.ineq.countP (fun r => decide (0 < r.getD (1 + bound_abs_pos bset type pos) 0))) := by
  by_cases hv : pos < isl_basic_set_dim bset type ∧
      (type = .isl_dim_param ∨ type = isl_dim_set)
  · have hc := count_bounds_eq bset (bound_abs_pos bset type pos)
    have hc1 : (count_bounds bset (bound_abs_pos bset type pos)).1 = bset.ineq.countP
        (fun r => decide (0 < r.getD (1 + bound_abs_pos bset type pos) 0)) := by rw [hc]
    have hc2 : (count_bounds bset (bound_abs_pos bset type pos)).2 = bset.ineq.countP
        (fun r => decide (r.getD (1 + bound_abs_pos bset type pos) 0 < 0)) := by rw [hc]
    rw [← hc1, ← hc2]
    rcases run_cases_sublist C bset type pos fn user hv.1 hv.2 hnoeq with
      ⟨⟨h1, h2⟩, -⟩ | ⟨⟨h1, h2⟩, hs⟩ | ⟨⟨h1, h2⟩, hs⟩ | ⟨⟨h1, h2⟩, hs⟩
    · exact ⟨fun a _ => absurd h1 (by omega), fun _ b => absurd h2 (by omega),
        fun a _ => absurd h1 (by omega)⟩
    · refine ⟨fun a _ => absurd h1 (by omega), fun _ _ => ?_, fun a _ => absurd h1 (by omega)⟩
      have := hs.length_le.trans (length_upper_candidates C bset _ _ _)
      omega
    · refine ⟨fun _ b => absurd h2 (by omega), fun a _ => absurd a h1, fun _ _ => ?_⟩
      have := hs.length_le.trans (length_lower_candidates C bset _ _ _)
      omega
    · refine ⟨fun _ _ => hs.length_le.trans (length_pair_candidates C bset _ _ _ _),
        fun a _ => absurd a h1, fun _ b => absurd b h2⟩
  · rw [(foreach_bound_pair_invalid C bset type pos fn user hv).1]
    simp

/-- Witness of the amended C5 on two lower bounds and one upper bound. -/
theorem invocation_count_bound_witness :
    (isl_basic_set_foreach_bound_pair collab0 bsetDominated isl_dim_set 0 countFn 0).calls.length
      ≤ 2 * 1 :=
  (invocation_count_bound collab0 bsetDominated isl_dim_set 0 countFn 0 (by decide)).1
    (by decide) (by decide)


/-! ## Emptiness of the contexts -/

theorem simplifyId_preserves (C : Collab) (h : C.isl_basic_set_simplify = simplifyId) :
    SimplifyPreserves C := by
  intro b
  rw [h]
  exact ⟨rfl, fun _ => Iff.rfl⟩

theorem isEmptyAtOrigin_nonempty (b : isl_basic_set) (h : isEmptyAtOrigin b = 0) :
    ∃ x, sat b x := by
  by_cases hs : sat b (fun _ => 0)
  · exact ⟨_, hs⟩
  · simp [isEmptyAtOrigin, hs] at h

theorem isEmptyAtOrigin_exact (b : isl_basic_set) (hb : ∀ x y, sat b x ↔ sat b y) :
    isEmptyAtOrigin b ≠ 0 ↔ ∀ x, ¬ sat b x := by
  by_cases hs : sat b (fun _ => 0)
  · simp only [isEmptyAtOrigin, hs, if_true, ne_eq, not_true_eq_false, false_iff]
    exact fun h => h _ hs
  · simp only [isEmptyAtOrigin, hs, if_false, ne_eq, one_ne_zero, not_false_eq_true, true_iff]
    exact fun x hx => hs ((hb x _).1 hx)

theorem some_bound_counts (bset : isl_basic_set) (d : Nat)
    (hbound : ∃ r ∈ bset.ineq, r.getD (1 + d) 0 ≠ 0) :
    ¬ ((count_bounds bset d).1 = 0 ∧ (count_bounds bset d).2 = 0) := by
  rw [count_bounds_eq]
  simp only [List.countP_eq_zero, decide_eq_true_eq]
  rintro ⟨h1, h2⟩
  obtain ⟨r, hr, hne⟩ := hbound
  have := h1 r hr
  have := h2 r hr
  omega

/-- C6, as stated, fails in the case without bounds: the container `-1 >= 0`
over `x`, `y` has no equality and no bound on `x`, and the callback receives
the context `-1 >= 0` over `y`, which has no integer point; no emptiness test
is made on this path, whatever the collaborators are. -/
theorem empty_context_without_bounds :
    (∀ r ∈ bsetInfeasible.eq, r.getD (1 + bound_abs_pos bsetInfeasible isl_dim_set 0) 0 = 0) ∧
    ∀ C : Collab, ∃ c ∈
      (isl_basic_set_foreach_bound_pair C bsetInfeasible isl_dim_set 0 countFn 0).calls,
      ∀ x, ¬ sat c.bset x := by
  refine ⟨by decide, fun C => ?_⟩
  have hrun : (isl_basic_set_foreach_bound_pair C bsetInfeasible isl_dim_set 0 countFn 0).calls
      = [⟨none, none, base_context bsetInfeasible isl_dim_set 0 0⟩] := by
    rcases run_cases_sublist C bsetInfeasible isl_dim_set 0 countFn 0 (by decide) (by decide)
      (by decide) with ⟨-, h⟩ | ⟨⟨-, h⟩, -⟩ | ⟨⟨h, -⟩, -⟩ | ⟨⟨h, -⟩, -⟩
    · exact h
    · exact absurd (by decide) h
    · exact absurd (by decide) h
    · exact absurd (by decide) h
  refine ⟨_, by rw [hrun]; exact List.mem_singleton.2 rfl, ?_⟩
  intro x hx
  have h := hx.2 [-1, 0] (by decide)
  simp [rowValue, seqDot] at h

/-- C6, amended: with no equality row on the dimension, every context passed
to the callback has an integer point, provided the emptiness test answers
"not empty" only for containers that have one, and provided that some
inequality row has a non-zero coefficient at the dimension or the container
is a basic set (no input dimension) that has an integer point itself. -/
theorem contexts_nonempty {σ : Type} (C : Collab)
    (he : ∀ b, C.isl_basic_set_is_empty b = 0 → ∃ x, sat b x)
    (bset : isl_basic_set) (type : isl_dim_type) (pos : Nat) (fn : BoundFn σ) (user : σ)
    (hnoeq : ∀ r ∈ bset.eq, r.getD (1 + bound_abs_pos bset type pos) 0 = 0)
    (hcase : (∃ r ∈ bset.ineq, r.getD (1 + bound_abs_pos bset type pos) 0 ≠ 0) ∨
      (bset.dim.n_in = 0 ∧ ∃ p, sat bset p)) :
    ∀ c ∈ (isl_basic_set_foreach_bound_pair C bset type pos fn user).calls,
      ∃ x, sat c.bset x := by
  intro c hc
  by_cases hv : pos < isl_basic_set_dim bset type ∧
      (type = .isl_dim_param ∨ type = isl_dim_set)
  · rcases run_cases_sublist C bset type pos fn user hv.1 hv.2 hnoeq with
      ⟨h, hs⟩ | ⟨-, hs⟩ | ⟨-, hs⟩ | ⟨-, hs⟩
    · rcases hcase with hb | ⟨hin, p, hp⟩
      · exact absurd h (some_bound_counts bset _ hb)
      · rw [hs, List.mem_singleton] at hc
        subst hc
        exact ⟨_, base_context_sat bset type pos hin hv.2 hnoeq p hp⟩
    · have hm := hs.subset hc
      simp only [List.mem_map, List.mem_filter, upper_keep, Bool.and_eq_true,
        decide_eq_true_eq] at hm
      obtain ⟨i, ⟨-, -, h0⟩, rfl⟩ := hm
      exact he _ h0
    · have hm := hs.subset hc
      simp only [List.mem_map, List.mem_filter, lower_keep, Bool.and_eq_true,
        decide_eq_true_eq] at hm
      obtain ⟨i, ⟨-, -, h0⟩, rfl⟩ := hm
      exact he _ h0
    · have hm := hs.subset hc
      simp only [pair_candidates, List.mem_flatMap, List.mem_map, List.mem_filter,
        pair_keep_upper, Bool.and_eq_true, decide_eq_true_eq] at hm
      obtain ⟨i, -, j, ⟨-, -, h0⟩, rfl⟩ := hm
      exact he _ h0
  · rw [(foreach_bound_pair_invalid C bset type pos fn user hv).1] at hc
    simp at hc

/-- Witness of the amended C6, on both sides of its condition: on two lower
bounds and one upper bound, with the emptiness test that looks at the origin,
the context of the one pair that is passed to the callback has an integer
point; on the container `y - 3 = 0`, `y >= 0` over `x`, `y`, which has the
point `(0, 3)` and no bound on `x`, the one context passed has one too. -/
theorem contexts_nonempty_witness :
    ((pair_call collab0 bsetDominated 0 (base_context bsetDominated isl_dim_set 0 0) 2 1 1 2 ∈
        (isl_basic_set_foreach_bound_pair collab0 bsetDominated isl_dim_set 0 countFn 0).calls) ∧
      ∃ x, sat
        (pair_call collab0 bsetDominated 0 (base_context bsetDominated isl_dim_set 0 0)
          2 1 1 2).bset x) ∧
    ((⟨none, none, base_context bsetNoBound isl_dim_set 0 0⟩ : BoundCall) ∈
        (isl_basic_set_foreach_bound_pair collab0 bsetNoBound isl_dim_set 0 countFn 0).calls ∧
      ∃ x, sat (base_context bsetNoBound isl_dim_set 0 0) x) :=
  ⟨⟨by decide,
    contexts_nonempty collab0 isEmptyAtOrigin_nonempty bsetDominated isl_dim_set 0 countFn 0
      (by decide) (Or.inl ⟨[0, 1], by decide, by decide⟩) _ (by decide)⟩,
   ⟨by decide,
    contexts_nonempty collab0 isEmptyAtOrigin_nonempty bsetNoBound isl_dim_set 0 countFn 0
      (by decide) (Or.inr ⟨by decide, fun k => if k = 1 then 3 else 0, by decide⟩)
      ⟨none, none, base_context bsetNoBound isl_dim_set 0 0⟩ (by decide)⟩⟩

/-! ## The scenario with a dominated lower bound -/

theorem dominated_context_zero (C : Collab) (hs : SimplifyPreserves C) (x : Nat → Int) :
    ¬ sat (set_largest_lower_bound C (base_context bsetDominated isl_dim_set 0 0)
      bsetDominated 0 2 0) x := by
  rw [sat_set_largest_lower_bound C hs]
  rintro ⟨-, h⟩
  have h1 := h 1 (by decide) (by decide) (by decide)
  have e : larger_bound_row (isl_basic_set_total_dim (base_context bsetDominated isl_dim_set 0 0))
      (bsetDominated.ineq.getD 0 []) (bsetDominated.ineq.getD 1 []) 0
      (if 1 > 0 then 1 else 0) = [-6] := by decide
  rw [e] at h1
  simp [rowValue, seqDot] at h1

theorem dominated_context_one (C : Collab) (hs : SimplifyPreserves C) (x : Nat → Int) :
    sat (set_largest_lower_bound C (base_context bsetDominated isl_dim_set 0 0)
      bsetDominated 0 2 1) x := by
  rw [sat_set_largest_lower_bound C hs]
  have he : (base_context bsetDominated isl_dim_set 0 0).eq = [] := by decide
  have hi : (base_context bsetDominated isl_dim_set 0 0).ineq = [] := by decide
  refine ⟨⟨by rw [he]; simp, by rw [hi]; simp⟩, ?_⟩
  intro j hj hne hp
  have hj3 : j < 3 := hj
  interval_cases j
  · have e : larger_bound_row
        (isl_basic_set_total_dim (base_context bsetDominated isl_dim_set 0 0))
        (bsetDominated.ineq.getD 1 []) (bsetDominated.ineq.getD 0 []) 0
        (if 0 > 1 then 1 else 0) = [5] := by decide
    rw [e]
    simp [rowValue, seqDot]
  · exact absurd rfl hne
  · exact absurd hp (by decide)

theorem dominated_context_pair (C : Collab) (hs : SimplifyPreserves C) (x : Nat → Int) :
    sat (bound_pair_context C bsetDominated 0
      (set_largest_lower_bound C (base_context bsetDominated isl_dim_set 0 0)
        bsetDominated 0 2 1) 1 1 2) x := by
  rw [sat_bound_pair_context C hs, sat_set_smallest_upper_bound C hs,
    total_set_largest_lower_bound C hs]
  refine ⟨⟨dominated_context_one C hs x, ?_⟩, ?_⟩
  · intro j hj hne hp
    have hj3 : j < 3 := hj
    interval_cases j
    · exact absurd hp (by decide)
    · exact absurd hp (by decide)
    · exact absurd rfl hne
  · have e : larger_bound_row
        (isl_basic_set_total_dim (base_context bsetDominated isl_dim_set 0 0))
        (bsetDominated.ineq.getD 1 []) (bsetDominated.ineq.getD 2 []) 0 0 = [5] := by decide
    rw [e]
    simp [rowValue, seqDot]

/-- C7: on the container `d >= 0`, `d - 5 >= 0`, `-d + 10 >= 0` the context of
the lower bound `d >= 0` has no integer point, and the enumeration on `d`
invokes the callback exactly once, with lower the cursor on row `d - 5 >= 0`
and upper the cursor on row `-d + 10 >= 0` of the container, whatever the
callback returns; simplification preserves the integer points and the
emptiness test is exact on containers whose constraints do not depend on the
point, as is the case over zero dimensions. -/
theorem dominated_lower_bound_scenario {σ : Type} (C : Collab)
    (hs : SimplifyPreserves C)
    (he : ∀ b, (∀ x y, sat b x ↔ sat b y) →
      (C.isl_basic_set_is_empty b ≠ 0 ↔ ∀ x, ¬ sat b x))
    (fn : BoundFn σ) (user : σ) :
    (∀ x, ¬ sat (set_largest_lower_bound C (base_context bsetDominated isl_dim_set 0 0)
      bsetDominated 0 2 0) x) ∧
    ∃ lower upper ctx,
      (isl_basic_set_foreach_bound_pair C bsetDominated isl_dim_set 0 fn user).calls
        = [⟨some lower, some upper, ctx⟩] ∧
      lower.line = 1 ∧ rowAt lower.bmap lower.line = [-5, 1] ∧
      upper.line = 2 ∧ rowAt upper.bmap upper.line = [10, -1] ∧
      lower.bmap.ineq = bsetDominated.ineq ∧ upper.bmap.ineq = bsetDominated.ineq ∧
      isl_constraint_is_equality lower = 0 ∧ isl_constraint_is_equality upper = 0 := by
  refine ⟨dominated_context_zero C hs, ?_⟩
  have h0 : C.isl_basic_set_is_empty (set_largest_lower_bound C
      (base_context bsetDominated isl_dim_set 0 0) bsetDominated 0 2 0) ≠ 0 :=
    (he _ (fun x y => ⟨fun h => absurd h (dominated_context_zero C hs x),
      fun h => absurd h (dominated_context_zero C hs y)⟩)).2 (dominated_context_zero C hs)
  have h1 : ¬ C.isl_basic_set_is_empty (set_largest_lower_bound C
      (base_context bsetDominated isl_dim_set 0 0) bsetDominated 0 2 1) ≠ 0 := by
    rw [he _ (fun x y => ⟨fun _ => dominated_context_one C hs y,
      fun _ => dominated_context_one C hs x⟩)]
    exact fun h => h (fun _ => 0) (dominated_context_one C hs _)
  have h12 : ¬ C.isl_basic_set_is_empty (bound_pair_context C bsetDominated 0
      (set_largest_lower_bound C (base_context bsetDominated isl_dim_set 0 0)
        bsetDominated 0 2 1) 1 1 2) ≠ 0 := by
    rw [he _ (fun x y => ⟨fun _ => dominated_context_pair C hs y,
      fun _ => dominated_context_pair C hs x⟩)]
    exact fun h => h (fun _ => 0) (dominated_context_pair C hs _)
  have hrun : isl_basic_set_foreach_bound_pair C bsetDominated isl_dim_set 0 fn user =
      foreach_bound_pair C bsetDominated 0 (base_context bsetDominated isl_dim_set 0 0) 2 1
        fn user := by
    rw [foreach_bound_pair_no_equality C bsetDominated isl_dim_set 0 fn user (by decide)
      (by decide) (by decide)]
    have e0 : bound_abs_pos bsetDominated isl_dim_set 0 = 0 := by decide
    have e1 : count_bounds bsetDominated 0 = (2, 1) := by decide
    rw [e0, e1]
    rfl
  have hr : List.range bsetDominated.ineq.length = [0, 1, 2] := by decide
  have c0 : ¬ ¬ 0 < coef bsetDominated.ineq 0 (1 + 0) := by decide
  have c1 : ¬ ¬ 0 < coef bsetDominated.ineq 1 (1 + 0) := by decide
  have c2 : ¬ 0 < coef bsetDominated.ineq 2 (1 + 0) := by decide
  have n0 : ¬ coef bsetDominated.ineq 0 (1 + 0) < 0 := by decide
  have n1 : ¬ coef bsetDominated.ineq 1 (1 + 0) < 0 := by decide
  have n2 : ¬ ¬ coef bsetDominated.ineq 2 (1 + 0) < 0 := by decide
  refine ⟨isl_basic_set_constraint (isl_basic_set_copy bsetDominated) 1,
    isl_basic_set_constraint (isl_basic_set_copy bsetDominated) 2,
    bound_pair_context C bsetDominated 0
      (set_largest_lower_bound C (base_context bsetDominated isl_dim_set 0 0)
        bsetDominated 0 2 1) 1 1 2, ?_, rfl, by decide, rfl, by decide, rfl, rfl,
    by decide, by decide⟩
  rw [hrun]
  unfold foreach_bound_pair
  rw [hr]
  unfold foreach_bound_pair_outer
  rw [if_neg c0, if_pos h0]
  unfold foreach_bound_pair_outer
  rw [if_neg c1, if_neg h1, hr]
  unfold foreach_bound_pair_inner
  rw [if_pos n0]
  unfold foreach_bound_pair_inner
  rw [if_pos n1]
  unfold foreach_bound_pair_inner
  rw [if_neg n2, if_neg h12]
  unfold foreach_bound_pair_inner
  dsimp only
  split
  · rfl
  · unfold foreach_bound_pair_outer
    rw [if_pos c2]
    unfold foreach_bound_pair_outer
    rfl

/-- Witness of C7 with the identity as simplification and the emptiness test
that looks at the origin. -/
theorem dominated_lower_bound_scenario_witness :
    (∀ x, ¬ sat (set_largest_lower_bound collab0 (base_context bsetDominated isl_dim_set 0 0)
      bsetDominated 0 2 0) x) ∧
    ∃ lower upper ctx,
      (isl_basic_set_foreach_bound_pair collab0 bsetDominated isl_dim_set 0 countFn 0).calls
        = [⟨some lower, some upper, ctx⟩] ∧
      lower.line = 1 ∧ rowAt lower.bmap lower.line = [-5, 1] ∧
      upper.line = 2 ∧ rowAt upper.bmap upper.line = [10, -1] ∧
      lower.bmap.ineq = bsetDominated.ineq ∧ upper.bmap.ineq = bsetDominated.ineq ∧
      isl_constraint_is_equality lower = 0 ∧ isl_constraint_is_equality upper = 0 :=
  dominated_lower_bound_scenario collab0 (simplifyId_preserves collab0 rfl)
    isEmptyAtOrigin_exact countFn 0


/-! ## Disjointness of the contexts -/

theorem getD_mem_rows (rows : List (List Int)) (i : Nat) (hi : i < rows.length) :
    rows.getD i [] ∈ rows := by
  rw [List.getD_eq_getElem?_getD, List.getElem?_eq_getElem hi]
  exact List.getElem_mem hi

/-- Two distinct lower bounds cannot both be the largest over the same
context: the strict comparison row of the smaller index and the non-strict
one of the larger index add up to `-1`. -/
theorem lower_contexts_disjoint (C : Collab) (hs : SimplifyPreserves C)
    (ctx bset : isl_basic_set) (d nl i i' : Nat)
    (hrows : ∀ r ∈ bset.ineq, r.length = isl_basic_set_total_dim ctx + 2)
    (hd : d ≤ isl_basic_set_total_dim ctx)
    (hi : i < bset.ineq.length) (hi' : i' < bset.ineq.length) (hlt : i < i')
    (hp : 0 < coef bset.ineq i (1 + d)) (hp' : 0 < coef bset.ineq i' (1 + d))
    (x : Nat → Int) :
    ¬ (sat (set_largest_lower_bound C ctx bset d nl i) x ∧
       sat (set_largest_lower_bound C ctx bset d nl i') x) := by
  rw [sat_set_largest_lower_bound C hs, sat_set_largest_lower_bound C hs]
  rintro ⟨⟨-, h1⟩, ⟨-, h2⟩⟩
  have a1 := h1 i' hi' (by omega) hp'
  have a2 := h2 i hi (by omega) hp
  have hl := hrows _ (getD_mem_rows _ i hi)
  have hl' := hrows _ (getD_mem_rows _ i' hi')
  rw [rowValue_larger_bound_row _ _ _ _ _ hl hl' hd, if_pos (by omega : i' > i)] at a1
  rw [rowValue_larger_bound_row _ _ _ _ _ hl' hl hd, if_neg (by omega : ¬ i > i')] at a2
  simp only [ne_eq, one_ne_zero, not_false_eq_true, if_true, not_true_eq_false, if_false] at a1 a2
  linarith

/-- Two distinct upper bounds cannot both be the smallest over the same
context. -/
theorem upper_contexts_disjoint (C : Collab) (hs : SimplifyPreserves C)
    (ctx bset : isl_basic_set) (d nu i i' : Nat)
    (hrows : ∀ r ∈ bset.ineq, r.length = isl_basic_set_total_dim ctx + 2)
    (hd : d ≤ isl_basic_set_total_dim ctx)
    (hi : i < bset.ineq.length) (hi' : i' < bset.ineq.length) (hlt : i < i')
    (hp : coef bset.ineq i (1 + d) < 0) (hp' : coef bset.ineq i' (1 + d) < 0)
    (x : Nat → Int) :
    ¬ (sat (set_smallest_upper_bound C ctx bset d nu i) x ∧
       sat (set_smallest_upper_bound C ctx bset d nu i') x) := by
  rw [sat_set_smallest_upper_bound C hs, sat_set_smallest_upper_bound C hs]
  rintro ⟨⟨-, h1⟩, ⟨-, h2⟩⟩
  have a1 := h1 i' hi' (by omega) hp'
  have a2 := h2 i hi (by omega) hp
  have hl := hrows _ (getD_mem_rows _ i hi)
  have hl' := hrows _ (getD_mem_rows _ i' hi')
  rw [rowValue_larger_bound_row _ _ _ _ _ hl' hl hd, if_pos (by omega : i' > i)] at a1
  rw [rowValue_larger_bound_row _ _ _ _ _ hl hl' hd, if_neg (by omega : ¬ i > i')] at a2
  simp only [ne_eq, one_ne_zero, not_false_eq_true, if_true, not_true_eq_false, if_false] at a1 a2
  linarith

theorem no_lower_bound (bset : isl_basic_set) (d : Nat) (h : (count_bounds bset d).1 = 0)
    (i : Nat) (hi : i < bset.ineq.length) : ¬ 0 < coef bset.ineq i (1 + d) := by
  rw [(count_bounds_range bset d).1, List.countP_eq_zero] at h
  simpa using h i (List.mem_range.2 hi)

theorem no_upper_bound (bset : isl_basic_set) (d : Nat) (h : (count_bounds bset d).2 = 0)
    (i : Nat) (hi : i < bset.ineq.length) : ¬ coef bset.ineq i (1 + d) < 0 := by
  rw [(count_bounds_range bset d).2, List.countP_eq_zero] at h
  simpa using h i (List.mem_range.2 hi)

theorem pair_context_sub (C : Collab) (hs : SimplifyPreserves C) (bset context : isl_basic_set)
    (d nl nu i j : Nat) (x : Nat → Int)
    (h : sat (pair_call C bset d context nl nu i j).bset x) :
    sat (set_largest_lower_bound C context bset d nl i) x ∧
    sat (set_smallest_upper_bound C (set_largest_lower_bound C context bset d nl i)
      bset d nu j) x := by
  simp only [pair_call] at h
  rw [sat_bound_pair_context C hs] at h
  refine ⟨?_, h.1⟩
  have h1 := h.1
  rw [sat_set_smallest_upper_bound C hs] at h1
  exact h1.1

/-- The candidates of each case have pairwise disjoint contexts. -/
theorem pairwise_filter_range (n : Nat) (keep : Nat → Bool) (mk : Nat → BoundCall)
    (R : BoundCall → BoundCall → Prop)
    (h : ∀ i i', i < n → i' < n → i < i' → keep i = true → keep i' = true → R (mk i) (mk i')) :
    List.Pairwise R (((List.range n).filter keep).map mk) := by
  rw [List.pairwise_map]
  have h0 := (List.pairwise_lt_range n).filter keep
  rw [List.Pairwise.and_mem] at h0
  refine h0.imp ?_
  rintro i i' ⟨hi, hi', hlt⟩
  rw [List.mem_filter, List.mem_range] at hi hi'
  exact h i i' hi.1 hi'.1 hlt hi.2 hi'.2

/-- C1: for a well-formed basic set with no equality row on the dimension and
a simplification that preserves the dimensions and the integer points, the
contexts of any two distinct invocations of a run share no integer point,
whatever the callback returns and whatever the emptiness test answers. -/
theorem activity_regions_disjoint {σ : Type} (C : Collab) (hs : SimplifyPreserves C)
    (bset : isl_basic_set) (hwf : wellFormed bset)
    (type : isl_dim_type) (pos : Nat) (fn : BoundFn σ) (user : σ)
    (hnoeq : ∀ r ∈ bset.eq, r.getD (1 + bound_abs_pos bset type pos) 0 = 0) :
    List.Pairwise (fun c1 c2 => ∀ x, ¬ (sat c1.bset x ∧ sat c2.bset x))
      (isl_basic_set_foreach_bound_pair C bset type pos fn user).calls := by
  by_cases hv : pos < isl_basic_set_dim bset type ∧
      (type = .isl_dim_param ∨ type = isl_dim_set)
  · have htot := total_base_context bset type pos (bound_abs_pos bset type pos) hv.1 hv.2
    have hdlt := abs_pos_lt_total bset type pos hv.1 hv.2
    have hrows : ∀ r ∈ bset.ineq, r.length = isl_basic_set_total_dim
        (base_context bset type pos (bound_abs_pos bset type pos)) + 2 := by
      intro r hr
      rw [hwf.2.2.1 r hr]
      omega
    have hd : bound_abs_pos bset type pos ≤ isl_basic_set_total_dim
        (base_context bset type pos (bound_abs_pos bset type pos)) := by omega
    rcases run_cases_sublist C bset type pos fn user hv.1 hv.2 hnoeq with
      ⟨-, h⟩ | ⟨⟨h1, -⟩, hsub⟩ | ⟨⟨-, h2⟩, hsub⟩ | ⟨-, hsub⟩
    · rw [h]
      exact List.pairwise_singleton _ _
    · refine List.Pairwise.sublist hsub (pairwise_filter_range _ _ _ _ ?_)
      intro i i' hi hi' hlt hk hk' x
      simp only [upper_keep, Bool.and_eq_true, decide_eq_true_eq] at hk hk'
      have hn := no_lower_bound bset _ h1 i hi
      have hn' := no_lower_bound bset _ h1 i' hi'
      exact upper_contexts_disjoint C hs _ bset _ _ i i' hrows hd hi hi' hlt
        (by omega) (by omega) x
    · refine List.Pairwise.sublist hsub (pairwise_filter_range _ _ _ _ ?_)
      intro i i' hi hi' hlt hk hk' x
      simp only [lower_keep, Bool.and_eq_true, decide_eq_true_eq] at hk hk'
      have hn := no_upper_bound bset _ h2 i hi
      have hn' := no_upper_bound bset _ h2 i' hi'
      exact lower_contexts_disjoint C hs _ bset _ _ i i' hrows hd hi hi' hlt
        (by omega) (by omega) x
    · refine List.Pairwise.sublist hsub ?_
      unfold pair_candidates
      rw [List.pairwise_flatMap]
      constructor
      · intro i _
        refine pairwise_filter_range _ _ _ _ ?_
        intro j j' hj hj' hlt hk hk' x hx
        simp only [pair_keep_upper, Bool.and_eq_true, decide_eq_true_eq] at hk hk'
        have s1 := (pair_context_sub C hs bset _ _ _ _ i j x hx.1).2
        have s2 := (pair_context_sub C hs bset _ _ _ _ i j' x hx.2).2
        refine upper_contexts_disjoint C hs _ bset _ _ j j' ?_ ?_ hj hj' hlt hk.1 hk'.1 x
          ⟨s1, s2⟩
        · rw [total_set_largest_lower_bound C hs]; exact hrows
        · rw [total_set_largest_lower_bound C hs]; exact hd
      · have h0 := (List.pairwise_lt_range bset.ineq.length).filter
          (pair_keep_lower C bset (bound_abs_pos bset type pos)
            (base_context bset type pos (bound_abs_pos bset type pos))
            (count_bounds bset (bound_abs_pos bset type pos)).1)
        rw [List.Pairwise.and_mem] at h0
        refine h0.imp ?_
        rintro i i' ⟨hi, hi', hlt⟩ c hc c' hc' x hx
        rw [List.mem_filter, List.mem_range] at hi hi'
        simp only [pair_keep_lower, Bool.and_eq_true, decide_eq_true_eq] at hi hi'
        simp only [List.mem_map, List.mem_filter] at hc hc'
        obtain ⟨j, -, rfl⟩ := hc
        obtain ⟨j', -, rfl⟩ := hc'
        have s1 := (pair_context_sub C hs bset _ _ _ _ i j x hx.1).1
        have s2 := (pair_context_sub C hs bset _ _ _ _ i' j' x hx.2).1
        exact lower_contexts_disjoint C hs _ bset _ _ i i' hrows hd hi.1 hi'.1 hlt
          hi.2.1 hi'.2.1 x ⟨s1, s2⟩
  · rw [(foreach_bound_pair_invalid C bset type pos fn user hv).1]
    exact List.Pairwise.nil

/-- Witness of C1: two lower bounds `d >= 0` and `d >= p` under one upper
bound, with an emptiness test that never answers "empty", so that both pairs
are passed to the callback. -/
theorem activity_regions_disjoint_witness :
    (isl_basic_set_foreach_bound_pair collabNever bsetParam isl_dim_set 0 countFn 0).calls.length
      = 2 ∧
    List.Pairwise (fun c1 c2 => ∀ x, ¬ (sat c1.bset x ∧ sat c2.bset x))
      (isl_basic_set_foreach_bound_pair collabNever bsetParam isl_dim_set 0 countFn 0).calls :=
  ⟨by decide, activity_regions_disjoint collabNever (simplifyId_preserves collabNever rfl)
    bsetParam (by decide) isl_dim_set 0 countFn 0 (by decide)⟩


/-! ## Exhaustiveness of the contexts -/

theorem rowValue_larger_bound_row_drop (T : Nat) (a b : List Int) (d : Nat) (s : Int)
    (ha : a.length = T + 2) (hb : b.length = T + 2) (hd : d ≤ T) (p : Nat → Int) :
    rowValue (larger_bound_row T a b d s) (dropCoord d p) =
      a.getD (1 + d) 0 * rowValue b p - b.getD (1 + d) 0 * rowValue a p
        - (if s ≠ 0 then 1 else 0) := by
  rw [rowValue_larger_bound_row _ _ _ _ _ ha hb hd, rowValue_eraseIdx, rowValue_eraseIdx]
  ring

/-- Among finitely many candidates with positive weights there is one of
least ratio `V / w`, the last one among equals. -/
theorem argmin_cross (S : Finset ℕ) (hS : S.Nonempty) (V w : ℕ → ℤ)
    (hw : ∀ i ∈ S, 0 < w i) :
    ∃ l ∈ S, ∀ j ∈ S, j ≠ l → (if j > l then (1 : ℤ) else 0) ≤ w l * V j - w j * V l := by
  obtain ⟨l, hl, hmax⟩ :=
    Finset.exists_max_image S (fun i => toLex ((-(V i : ℚ)) / (w i : ℚ), i)) hS
  refine ⟨l, hl, fun j hj hne => ?_⟩
  have h := hmax j hj
  rw [Prod.Lex.le_iff] at h
  have hwl : (0 : ℚ) < w l := by exact_mod_cast hw l hl
  have hwj : (0 : ℚ) < w j := by exact_mod_cast hw j hj
  rcases h with h | ⟨h1, h2⟩
  · simp only [ofLex_toLex] at h
    rw [div_lt_div_iff₀ hwj hwl] at h
    have h3 : (w j : ℚ) * V l < w l * V j := by linarith
    have h4 : w j * V l < w l * V j := by exact_mod_cast h3
    split <;> linarith
  · simp only [ofLex_toLex] at h1 h2
    have hlt : ¬ j > l := by
      have : j ≤ l := h2
      omega
    rw [div_eq_div_iff (ne_of_gt hwj) (ne_of_gt hwl)] at h1
    have h3 : (w j : ℚ) * V l = w l * V j := by linarith
    have h4 : w j * V l = w l * V j := by exact_mod_cast h3
    rw [if_neg hlt]
    linarith

theorem strict_flag (j l : Nat) :
    (if (if j > l then (1 : Int) else 0) ≠ 0 then (1 : Int) else 0) =
      if j > l then 1 else 0 := by
  by_cases h : j > l <;> simp [h]

/-- At the projection of a point, some lower bound is the largest. -/
theorem exists_largest_lower (bset : isl_basic_set) (d T : Nat) (p : Nat → Int)
    (hrows : ∀ r ∈ bset.ineq, r.length = T + 2) (hd : d ≤ T)
    (hex : ∃ i, i < bset.ineq.length ∧ 0 < coef bset.ineq i (1 + d)) :
    ∃ l, l < bset.ineq.length ∧ 0 < coef bset.ineq l (1 + d) ∧
      ∀ j, j < bset.ineq.length → j ≠ l → 0 < coef bset.ineq j (1 + d) →
        0 ≤ rowValue (larger_bound_row T (bset.ineq.getD l []) (bset.ineq.getD j []) d
          (if j > l then 1 else 0)) (dropCoord d p) := by
  obtain ⟨i0, hi0, hp0⟩ := hex
  obtain ⟨l, hl, hmin⟩ := argmin_cross
    ((Finset.range bset.ineq.length).filter (fun i => 0 < coef bset.ineq i (1 + d)))
    ⟨i0, by simp [hi0, hp0]⟩ (fun i => rowValue (bset.ineq.getD i []) p)
    (fun i => coef bset.ineq i (1 + d)) (fun i hi => (Finset.mem_filter.1 hi).2)
  rw [Finset.mem_filter, Finset.mem_range] at hl
  refine ⟨l, hl.1, hl.2, fun j hj hne hpj => ?_⟩
  have h := hmin j (by simp [hj, hpj]) hne
  rw [rowValue_larger_bound_row_drop _ _ _ _ _ (hrows _ (getD_mem_rows _ l hl.1))
    (hrows _ (getD_mem_rows _ j hj)) hd, strict_flag]
  simp only [coef] at h
  linarith

/-- At the projection of a point, some upper bound is the smallest. -/
theorem exists_smallest_upper (bset : isl_basic_set) (d T : Nat) (p : Nat → Int)
    (hrows : ∀ r ∈ bset.ineq, r.length = T + 2) (hd : d ≤ T)
    (hex : ∃ i, i < bset.ineq.length ∧ coef bset.ineq i (1 + d) < 0) :
    ∃ u, u < bset.ineq.length ∧ coef bset.ineq u (1 + d) < 0 ∧
      ∀ j, j < bset.ineq.length → j ≠ u → coef bset.ineq j (1 + d) < 0 →
        0 ≤ rowValue (larger_bound_row T (bset.ineq.getD j []) (bset.ineq.getD u []) d
          (if j > u then 1 else 0)) (dropCoord d p) := by
  obtain ⟨i0, hi0, hp0⟩ := hex
  obtain ⟨u, hu, hmin⟩ := argmin_cross
    ((Finset.range bset.ineq.length).filter (fun i => coef bset.ineq i (1 + d) < 0))
    ⟨i0, by simp [hi0, hp0]⟩ (fun i => rowValue (bset.ineq.getD i []) p)
    (fun i => -coef bset.ineq i (1 + d))
    (fun i hi => by have := (Finset.mem_filter.1 hi).2; show 0 < -coef bset.ineq i (1 + d); omega)
  rw [Finset.mem_filter, Finset.mem_range] at hu
  refine ⟨u, hu.1, hu.2, fun j hj hne hpj => ?_⟩
  have h := hmin j (by simp [hj, hpj]) hne
  rw [rowValue_larger_bound_row_drop _ _ _ _ _ (hrows _ (getD_mem_rows _ j hj))
    (hrows _ (getD_mem_rows _ u hu.1)) hd, strict_flag]
  simp only [coef] at h
  linarith

/-- A lower and an upper bound that a point satisfies are compatible at its
projection. -/
theorem lower_upper_compatible (T : Nat) (a b : List Int) (d : Nat)
    (ha : a.length = T + 2) (hb : b.length = T + 2) (hd : d ≤ T) (p : Nat → Int)
    (hpa : 0 < a.getD (1 + d) 0) (hpb : b.getD (1 + d) 0 < 0)
    (hva : 0 ≤ rowValue a p) (hvb : 0 ≤ rowValue b p) :
    0 ≤ rowValue (larger_bound_row T a b d 0) (dropCoord d p) := by
  rw [rowValue_larger_bound_row_drop _ _ _ _ _ ha hb hd]
  simp only [ne_eq, not_true_eq_false, if_false, sub_zero]
  nlinarith [mul_nonneg hpa.le hvb, mul_nonneg (neg_nonneg.2 hpb.le) hva]

theorem exists_lower_of_count (bset : isl_basic_set) (d : Nat)
    (h : (count_bounds bset d).1 ≠ 0) :
    ∃ i, i < bset.ineq.length ∧ 0 < coef bset.ineq i (1 + d) := by
  rw [(count_bounds_range bset d).1] at h
  obtain ⟨i, hi, hp⟩ := List.countP_pos_iff.1 (Nat.pos_of_ne_zero h)
  exact ⟨i, List.mem_range.1 hi, by simpa using hp⟩

theorem exists_upper_of_count (bset : isl_basic_set) (d : Nat)
    (h : (count_bounds bset d).2 ≠ 0) :
    ∃ i, i < bset.ineq.length ∧ coef bset.ineq i (1 + d) < 0 := by
  rw [(count_bounds_range bset d).2] at h
  obtain ⟨i, hi, hp⟩ := List.countP_pos_iff.1 (Nat.pos_of_ne_zero h)
  exact ⟨i, List.mem_range.1 hi, by simpa using hp⟩

theorem cursor_row (bset : isl_basic_set) (i : Nat) (hwf : wellFormed bset)
    (hi : i < bset.ineq.length) :
    rowAt (isl_basic_set_constraint (isl_basic_set_copy bset) i).bmap
      (isl_basic_set_constraint (isl_basic_set_copy bset) i).line = bset.ineq.getD i [] := by
  have h : ¬ bset.eq_pos ≤ i := by have := hwf.2.2.2; omega
  simp [rowAt, isl_basic_set_constraint, isl_basic_map_constraint, isl_basic_map_copy, h]

theorem is_empty_zero (C : Collab)
    (he : ∀ b, C.isl_basic_set_is_empty b ≠ 0 → ∀ x, ¬ sat b x)
    (b : isl_basic_set) (x : Nat → Int) (hx : sat b x) : C.isl_basic_set_is_empty b = 0 := by
  by_contra h
  exact he b h x hx


/-- C2: for a well-formed basic set with no equality row on the dimension
`d`, valid arguments, a callback that never fails, a simplification that
preserves the dimensions and the integer points and an emptiness test that
answers "empty" only for containers without integer point, every integer
point `p` of the container, with coordinate `d` deleted, lies in the context
of some invocation; the lower row passed there, when present, is a row of the
container with positive coefficient at `d` that `p` satisfies, and the upper
row, when present, one with negative coefficient that `p` satisfies. -/
theorem activity_regions_exhaustive {σ : Type} (C : Collab) (hs : SimplifyPreserves C)
    (he : ∀ b, C.isl_basic_set_is_empty b ≠ 0 → ∀ x, ¬ sat b x)
    (bset : isl_basic_set) (hwf : wellFormed bset)
    (type : isl_dim_type) (pos : Nat)
    (hpos : pos < isl_basic_set_dim bset type)
    (htype : type = .isl_dim_param ∨ type = isl_dim_set)
    (fn : BoundFn σ) (hfn : ∀ lo up b u, 0 ≤ (fn lo up b u).1) (user : σ)
    (hnoeq : ∀ r ∈ bset.eq, r.getD (1 + bound_abs_pos bset type pos) 0 = 0)
    (p : Nat → Int) (hp : sat bset p) :
    ∃ c ∈ (isl_basic_set_foreach_bound_pair C bset type pos fn user).calls,
      sat c.bset (dropCoord (bound_abs_pos bset type pos) p) ∧
      (∀ lo, c.lower = some lo →
        rowAt lo.bmap lo.line ∈ bset.ineq ∧
        0 < (rowAt lo.bmap lo.line).getD (1 + bound_abs_pos bset type pos) 0 ∧
        0 ≤ rowValue (rowAt lo.bmap lo.line) p) ∧
      (∀ up, c.upper = some up →
        rowAt up.bmap up.line ∈ bset.ineq ∧
        (rowAt up.bmap up.line).getD (1 + bound_abs_pos bset type pos) 0 < 0 ∧
        0 ≤ rowValue (rowAt up.bmap up.line) p) := by
  have htot := total_base_context bset type pos (bound_abs_pos bset type pos) hpos htype
  have hdlt := abs_pos_lt_total bset type pos hpos htype
  have hrows : ∀ r ∈ bset.ineq, r.length = isl_basic_set_total_dim
      (base_context bset type pos (bound_abs_pos bset type pos)) + 2 := by
    intro r hr
    rw [hwf.2.2.1 r hr]
    omega
  have hd : bound_abs_pos bset type pos ≤ isl_basic_set_total_dim
      (base_context bset type pos (bound_abs_pos bset type pos)) := by omega
  have hbase := base_context_sat bset type pos hwf.1 htype hnoeq p hp
  have hrow : ∀ i, i < bset.ineq.length →
      bset.ineq.getD i [] ∈ bset.ineq ∧ 0 ≤ rowValue (bset.ineq.getD i []) p :=
    fun i hi => ⟨getD_mem_rows _ i hi, hp.2 _ (getD_mem_rows _ i hi)⟩
  rcases run_cases_complete C bset type pos fn user hfn hpos htype hnoeq with
    ⟨-, h⟩ | ⟨⟨-, h2⟩, h⟩ | ⟨⟨h1, -⟩, h⟩ | ⟨⟨h1, h2⟩, h⟩
  · rw [h]
    refine ⟨_, List.mem_singleton.2 rfl, hbase, fun lo hlo => ?_, fun up hup => ?_⟩
    · simp at hlo
    · simp at hup
  · obtain ⟨u, hu1, hu2, hu3⟩ := exists_smallest_upper bset _ _ p hrows hd
      (exists_upper_of_count bset _ h2)
    have hsat : sat (set_smallest_upper_bound C
        (base_context bset type pos (bound_abs_pos bset type pos)) bset
        (bound_abs_pos bset type pos) (count_bounds bset (bound_abs_pos bset type pos)).2 u)
        (dropCoord (bound_abs_pos bset type pos) p) :=
      (sat_set_smallest_upper_bound C hs _ _ _ _ _ _).2 ⟨hbase, hu3⟩
    have hk : upper_keep C bset (bound_abs_pos bset type pos)
        (base_context bset type pos (bound_abs_pos bset type pos))
        (count_bounds bset (bound_abs_pos bset type pos)).2 u = true := by
      simp only [upper_keep, upper_call, Bool.and_eq_true, decide_eq_true_eq]
      exact ⟨by omega, is_empty_zero C he _ _ hsat⟩
    rw [h]
    refine ⟨_, List.mem_map.2 ⟨u, List.mem_filter.2 ⟨List.mem_range.2 hu1, hk⟩, rfl⟩,
      hsat, fun lo hlo => ?_, fun up hup => ?_⟩
    · simp [upper_call] at hlo
    · simp only [upper_call, Option.some.injEq] at hup
      subst hup
      rw [cursor_row bset u hwf hu1]
      exact ⟨(hrow u hu1).1, hu2, (hrow u hu1).2⟩
  · obtain ⟨l, hl1, hl2, hl3⟩ := exists_largest_lower bset _ _ p hrows hd
      (exists_lower_of_count bset _ h1)
    have hsat : sat (set_largest_lower_bound C
        (base_context bset type pos (bound_abs_pos bset type pos)) bset
        (bound_abs_pos bset type pos) (count_bounds bset (bound_abs_pos bset type pos)).1 l)
        (dropCoord (bound_abs_pos bset type pos) p) :=
      (sat_set_largest_lower_bound C hs _ _ _ _ _ _).2 ⟨hbase, hl3⟩
    have hk : lower_keep C bset (bound_abs_pos bset type pos)
        (base_context bset type pos (bound_abs_pos bset type pos))
        (count_bounds bset (bound_abs_pos bset type pos)).1 l = true := by
      simp only [lower_keep, lower_call, Bool.and_eq_true, decide_eq_true_eq]
      exact ⟨by omega, is_empty_zero C he _ _ hsat⟩
    rw [h]
    refine ⟨_, List.mem_map.2 ⟨l, List.mem_filter.2 ⟨List.mem_range.2 hl1, hk⟩, rfl⟩,
      hsat, fun lo hlo => ?_, fun up hup => ?_⟩
    · simp only [lower_call, Option.some.injEq] at hlo
      subst hlo
      rw [cursor_row bset l hwf hl1]
      exact ⟨(hrow l hl1).1, hl2, (hrow l hl1).2⟩
    · simp [lower_call] at hup
  · obtain ⟨l, hl1, hl2, hl3⟩ := exists_largest_lower bset _ _ p hrows hd
      (exists_lower_of_count bset _ h1)
    obtain ⟨u, hu1, hu2, hu3⟩ := exists_smallest_upper bset _ _ p hrows hd
      (exists_upper_of_count bset _ h2)
    have hsatl : sat (set_largest_lower_bound C
        (base_context bset type pos (bound_abs_pos bset type pos)) bset
        (bound_abs_pos bset type pos) (count_bounds bset (bound_abs_pos bset type pos)).1 l)
        (dropCoord (bound_abs_pos bset type pos) p) :=
      (sat_set_largest_lower_bound C hs _ _ _ _ _ _).2 ⟨hbase, hl3⟩
    have hsat : sat (pair_call C bset (bound_abs_pos bset type pos)
        (base_context bset type pos (bound_abs_pos bset type pos))
        (count_bounds bset (bound_abs_pos bset type pos)).1
        (count_bounds bset (bound_abs_pos bset type pos)).2 l u).bset
        (dropCoord (bound_abs_pos bset type pos) p) := by
      simp only [pair_call]
      rw [sat_bound_pair_context C hs, sat_set_smallest_upper_bound C hs,
        total_set_largest_lower_bound C hs]
      refine ⟨⟨hsatl, hu3⟩, ?_⟩
      exact lower_upper_compatible _ _ _ _ (hrows _ (hrow l hl1).1) (hrows _ (hrow u hu1).1)
        hd p hl2 hu2 (hrow l hl1).2 (hrow u hu1).2
    have hkl : pair_keep_lower C bset (bound_abs_pos bset type pos)
        (base_context bset type pos (bound_abs_pos bset type pos))
        (count_bounds bset (bound_abs_pos bset type pos)).1 l = true := by
      simp only [pair_keep_lower, Bool.and_eq_true, decide_eq_true_eq]
      exact ⟨hl2, is_empty_zero C he _ _ hsatl⟩
    have hku : pair_keep_upper C bset (bound_abs_pos bset type pos)
        (base_context bset type pos (bound_abs_pos bset type pos))
        (count_bounds bset (bound_abs_pos bset type pos)).1
        (count_bounds bset (bound_abs_pos bset type pos)).2 l u = true := by
      simp only [pair_keep_upper, Bool.and_eq_true, decide_eq_true_eq]
      exact ⟨hu2, is_empty_zero C he _ _ hsat⟩
    rw [h]
    refine ⟨_, List.mem_flatMap.2 ⟨l, List.mem_filter.2 ⟨List.mem_range.2 hl1, hkl⟩,
      List.mem_map.2 ⟨u, List.mem_filter.2 ⟨List.mem_range.2 hu1, hku⟩, rfl⟩⟩,
      hsat, fun lo hlo => ?_, fun up hup => ?_⟩
    · simp only [pair_call, Option.some.injEq] at hlo
      subst hlo
      rw [cursor_row bset l hwf hl1]
      exact ⟨(hrow l hl1).1, hl2, (hrow l hl1).2⟩
    · simp only [pair_call, Option.some.injEq] at hup
      subst hup
      rw [cursor_row bset u hwf hu1]
      exact ⟨(hrow u hu1).1, hu2, (hrow u hu1).2⟩

/-- Witness of C2: the point `p = 7`, `d = 7` of the container `d >= 0`,
`d - p >= 0`, `-d + 10 >= 0`, with an emptiness test that never answers
"empty". -/
theorem activity_regions_exhaustive_witness :
    sat bsetParam pointSeven ∧
    ∃ c ∈ (isl_basic_set_foreach_bound_pair collabNever bsetParam isl_dim_set 0 countFn 0).calls,
      sat c.bset (dropCoord (bound_abs_pos bsetParam isl_dim_set 0) pointSeven) ∧
      (∀ lo, c.lower = some lo →
        rowAt lo.bmap lo.line ∈ bsetParam.ineq ∧
        0 < (rowAt lo.bmap lo.line).getD (1 + bound_abs_pos bsetParam isl_dim_set 0) 0 ∧
        0 ≤ rowValue (rowAt lo.bmap lo.line) pointSeven) ∧
      (∀ up, c.upper = some up →
        rowAt up.bmap up.line ∈ bsetParam.ineq ∧
        (rowAt up.bmap up.line).getD (1 + bound_abs_pos bsetParam isl_dim_set 0) 0 < 0 ∧
        0 ≤ rowValue (rowAt up.bmap up.line) pointSeven) :=
  ⟨by decide, activity_regions_exhaustive collabNever (simplifyId_preserves collabNever rfl)
    (fun _ h => absurd rfl h) bsetParam (by decide) isl_dim_set 0 (by decide) (by decide)
    countFn (fun _ _ _ _ => le_refl 0) 0 (by decide) pointSeven (by decide)⟩


/-! ## Negation of an equality; argument errors of the enumeration -/

/-- C11: on a cursor whose row pointer lies in the equality region,
`isl_constraint_negate` fails, and what its release leaves behind, the cursor
(still on the same row) and the container, has every row unchanged. -/
theorem isl_constraint_negate_equality (c : isl_constraint)
    (heq : c.bmap.eq_pos ≤ c.line) :
    isl_constraint_is_equality c = 1 ∧
    isl_constraint_negate c = .error (isl_constraint_free c) ∧
    (∀ c', (isl_constraint_free c).cursor = some c' →
      c'.line = c.line ∧ c'.bmap = c.bmap ∧ rowAt c'.bmap c'.line = rowAt c.bmap c.line) ∧
    (∀ b, (isl_constraint_free c).bmap = some b →
      b.eq = c.bmap.eq ∧ b.ineq = c.bmap.ineq ∧ b.eq_pos = c.bmap.eq_pos) := by
  have h1 : isl_constraint_is_equality c = 1 := by simp [isl_constraint_is_equality, heq]
  refine ⟨h1, ?_, ?_, ?_⟩
  · unfold isl_constraint_negate
    rw [if_pos (by rw [h1]; decide)]
  · intro c' hc'
    unfold isl_constraint_free at hc'
    split at hc'
    · simp only [Option.some.injEq] at hc'
      subst hc'
      exact ⟨rfl, rfl, rfl⟩
    · simp at hc'
  · intro b hb
    unfold isl_constraint_free at hb
    split at hb
    · simp only [Option.some.injEq] at hb
      subst hb
      exact ⟨rfl, rfl, rfl⟩
    · simp only [isl_basic_map_free] at hb
      split at hb
      · simp only [Option.some.injEq] at hb
        subst hb
        exact ⟨rfl, rfl, rfl⟩
      · simp at hb

/-- Witness of C11 on the equality row `2 x - 4 = 0`. -/
theorem isl_constraint_negate_equality_witness :
    isl_constraint_is_equality equalityCursor = 1 ∧
    isl_constraint_negate equalityCursor = .error (isl_constraint_free equalityCursor) ∧
    (∀ c', (isl_constraint_free equalityCursor).cursor = some c' →
      c'.line = equalityCursor.line ∧ c'.bmap = equalityCursor.bmap ∧
      rowAt c'.bmap c'.line = rowAt equalityCursor.bmap equalityCursor.line) ∧
    (∀ b, (isl_constraint_free equalityCursor).bmap = some b →
      b.eq = equalityCursor.bmap.eq ∧ b.ineq = equalityCursor.bmap.ineq ∧
      b.eq_pos = equalityCursor.bmap.eq_pos) :=
  isl_constraint_negate_equality equalityCursor (by decide)

/-- C15: when `pos` is not smaller than the number of dimensions of the type,
or the type is neither parameter nor set dimension, the enumeration returns
`-1`, makes no invocation and leaves the user state alone. -/
theorem foreach_bound_pair_argument_errors {σ : Type} (C : Collab) (bset : isl_basic_set)
    (type : isl_dim_type) (pos : Nat) (fn : BoundFn σ) (user : σ)
    (h : ¬ pos < isl_basic_set_dim bset type ∨
      ¬ (type = .isl_dim_param ∨ type = isl_dim_set)) :
    (isl_basic_set_foreach_bound_pair C bset type pos fn user).ret = -1 ∧
    (isl_basic_set_foreach_bound_pair C bset type pos fn user).calls = [] ∧
    (isl_basic_set_foreach_bound_pair C bset type pos fn user).user = user := by
  unfold isl_basic_set_foreach_bound_pair
  by_cases hpos : pos < isl_basic_set_dim bset type
  · have ht : ¬ (type = .isl_dim_param ∨ type = isl_dim_set) := h.resolve_left (not_not.2 hpos)
    rw [if_neg (not_not.2 hpos), if_pos ht]
    exact ⟨rfl, rfl, rfl⟩
  · rw [if_pos hpos]
    exact ⟨rfl, rfl, rfl⟩

/-- Witness of C15: position 1 of a basic set with one set dimension, and an
existential dimension as type. -/
theorem foreach_bound_pair_argument_errors_witness :
    ((isl_basic_set_foreach_bound_pair collab0 bsetDominated isl_dim_set 1 countFn 0).ret = -1 ∧
     (isl_basic_set_foreach_bound_pair collab0 bsetDominated isl_dim_set 1 countFn 0).calls = [] ∧
     (isl_basic_set_foreach_bound_pair collab0 bsetDominated isl_dim_set 1 countFn 0).user = 0) ∧
    ((isl_basic_set_foreach_bound_pair collab0 bsetDominated .isl_dim_all 0 countFn 0).ret = -1 ∧
     (isl_basic_set_foreach_bound_pair collab0 bsetDominated .isl_dim_all 0 countFn 0).calls = [] ∧
     (isl_basic_set_foreach_bound_pair collab0 bsetDominated .isl_dim_all 0 countFn 0).user = 0) :=
  ⟨foreach_bound_pair_argument_errors collab0 bsetDominated isl_dim_set 1 countFn 0
      (Or.inl (by decide)),
   foreach_bound_pair_argument_errors collab0 bsetDominated .isl_dim_all 0 countFn 0
      (Or.inr (by decide))⟩

/-! ## Writes through a cursor -/

/-- C18, on the code: a valid coefficient write and a constant write through a
cursor on a container whose normalized flag is set change the row and leave
the flag set, whereas `isl_constraint_negate` on the same cursor clears it. -/
theorem set_coefficient_keeps_normalized :
    ownedCursor.bmap.normalized = true ∧
    rowAt ownedCursor.bmap ownedCursor.line = [3, 2] ∧
    rowAt (isl_constraint_set_coefficient ownedCursor isl_dim_set 0 5).bmap
      (isl_constraint_set_coefficient ownedCursor isl_dim_set 0 5).line = [3, 5] ∧
    (isl_constraint_set_coefficient ownedCursor isl_dim_set 0 5).bmap.normalized = true ∧
    rowAt (isl_constraint_set_constant ownedCursor 7).bmap
      (isl_constraint_set_constant ownedCursor 7).line = [7, 2] ∧
    (isl_constraint_set_constant ownedCursor 7).bmap.normalized = true ∧
    ∃ c', isl_constraint_negate ownedCursor = .ok c' ∧ c'.bmap.normalized = false :=
  ⟨by decide, by decide, by decide, by decide, by decide, by decide, _, rfl, by decide⟩

/-- C19, on the code: on a cursor on the single inequality row `2 d + 3 >= 0`
of its container, `isl_constraint_add_div` succeeds and leaves the row pointer
at the first slot of the equality region, where the container has no row:
the cursor addresses no live row (its row reads empty), it tests as an
equality, and the inequality row it came from is row 0 of the inequalities. -/
theorem add_div_inequality_cursor_off_row :
    liveCursor ownedCursor ∧ isl_constraint_is_equality ownedCursor = 0 ∧
    ∃ c' pos, isl_constraint_add_div ownedCursor divHalf = some (c', pos) ∧ pos = 0 ∧
      c'.bmap.eq = [] ∧ c'.bmap.ineq = [[3, 2, 0]] ∧ c'.bmap.eq_pos = 1 ∧ c'.line = 1 ∧
      ¬ liveCursor c' ∧ rowAt c'.bmap c'.line = [] ∧ isl_constraint_is_equality c' = 1 :=
  ⟨by decide, by decide, _, _, rfl, by decide, by decide, by decide, by decide, by decide,
    by decide, by decide, by decide⟩


/-! ## Reading back a coefficient -/

theorem rowAt_setRowAt (b : isl_basic_map) (line : Nat) (row : List Int)
    (hlive : (b.eq_pos ≤ line ∧ line - b.eq_pos < b.eq.length) ∨
      (¬ b.eq_pos ≤ line ∧ line < b.ineq.length)) :
    rowAt (setRowAt b line row) line = row := by
  unfold rowAt setRowAt
  rcases hlive with ⟨h1, h2⟩ | ⟨h1, h2⟩
  · simp [h1, List.getD_eq_getElem?_getD, h2]
  · simp [h1, List.getD_eq_getElem?_getD, h2]

theorem setRowAt_fields (b : isl_basic_map) (line : Nat) (row : List Int) :
    (setRowAt b line row).dim = b.dim ∧ (setRowAt b line row).div = b.div ∧
    (setRowAt b line row).eq_pos = b.eq_pos ∧
    (setRowAt b line row).normalized = b.normalized ∧
    (setRowAt b line row).ref = b.ref := by
  unfold setRowAt
  split <;> exact ⟨rfl, rfl, rfl, rfl, rfl⟩

theorem liveCursor_row (c : isl_constraint) (h : liveCursor c) :
    (c.bmap.eq_pos ≤ c.line ∧ c.line - c.bmap.eq_pos < c.bmap.eq.length) ∨
      (¬ c.bmap.eq_pos ≤ c.line ∧ c.line < c.bmap.ineq.length) := by
  obtain ⟨h1, h2, -⟩ := h
  rcases h2 with h2 | h2
  · exact Or.inl h2
  · exact Or.inr ⟨by omega, h2⟩

/-- The positions of the dimensions: distinct valid pairs of a type other
than `isl_dim_all` and an index have distinct positions, none of them the
position 0 of the constant, all of them within the row. -/
theorem offset_injective (c : isl_constraint) (t t' : isl_dim_type) (p p' : Nat)
    (ht : t ≠ .isl_dim_all) (ht' : t' ≠ .isl_dim_all)
    (hp : p < n c t) (hp' : p' < n c t')
    (h : offset c t + p = offset c t' + p') : t = t' ∧ p = p' := by
  cases t <;> cases t' <;>
    simp only [offset, n, isl_basic_map_dim, ne_eq, not_true_eq_false, reduceCtorEq,
      not_false_eq_true, true_and, and_true, false_and] at * <;> omega

theorem offset_range (c : isl_constraint) (t : isl_dim_type) (p : Nat)
    (ht : t ≠ .isl_dim_all) (hp : p < n c t) :
    1 ≤ offset c t + p ∧ offset c t + p < 1 + isl_basic_map_total_dim c.bmap := by
  cases t <;>
    simp only [offset, n, isl_basic_map_dim, isl_basic_map_total_dim, isl_dim_total, ne_eq,
      not_true_eq_false, reduceCtorEq, not_false_eq_true] at * <;> omega

theorem n_congr (c' c : isl_constraint) (t : isl_dim_type)
    (hdim : c'.bmap.dim = c.bmap.dim) (hdiv : c'.bmap.div = c.bmap.div) : n c' t = n c t := by
  cases t <;> simp [n, isl_basic_map_dim, isl_basic_map_total_dim, hdim, hdiv]

theorem offset_congr (c' c : isl_constraint) (t : isl_dim_type)
    (hdim : c'.bmap.dim = c.bmap.dim) : offset c' t = offset c t := by
  cases t <;> simp [offset, hdim]

theorem getD_set_self (r : List Int) (k : Nat) (v : Int) (h : k < r.length) :
    (r.set k v).getD k 0 = v := by
  simp [List.getD_eq_getElem?_getD, h]

theorem getD_set_other (r : List Int) (k j : Nat) (v : Int) (h : j ≠ k) :
    (r.set k v).getD j 0 = r.getD j 0 := by
  simp [List.getD_eq_getElem?_getD, List.getElem?_set, Ne.symm h]

/-- C17: on a cursor on a live row, for a type among parameter, input, output
and existential and an index in range, `isl_constraint_get_coefficient` after
`isl_constraint_set_coefficient` with `v` yields `v`, the constant and the
coefficient at every other valid type and index read as before; for an index
out of range the call changes nothing. -/
theorem set_get_coefficient (c : isl_constraint) (hlive : liveCursor c)
    (type : isl_dim_type) (htype : type ≠ .isl_dim_all) (pos : Nat) (v : Int) :
    (pos < n c type →
      isl_constraint_get_coefficient (isl_constraint_set_coefficient c type pos v) type pos
        = some v ∧
      isl_constraint_get_constant (isl_constraint_set_coefficient c type pos v)
        = isl_constraint_get_constant c ∧
      ∀ type' pos', type' ≠ .isl_dim_all → pos' < n c type' → (type', pos') ≠ (type, pos) →
        isl_constraint_get_coefficient (isl_constraint_set_coefficient c type pos v) type' pos'
          = isl_constraint_get_coefficient c type' pos') ∧
    (¬ pos < n c type → isl_constraint_set_coefficient c type pos v = c) := by
  constructor
  · intro hpos
    obtain ⟨hlo, hhi⟩ := offset_range c type pos htype hpos
    have hrow := rowAt_setRowAt c.bmap c.line
      ((rowAt c.bmap c.line).set (offset c type + pos) v) (liveCursor_row c hlive)
    obtain ⟨f1, f2, -, -, -⟩ := setRowAt_fields c.bmap c.line
      ((rowAt c.bmap c.line).set (offset c type + pos) v)
    have hb : (isl_constraint_set_coefficient c type pos v).bmap =
        setRowAt c.bmap c.line ((rowAt c.bmap c.line).set (offset c type + pos) v) := by
      unfold isl_constraint_set_coefficient
      rw [if_neg (not_not.2 hpos)]
    have hl : (isl_constraint_set_coefficient c type pos v).line = c.line := by
      unfold isl_constraint_set_coefficient
      rw [if_neg (not_not.2 hpos)]
    have hn : ∀ t, n (isl_constraint_set_coefficient c type pos v) t = n c t :=
      fun t => n_congr _ c t (by rw [hb]; exact f1) (by rw [hb]; exact f2)
    have hoff : ∀ t, offset (isl_constraint_set_coefficient c type pos v) t = offset c t :=
      fun t => offset_congr _ c t (by rw [hb]; exact f1)
    have hr : rowAt (isl_constraint_set_coefficient c type pos v).bmap
        (isl_constraint_set_coefficient c type pos v).line =
        (rowAt c.bmap c.line).set (offset c type + pos) v := by
      rw [hb, hl]
      exact hrow
    refine ⟨?_, ?_, ?_⟩
    · unfold isl_constraint_get_coefficient
      rw [hn, if_neg (not_not.2 hpos), hr, hoff,
        getD_set_self _ _ _ (by rw [hlive.2.2]; exact hhi)]
    · unfold isl_constraint_get_constant
      rw [hr, getD_set_other _ _ _ _ (by omega)]
    · intro type' pos' htype' hpos' hne
      unfold isl_constraint_get_coefficient
      rw [hn, if_neg (not_not.2 hpos'), if_neg (not_not.2 hpos'), hr, hoff,
        getD_set_other]
      intro heq
      obtain ⟨e1, e2⟩ := offset_injective c type' type pos' pos htype' htype hpos' hpos heq
      exact hne (by rw [e1, e2])
  · intro hpos
    unfold isl_constraint_set_coefficient
    rw [if_pos hpos]

/-- Witness of C17 on the output coefficient of `-x + 10 >= 0` over `x`, `y`:
the write of 9 at `x` reads back, the constant and the coefficient of `y`
read as before, and a write at index 2 changes nothing. -/
theorem set_get_coefficient_witness :
    isl_constraint_get_coefficient
      (isl_constraint_set_coefficient inequalityCursor isl_dim_set 0 9) isl_dim_set 0 = some 9 ∧
    isl_constraint_get_constant
      (isl_constraint_set_coefficient inequalityCursor isl_dim_set 0 9) = 10 ∧
    isl_constraint_get_coefficient
      (isl_constraint_set_coefficient inequalityCursor isl_dim_set 0 9) isl_dim_set 1 = some 0 ∧
    isl_constraint_set_coefficient inequalityCursor isl_dim_set 2 9 = inequalityCursor :=
  ⟨((set_get_coefficient inequalityCursor (by decide) isl_dim_set (by decide) 0 9).1
      (by decide)).1,
   ((set_get_coefficient inequalityCursor (by decide) isl_dim_set (by decide) 0 9).1
      (by decide)).2.1,
   ((set_get_coefficient inequalityCursor (by decide) isl_dim_set (by decide) 0 9).1
      (by decide)).2.2 isl_dim_set 1 (by decide) (by decide) (by decide),
   (set_get_coefficient inequalityCursor (by decide) isl_dim_set (by decide) 2 9).2
      (by decide)⟩


/-! ## Traversal -/

theorem next_in_equalities (b : isl_basic_map) (i : Nat) (h : i + 1 < b.eq.length) :
    isl_constraint_next (isl_basic_map_constraint b (b.eq_pos + i)) =
      some (isl_basic_map_constraint b (b.eq_pos + (i + 1))) := by
  have h1 : b.eq_pos ≤ b.eq_pos + i := Nat.le_add_right _ _
  have h2 : b.eq_pos + i + 1 < b.eq_pos + b.eq.length := by omega
  simp only [isl_constraint_next, isl_constraint_cow, isl_basic_map_constraint, if_true, h1, h2]
  rfl

theorem next_last_equality (b : isl_basic_map) (i : Nat) (h : i + 1 = b.eq.length) :
    isl_constraint_next (isl_basic_map_constraint b (b.eq_pos + i)) =
      if 0 < b.ineq.length then some (isl_basic_map_constraint b 0) else none := by
  have h1 : b.eq_pos ≤ b.eq_pos + i := Nat.le_add_right _ _
  have h2 : ¬ b.eq_pos + i + 1 < b.eq_pos + b.eq.length := by omega
  simp only [isl_constraint_next, isl_constraint_cow, isl_basic_map_constraint, if_true, h1, h2,
    if_false, Nat.zero_add]

theorem next_in_inequalities (b : isl_basic_map) (i : Nat) (hwf : b.ineq.length ≤ b.eq_pos)
    (hi : i < b.ineq.length) :
    isl_constraint_next (isl_basic_map_constraint b i) =
      if i + 1 < b.ineq.length then some (isl_basic_map_constraint b (i + 1)) else none := by
  have h1 : ¬ b.eq_pos ≤ i := by omega
  simp only [isl_constraint_next, isl_constraint_cow, isl_basic_map_constraint, if_true, h1,
    if_false, Nat.zero_add]

theorem walk_inequalities (b : isl_basic_map) (hwf : b.ineq.length ≤ b.eq_pos)
    (m i fuel : Nat) (hi : i + m = b.ineq.length) (hm : 0 < m) (hfuel : m < fuel) :
    constraint_walk fuel (some (isl_basic_map_constraint b i)) =
      (List.range' i m).map (fun k => isl_basic_map_constraint b k) := by
  induction m generalizing i fuel with
  | zero => omega
  | succ m ih =>
    obtain ⟨fuel, rfl⟩ : ∃ f, fuel = f + 1 := ⟨fuel - 1, by omega⟩
    rw [constraint_walk, next_in_inequalities b i hwf (by omega), List.range'_succ,
      List.map_cons]
    by_cases hm0 : m = 0
    · subst hm0
      rw [if_neg (by omega)]
      obtain ⟨fuel, rfl⟩ : ∃ f, fuel = f + 1 := ⟨fuel - 1, by omega⟩
      simp [constraint_walk]
    · rw [if_pos (by omega), ih (i + 1) fuel (by omega) (by omega) (by omega)]

theorem walk_from_inequalities (b : isl_basic_map) (hwf : b.ineq.length ≤ b.eq_pos)
    (fuel : Nat) (hfuel : b.ineq.length < fuel) :
    constraint_walk fuel (if 0 < b.ineq.length then some (isl_basic_map_constraint b 0)
        else none) =
      (List.range b.ineq.length).map (fun k => isl_basic_map_constraint b k) := by
  obtain ⟨fuel, rfl⟩ : ∃ f, fuel = f + 1 := ⟨fuel - 1, by omega⟩
  by_cases h : 0 < b.ineq.length
  · rw [if_pos h, List.range_eq_range']
    exact walk_inequalities b hwf _ 0 _ (by omega) h hfuel
  · rw [if_neg h]
    have h0 : b.ineq.length = 0 := by omega
    simp [constraint_walk, h0]

theorem walk_equalities (b : isl_basic_map) (hwf : b.ineq.length ≤ b.eq_pos)
    (m i fuel : Nat) (hi : i + m = b.eq.length) (hm : 0 < m)
    (hfuel : m + b.ineq.length < fuel) :
    constraint_walk fuel (some (isl_basic_map_constraint b (b.eq_pos + i))) =
      (List.range' i m).map (fun k => isl_basic_map_constraint b (b.eq_pos + k)) ++
      (List.range b.ineq.length).map (fun k => isl_basic_map_constraint b k) := by
  induction m generalizing i fuel with
  | zero => omega
  | succ m ih =>
    obtain ⟨fuel, rfl⟩ : ∃ f, fuel = f + 1 := ⟨fuel - 1, by omega⟩
    rw [constraint_walk, List.range'_succ, List.map_cons, List.cons_append]
    by_cases hm0 : m = 0
    · subst hm0
      rw [next_last_equality b i (by omega), walk_from_inequalities b hwf fuel (by omega)]
      simp
    · rw [next_in_equalities b i (by omega),
        ih (i + 1) fuel (by omega) (by omega) (by omega)]

/-- C20: on a container whose inequality rows lie below the equality region,
the traversal that starts with `isl_basic_map_first_constraint` and goes on
with `isl_constraint_next`, given more steps than there are rows, produces
the cursors on the equality rows `0 .. n_eq - 1` in order, then those on the
inequality rows `0 .. n_ineq - 1` in order, and then stops on `none`: exactly
`n_eq + n_ineq` cursors, whose rows are the rows of the container. -/
theorem first_next_traversal (bmap : isl_basic_map)
    (hwf : bmap.ineq.length ≤ bmap.eq_pos) (fuel : Nat)
    (hfuel : bmap.eq.length + bmap.ineq.length < fuel) :
    constraint_walk fuel (isl_basic_map_first_constraint bmap) =
      (List.range bmap.eq.length).map
        (fun k => isl_basic_map_constraint bmap (bmap.eq_pos + k)) ++
      (List.range bmap.ineq.length).map (fun k => isl_basic_map_constraint bmap k) ∧
    (constraint_walk fuel (isl_basic_map_first_constraint bmap)).length =
      bmap.eq.length + bmap.ineq.length ∧
    (constraint_walk fuel (isl_basic_map_first_constraint bmap)).map
      (fun c => rowAt c.bmap c.line) = bmap.eq ++ bmap.ineq := by
  have hmain : constraint_walk fuel (isl_basic_map_first_constraint bmap) =
      (List.range bmap.eq.length).map
        (fun k => isl_basic_map_constraint bmap (bmap.eq_pos + k)) ++
      (List.range bmap.ineq.length).map (fun k => isl_basic_map_constraint bmap k) := by
    unfold isl_basic_map_first_constraint
    by_cases h : 0 < bmap.eq.length
    · rw [if_pos h, List.range_eq_range']
      exact walk_equalities bmap hwf _ 0 fuel (by omega) h hfuel
    · have h0 : bmap.eq.length = 0 := by omega
      rw [if_neg h, walk_from_inequalities bmap hwf fuel (by omega), h0]
      simp
  refine ⟨hmain, by rw [hmain]; simp, ?_⟩
  rw [hmain, List.map_append, List.map_map, List.map_map]
  congr 1
  · apply List.ext_getElem (by simp)
    intro k h1 h2
    simp [rowAt, isl_basic_map_constraint, List.getD_eq_getElem?_getD, List.getElem?_eq_getElem h2]
  · apply List.ext_getElem (by simp)
    intro k h1 h2
    have hk : ¬ bmap.eq_pos ≤ k := by omega
    simp [rowAt, isl_basic_map_constraint, List.getD_eq_getElem?_getD,
      List.getElem?_eq_getElem h2, hk]

/-- Witness of C20 on a container with two equality and two inequality rows,
with ten steps allowed. -/
theorem first_next_traversal_witness :
    constraint_walk 10 (isl_basic_map_first_constraint bsetEquality) =
      (List.range bsetEquality.eq.length).map
        (fun k => isl_basic_map_constraint bsetEquality (bsetEquality.eq_pos + k)) ++
      (List.range bsetEquality.ineq.length).map
        (fun k => isl_basic_map_constraint bsetEquality k) ∧
    (constraint_walk 10 (isl_basic_map_first_constraint bsetEquality)).length =
      bsetEquality.eq.length + bsetEquality.ineq.length ∧
    (constraint_walk 10 (isl_basic_map_first_constraint bsetEquality)).map
      (fun c => rowAt c.bmap c.line) = bsetEquality.eq ++ bsetEquality.ineq :=
  first_next_traversal bsetEquality (by decide) 10 (by decide)


/-! ## Materialization and back -/

theorem from_constraint_single (c : isl_constraint)
    (h : c.bmap.eq.length + c.bmap.ineq.length = 1) :
    (isl_basic_map_from_constraint c).eq = c.bmap.eq ∧
    (isl_basic_map_from_constraint c).ineq = c.bmap.ineq ∧
    (isl_basic_map_from_constraint c).eq_pos = c.bmap.eq_pos := by
  unfold isl_basic_map_from_constraint
  rw [if_pos h]
  unfold isl_constraint_free isl_basic_map_free isl_basic_map_copy
  dsimp only
  split
  · next b hb =>
    split at hb
    · simp only [Option.some.injEq] at hb
      subst hb
      exact ⟨rfl, rfl, rfl⟩
    · split at hb
      · simp only [Option.some.injEq] at hb
        subst hb
        exact ⟨rfl, rfl, rfl⟩
      · simp at hb
  · exact ⟨rfl, rfl, rfl⟩

theorem from_constraint_equality (c : isl_constraint)
    (h : ¬ c.bmap.eq.length + c.bmap.ineq.length = 1) (heq : c.bmap.eq_pos ≤ c.line) :
    (isl_basic_map_from_constraint c).eq =
      [(rowAt c.bmap c.line).take (1 + isl_basic_map_total_dim c.bmap)] ∧
    (isl_basic_map_from_constraint c).ineq = [] ∧
    (isl_basic_map_from_constraint c).eq_pos = 1 := by
  have hk : isl_constraint_is_equality c ≠ 0 := by simp [isl_constraint_is_equality, heq]
  unfold isl_basic_map_from_constraint
  rw [if_neg h, if_pos hk]
  simp [isl_basic_set_finalize, isl_basic_map_alloc_equality, isl_basic_set_extend_constraints,
    isl_basic_map_cow, isl_basic_map_align_divs, isl_basic_map_universe_like, isl_seq_cpy,
    isl_basic_map_total_dim]

theorem from_constraint_inequality (c : isl_constraint)
    (h : ¬ c.bmap.eq.length + c.bmap.ineq.length = 1) (heq : ¬ c.bmap.eq_pos ≤ c.line) :
    (isl_basic_map_from_constraint c).eq = [] ∧
    (isl_basic_map_from_constraint c).ineq =
      [(rowAt c.bmap c.line).take (1 + isl_basic_map_total_dim c.bmap)] ∧
    (isl_basic_map_from_constraint c).eq_pos = 1 := by
  have hk : ¬ isl_constraint_is_equality c ≠ 0 := by simp [isl_constraint_is_equality, heq]
  unfold isl_basic_map_from_constraint
  rw [if_neg h, if_neg hk]
  simp [isl_basic_set_finalize, isl_basic_set_alloc_inequality, isl_basic_set_extend_constraints,
    isl_basic_map_cow, isl_basic_map_align_divs, isl_basic_map_universe_like, isl_seq_cpy,
    isl_basic_map_total_dim]

theorem first_constraint_row (b : isl_basic_map) (r : List Int) (hwf : b.ineq.length ≤ b.eq_pos)
    (h : (b.eq = [r] ∧ b.ineq = []) ∨ (b.eq = [] ∧ b.ineq = [r])) :
    ∃ c', isl_basic_map_first_constraint b = some c' ∧ rowAt c'.bmap c'.line = r ∧
      isl_constraint_is_equality c' = (if b.eq = [] then 0 else 1) ∧
      c'.bmap.eq.length + c'.bmap.ineq.length = 1 := by
  unfold isl_basic_map_first_constraint
  rcases h with ⟨h1, h2⟩ | ⟨h1, h2⟩
  · refine ⟨_, by rw [if_pos (by simp [h1])], ?_, ?_, ?_⟩
    · simp [rowAt, isl_basic_map_constraint, h1]
    · simp [isl_constraint_is_equality, isl_basic_map_constraint, h1]
    · simp [isl_basic_map_constraint, h1, h2]
  · have h0 : 0 < b.eq_pos := by rw [h2] at hwf; simpa using hwf
    refine ⟨_, by rw [if_neg (by simp [h1]), if_pos (by simp [h2])], ?_, ?_, ?_⟩
    · have : ¬ b.eq_pos ≤ 0 := by omega
      simp [rowAt, isl_basic_map_constraint, h2, this]
    · have : ¬ b.eq_pos ≤ 0 := by omega
      simp [isl_constraint_is_equality, isl_basic_map_constraint, h1, this]
    · simp [isl_basic_map_constraint, h1, h2]

theorem singleton_of_length (l : List (List Int)) (h : l.length = 1) : l = [l.getD 0 []] := by
  match l, h with
  | [a], _ => rfl

/-- C16: for a cursor on a live row, the first constraint of the container
that `isl_basic_map_from_constraint` makes of it is a cursor on a row with the
same constant and coefficients and of the same kind, the only row of that
container. -/
theorem from_constraint_first_constraint (c : isl_constraint) (hlive : liveCursor c) :
    ∃ c', isl_basic_map_first_constraint (isl_basic_map_from_constraint c) = some c' ∧
      rowAt c'.bmap c'.line = rowAt c.bmap c.line ∧
      isl_constraint_is_equality c' = isl_constraint_is_equality c ∧
      c'.bmap.eq.length + c'.bmap.ineq.length = 1 := by
  have hrow := liveCursor_row c hlive
  obtain ⟨hwf, -, hlen⟩ := hlive
  have htake : (rowAt c.bmap c.line).take (1 + isl_basic_map_total_dim c.bmap) =
      rowAt c.bmap c.line := List.take_of_length_le (by omega)
  by_cases h : c.bmap.eq.length + c.bmap.ineq.length = 1
  · obtain ⟨f1, f2, f3⟩ := from_constraint_single c h
    rcases hrow with ⟨h1, h2⟩ | ⟨h1, h2⟩
    · have he : c.bmap.eq.length = 1 := by omega
      have hi : c.bmap.ineq = [] := List.length_eq_zero.1 (by omega)
      have hl : c.line - c.bmap.eq_pos = 0 := by omega
      have hr : rowAt c.bmap c.line = c.bmap.eq.getD 0 [] := by simp [rowAt, h1, hl]
      obtain ⟨c', g1, g2, g3, g4⟩ := first_constraint_row (isl_basic_map_from_constraint c)
        (rowAt c.bmap c.line) (by rw [f2, f3]; exact hwf)
        (Or.inl ⟨by rw [f1, hr]; exact singleton_of_length _ he, by rw [f2, hi]⟩)
      refine ⟨c', g1, g2, ?_, g4⟩
      rw [g3, f1, if_neg (by intro h0; rw [h0] at he; simp at he)]
      simp [isl_constraint_is_equality, h1]
    · have hi : c.bmap.ineq.length = 1 := by omega
      have he : c.bmap.eq = [] := List.length_eq_zero.1 (by omega)
      have hl : c.line = 0 := by omega
      have hr : rowAt c.bmap c.line = c.bmap.ineq.getD 0 [] := by
        rw [rowAt_ineq _ _ h1, hl]
      obtain ⟨c', g1, g2, g3, g4⟩ := first_constraint_row (isl_basic_map_from_constraint c)
        (rowAt c.bmap c.line) (by rw [f2, f3]; exact hwf)
        (Or.inr ⟨by rw [f1, he], by rw [f2, hr]; exact singleton_of_length _ hi⟩)
      refine ⟨c', g1, g2, ?_, g4⟩
      rw [g3, f1, if_pos he]
      simp [isl_constraint_is_equality, h1]
  · by_cases heq : c.bmap.eq_pos ≤ c.line
    · obtain ⟨f1, f2, f3⟩ := from_constraint_equality c h heq
      rw [htake] at f1
      obtain ⟨c', g1, g2, g3, g4⟩ := first_constraint_row (isl_basic_map_from_constraint c)
        (rowAt c.bmap c.line) (by rw [f2, f3]; simp) (Or.inl ⟨f1, f2⟩)
      refine ⟨c', g1, g2, ?_, g4⟩
      rw [g3, f1, if_neg (by simp)]
      simp [isl_constraint_is_equality, heq]
    · obtain ⟨f1, f2, f3⟩ := from_constraint_inequality c h heq
      rw [htake] at f2
      obtain ⟨c', g1, g2, g3, g4⟩ := first_constraint_row (isl_basic_map_from_constraint c)
        (rowAt c.bmap c.line) (by rw [f2, f3]; simp) (Or.inr ⟨f1, f2⟩)
      refine ⟨c', g1, g2, ?_, g4⟩
      rw [g3, f1, if_pos rfl]
      simp [isl_constraint_is_equality, heq]

/-- Witness of C16 on the inequality row `-x + 10 >= 0` of a container with
four rows. -/
theorem from_constraint_first_constraint_witness :
    ∃ c', isl_basic_map_first_constraint (isl_basic_map_from_constraint inequalityCursor)
        = some c' ∧
      rowAt c'.bmap c'.line = rowAt inequalityCursor.bmap inequalityCursor.line ∧
      isl_constraint_is_equality c' = isl_constraint_is_equality inequalityCursor ∧
      c'.bmap.eq.length + c'.bmap.ineq.length = 1 :=
  from_constraint_first_constraint inequalityCursor (by decide)


/-! ## Defining equality -/

theorem first_non_zero_eq (q : List Int) (len : Nat) :
    isl_seq_first_non_zero q len = -1 ↔ ∀ k, k < len → q.getD k 0 = 0 := by
  unfold isl_seq_first_non_zero
  split
  · next k hk =>
    have h1 := List.find?_some hk
    have h2 := List.mem_range.1 (List.mem_of_find?_eq_some hk)
    simp only [decide_eq_true_eq] at h1
    constructor
    · intro h
      omega
    · intro h
      exact absurd (h k h2) h1
  · next hk =>
    rw [List.find?_eq_none] at hk
    simp only [List.mem_range, decide_eq_true_eq, not_not] at hk
    exact ⟨fun _ => hk, fun _ => rfl⟩

theorem getD_drop (r : List Int) (s k : Nat) : (r.drop s).getD k 0 = r.getD (s + k) 0 := by
  simp [List.getD_eq_getElem?_getD, List.getElem?_drop]

theorem suffix_zero_iff (r : List Int) (total off pos : Nat) (h : off + pos ≤ total) :
    isl_seq_first_non_zero (r.drop (off + pos + 1)) (1 + total - off - pos - 1) = -1 ↔
      ∀ k, k < 1 + total → off + pos < k → r.getD k 0 = 0 := by
  rw [first_non_zero_eq]
  constructor
  · intro hz k hk1 hk2
    have := hz (k - (off + pos + 1)) (by omega)
    rw [getD_drop] at this
    rwa [show off + pos + 1 + (k - (off + pos + 1)) = k by omega] at this
  · intro hz k hk
    rw [getD_drop]
    exact hz _ (by omega) (by omega)

theorem offset_pos_le_total (bset : isl_basic_set) (type : isl_dim_type) (pos : Nat)
    (hpos : pos < isl_basic_set_dim bset type) :
    basic_set_offset bset type + pos ≤ isl_basic_set_total_dim bset := by
  cases type <;>
    simp only [basic_set_offset, isl_basic_set_dim, isl_basic_map_dim, isl_basic_set_total_dim,
      isl_basic_map_total_dim, isl_dim_total] at * <;> omega

theorem defining_equality_test (bset : isl_basic_set) (type : isl_dim_type) (pos i : Nat)
    (hpos : pos < isl_basic_set_dim bset type) :
    (decide (coef bset.eq i (basic_set_offset bset type + pos) ≠ 0) &&
      decide (isl_seq_first_non_zero
        ((bset.eq.getD i []).drop (basic_set_offset bset type + pos + 1))
        (1 + isl_basic_set_total_dim bset - basic_set_offset bset type - pos - 1) = -1)) = true ↔
      definesAt (isl_basic_set_total_dim bset) (basic_set_offset bset type + pos)
        (bset.eq.getD i []) := by
  rw [Bool.and_eq_true, decide_eq_true_eq, decide_eq_true_eq,
    suffix_zero_iff _ _ _ _ (offset_pos_le_total bset type pos hpos)]
  rfl

/-- C12: for an index in range, `isl_basic_set_has_defining_equality` returns
1 exactly when some equality row has a non-zero coefficient at the position
of the dimension and zero coefficients at all later positions; it returns 0
and stores nothing when there is none; and when `i` is the least index of
such a row it returns 1 with a cursor on equality row `i` of the container. -/
theorem has_defining_equality_spec (bset : isl_basic_set) (type : isl_dim_type) (pos : Nat)
    (hpos : pos < isl_basic_set_dim bset type) :
    ((isl_basic_set_has_defining_equality bset type pos).1 = 1 ↔
      ∃ r ∈ bset.eq, definesAt (isl_basic_set_total_dim bset)
        (basic_set_offset bset type + pos) r) ∧
    ((∀ r ∈ bset.eq, ¬ definesAt (isl_basic_set_total_dim bset)
        (basic_set_offset bset type + pos) r) →
      isl_basic_set_has_defining_equality bset type pos = (0, none)) ∧
    (∀ i, i < bset.eq.length →
      definesAt (isl_basic_set_total_dim bset) (basic_set_offset bset type + pos)
        (bset.eq.getD i []) →
      (∀ k, k < i → ¬ definesAt (isl_basic_set_total_dim bset)
        (basic_set_offset bset type + pos) (bset.eq.getD k [])) →
      ∃ c, isl_basic_set_has_defining_equality bset type pos = (1, some c) ∧
        c.line = bset.eq_pos + i ∧ isl_constraint_is_equality c = 1 ∧
        rowAt c.bmap c.line = bset.eq.getD i [] ∧
        c.bmap.eq = bset.eq ∧ c.bmap.ineq = bset.ineq) := by
  have htest := fun i => defining_equality_test bset type pos i hpos
  have hnone : (∀ r ∈ bset.eq, ¬ definesAt (isl_basic_set_total_dim bset)
        (basic_set_offset bset type + pos) r) →
      isl_basic_set_has_defining_equality bset type pos = (0, none) := by
    intro hno
    unfold isl_basic_set_has_defining_equality
    rw [if_neg (not_not.2 hpos)]
    have hf : (List.range bset.eq.length).find? (fun i =>
        decide (coef bset.eq i (basic_set_offset bset type + pos) ≠ 0) &&
        decide (isl_seq_first_non_zero
          ((bset.eq.getD i []).drop (basic_set_offset bset type + pos + 1))
          (1 + isl_basic_set_total_dim bset - basic_set_offset bset type - pos - 1) = -1))
        = none := by
      rw [List.find?_eq_none]
      intro i hi
      rw [htest i]
      exact hno _ (getD_mem_rows _ i (List.mem_range.1 hi))
    rw [hf]
  have hsome : ∀ i, i < bset.eq.length →
      definesAt (isl_basic_set_total_dim bset) (basic_set_offset bset type + pos)
        (bset.eq.getD i []) →
      (∀ k, k < i → ¬ definesAt (isl_basic_set_total_dim bset)
        (basic_set_offset bset type + pos) (bset.eq.getD k [])) →
      isl_basic_set_has_defining_equality bset type pos =
        (1, some (isl_basic_set_constraint (isl_basic_set_copy bset) (bset.eq_pos + i))) := by
    intro i hi hd hfirst
    unfold isl_basic_set_has_defining_equality
    rw [if_neg (not_not.2 hpos)]
    have hf := find_range (fun i =>
        decide (coef bset.eq i (basic_set_offset bset type + pos) ≠ 0) &&
        decide (isl_seq_first_non_zero
          ((bset.eq.getD i []).drop (basic_set_offset bset type + pos + 1))
          (1 + isl_basic_set_total_dim bset - basic_set_offset bset type - pos - 1) = -1))
      bset.eq.length i hi ((htest i).2 hd)
      (fun k hk => by
        have := hfirst k hk
        rw [← htest k] at this
        simpa using this)
    rw [hf]
  refine ⟨⟨?_, ?_⟩, hnone, ?_⟩
  · intro h1
    by_contra hno
    rw [hnone (fun r hr hd => hno ⟨r, hr, hd⟩)] at h1
    simp at h1
  · rintro ⟨r, hr, hd⟩
    obtain ⟨i0, hi0, rfl⟩ := List.getElem_of_mem hr
    have hex : ∃ i, i < bset.eq.length ∧ definesAt (isl_basic_set_total_dim bset)
        (basic_set_offset bset type + pos) (bset.eq.getD i []) :=
      ⟨i0, hi0, by simpa [List.getD_eq_getElem?_getD, List.getElem?_eq_getElem hi0] using hd⟩
    have hmin := Nat.find_spec hex
    rw [hsome (Nat.find hex) hmin.1 hmin.2 (fun k hk hdk =>
      Nat.find_min hex hk ⟨by omega, hdk⟩)]
  · intro i hi hd hfirst
    refine ⟨_, hsome i hi hd hfirst, rfl, ?_, ?_, rfl, rfl⟩
    · simp [isl_constraint_is_equality, isl_basic_set_constraint, isl_basic_map_constraint,
        isl_basic_map_copy]
    · simp [rowAt, isl_basic_set_constraint, isl_basic_map_constraint, isl_basic_map_copy]

/-- Witness of C12: dimension `x` of the container `x + y = 0`, `2 x - 4 = 0`,
`x - 1 = 0`, where the second equality is the first to define `x`. -/
theorem has_defining_equality_spec_witness :
    ∃ c, isl_basic_set_has_defining_equality bsetDefined isl_dim_set 0 = (1, some c) ∧
      c.line = bsetDefined.eq_pos + 1 ∧ isl_constraint_is_equality c = 1 ∧
      rowAt c.bmap c.line = bsetDefined.eq.getD 1 [] ∧
      c.bmap.eq = bsetDefined.eq ∧ c.bmap.ineq = bsetDefined.ineq :=
  (has_defining_equality_spec bsetDefined isl_dim_set 0 (by decide)).2.2 1
    (by decide) (by decide) (by decide)


/-! ## Defining inequalities -/

theorem is_neg_iff (p1 p2 : List Int) (len : Nat) :
    isl_seq_is_neg p1 p2 len = true ↔ ∀ k, k < len → p1.getD k 0 = -(p2.getD k 0) := by
  simp [isl_seq_is_neg, List.all_eq_true]

theorem defining_pair_test_iff (bset : isl_basic_set) (off pos total i j : Nat) :
    defining_pair_test bset off pos total i j = true ↔
      (∀ k, k < 1 + total → 1 ≤ k →
        (bset.ineq.getD j []).getD k 0 = -((bset.ineq.getD i []).getD k 0)) ∧
      ((bset.ineq.getD i []).getD 0 0 + (bset.ineq.getD j []).getD 0 0).natAbs <
        ((bset.ineq.getD i []).getD (off + pos) 0).natAbs := by
  unfold defining_pair_test isl_int_abs_ge coef
  rw [Bool.and_eq_true, is_neg_iff, Bool.not_eq_true', decide_eq_false_iff_not, not_le]
  refine and_congr_left (fun _ => ⟨fun h k hk1 hk2 => ?_, fun h k hk => ?_⟩)
  · have := h (k - 1) (by omega)
    rw [getD_drop, getD_drop, show 1 + (k - 1) = k by omega] at this
    omega
  · rw [getD_drop, getD_drop]
    have := h (1 + k) (by omega) (by omega)
    omega

theorem find_range'_some (f : Nat → Bool) (s m j : Nat)
    (h : (List.range' s m).find? f = some j) : s ≤ j ∧ j < s + m ∧ f j = true := by
  have h1 := List.mem_range'_1.1 (List.mem_of_find?_eq_some h)
  exact ⟨h1.1, h1.2, List.find?_some h⟩

theorem find_range'_none (f : Nat → Bool) (s m : Nat)
    (h : (List.range' s m).find? f = none) (j : Nat) (h1 : s ≤ j) (h2 : j < s + m) :
    f j = false := by
  rw [List.find?_eq_none] at h
  simpa using h j (List.mem_range'_1.2 ⟨h1, h2⟩)

/-- What the outer loop finds is a pair of rows that sandwich the dimension. -/
theorem defining_loop_sound (bset : isl_basic_set) (off pos total : Nat)
    (hle : off + pos ≤ total) (is : List Nat) (i j : Nat)
    (h : defining_inequalities_loop bset off pos total is = some (i, j)) :
    i ∈ is ∧ i < j ∧ j < bset.ineq.length ∧
      definingPair total (off + pos) (bset.ineq.getD i []) (bset.ineq.getD j []) := by
  induction is with
  | nil => simp [defining_inequalities_loop] at h
  | cons a is ih =>
    unfold defining_inequalities_loop at h
    have hrec : defining_inequalities_loop bset off pos total is = some (i, j) →
        i ∈ a :: is ∧ i < j ∧ j < bset.ineq.length ∧
        definingPair total (off + pos) (bset.ineq.getD i []) (bset.ineq.getD j []) :=
      fun h' => ⟨List.mem_cons_of_mem _ (ih h').1, (ih h').2⟩
    split at h
    · exact hrec h
    · split at h
      · exact hrec h
      · split at h
        · exact hrec h
        · split at h
          · exact hrec h
          · next h0 h1 hm1 hz =>
            split at h
            · next j' hj' =>
              simp only [Option.some.injEq, Prod.mk.injEq] at h
              obtain ⟨rfl, rfl⟩ := h
              obtain ⟨g1, g2, g3⟩ := find_range'_some _ _ _ _ hj'
              rw [defining_pair_test_iff] at g3
              refine ⟨List.mem_cons_self _ _, by omega, by omega, ⟨h0, h1, hm1⟩, ?_, g3.1, g3.2⟩
              exact (suffix_zero_iff _ _ _ _ hle).1 (not_not.1 hz)
            · exact hrec h

/-- When the outer loop finds nothing, no row it visits has a partner. -/
theorem defining_loop_complete (bset : isl_basic_set) (off pos total : Nat)
    (hle : off + pos ≤ total) (is : List Nat)
    (h : defining_inequalities_loop bset off pos total is = none)
    (i : Nat) (hi : i ∈ is) (j : Nat) (hij : i < j) (hj : j < bset.ineq.length) :
    ¬ definingPair total (off + pos) (bset.ineq.getD i []) (bset.ineq.getD j []) := by
  induction is with
  | nil => simp at hi
  | cons a is ih =>
    unfold defining_inequalities_loop at h
    rintro ⟨⟨d0, d1, dm1⟩, dz, dn, da⟩
    rcases List.mem_cons.1 hi with rfl | hi'
    · have e0 : ¬ coef bset.ineq i (off + pos) = 0 := d0
      have e1 : ¬ coef bset.ineq i (off + pos) = 1 := d1
      have e2 : ¬ coef bset.ineq i (off + pos) = -1 := dm1
      rw [if_neg e0, if_neg e1, if_neg e2,
        if_neg (not_not.2 ((suffix_zero_iff _ _ _ _ hle).2 dz))] at h
      split at h
      · simp at h
      · next hnone =>
        have := find_range'_none _ _ _ hnone j (by omega) (by omega)
        rw [← Bool.not_eq_true, defining_pair_test_iff] at this
        exact this ⟨dn, da⟩
    · have hrest : defining_inequalities_loop bset off pos total is = none := by
        split at h
        · exact h
        · split at h
          · exact h
          · split at h
            · exact h
            · split at h
              · exact h
              · split at h
                · simp at h
                · exact h
      exact ih hrest hi' ⟨⟨d0, d1, dm1⟩, dz, dn, da⟩

/-- The outcome of `isl_basic_set_has_defining_inequalities` for an index in
range: either 0 with nothing stored and no sandwiching pair of rows, or 1
with cursors on the rows `i < j` of such a pair, the lower one on the row of
the two whose coefficient is positive when that of row `i` is. -/
theorem defining_inequalities_cases (bset : isl_basic_set) (type : isl_dim_type) (pos : Nat)
    (hpos : pos < isl_basic_set_dim bset type) :
    (isl_basic_set_has_defining_inequalities bset type pos = (0, none, none) ∧
      ∀ i j, i < j → j < bset.ineq.length →
        ¬ definingPair (isl_basic_set_total_dim bset) (basic_set_offset bset type + pos)
          (bset.ineq.getD i []) (bset.ineq.getD j [])) ∨
    (∃ i j, i < j ∧ j < bset.ineq.length ∧
      definingPair (isl_basic_set_total_dim bset) (basic_set_offset bset type + pos)
        (bset.ineq.getD i []) (bset.ineq.getD j []) ∧
      isl_basic_set_has_defining_inequalities bset type pos =
        (1, some (isl_basic_set_constraint (isl_basic_set_copy bset)
            (if 0 < coef bset.ineq i (basic_set_offset bset type + pos) then i else j)),
          some (isl_basic_set_constraint (isl_basic_set_copy bset)
            (if 0 < coef bset.ineq i (basic_set_offset bset type + pos) then j else i)))) := by
  have hle := offset_pos_le_total bset type pos hpos
  unfold isl_basic_set_has_defining_inequalities
  rw [if_neg (not_not.2 hpos)]
  cases hl : defining_inequalities_loop bset (basic_set_offset bset type) pos
      (isl_basic_set_total_dim bset) (List.range bset.ineq.length) with
  | none =>
    refine Or.inl ⟨rfl, fun i j hij hj => ?_⟩
    exact defining_loop_complete bset _ _ _ hle _ hl i (List.mem_range.2 (by omega)) j hij hj
  | some ij =>
    obtain ⟨i, j⟩ := ij
    obtain ⟨-, h2, h3, h4⟩ := defining_loop_sound bset _ _ _ hle _ i j hl
    exact Or.inr ⟨i, j, h2, h3, h4, rfl⟩

/-- C13: for an index in range, `isl_basic_set_has_defining_inequalities`
returns 1 exactly when there are inequality rows `i < j` such that the
coefficient of row `i` at the position is not 0, 1 or -1, row `i` is zero
after the position, the non-constant part of row `j` is the negation of that
of row `i`, and the sum of the constants is smaller in absolute value than
the coefficient; it then stores cursors on the rows of such a pair, the lower
one on the row with positive coefficient at the position of the dimension and
the upper one on the other; otherwise it returns 0 and both outputs are
none. -/
theorem has_defining_inequalities_spec (bset : isl_basic_set) (type : isl_dim_type) (pos : Nat)
    (hpos : pos < isl_basic_set_dim bset type) :
    ((isl_basic_set_has_defining_inequalities bset type pos).1 = 1 ↔
      ∃ i j, i < j ∧ j < bset.ineq.length ∧
        definingPair (isl_basic_set_total_dim bset) (basic_set_offset bset type + pos)
          (bset.ineq.getD i []) (bset.ineq.getD j [])) ∧
    ((isl_basic_set_has_defining_inequalities bset type pos).1 = 1 →
      ∃ i j lo up, i < j ∧ j < bset.ineq.length ∧
        definingPair (isl_basic_set_total_dim bset) (basic_set_offset bset type + pos)
          (bset.ineq.getD i []) (bset.ineq.getD j []) ∧
        ((lo = i ∧ up = j) ∨ (lo = j ∧ up = i)) ∧
        isl_basic_set_has_defining_inequalities bset type pos =
          (1, some (isl_basic_set_constraint (isl_basic_set_copy bset) lo),
            some (isl_basic_set_constraint (isl_basic_set_copy bset) up)) ∧
        (type ≠ .isl_dim_all →
          0 < coef bset.ineq lo (basic_set_offset bset type + pos) ∧
          coef bset.ineq up (basic_set_offset bset type + pos) < 0)) ∧
    ((isl_basic_set_has_defining_inequalities bset type pos).1 ≠ 1 →
      isl_basic_set_has_defining_inequalities bset type pos = (0, none, none)) := by
  have hle := offset_pos_le_total bset type pos hpos
  rcases defining_inequalities_cases bset type pos hpos with
    ⟨h0, hno⟩ | ⟨i, j, hij, hj, hd, hr⟩
  · rw [h0]
    refine ⟨⟨fun h => by simp at h, ?_⟩, fun h => by simp at h, fun _ => rfl⟩
    rintro ⟨i, j, hij, hj, hd⟩
    exact absurd hd (hno i j hij hj)
  · rw [hr]
    refine ⟨⟨fun _ => ⟨i, j, hij, hj, hd⟩, fun _ => rfl⟩, fun _ => ?_, fun h => absurd rfl h⟩
    refine ⟨i, j, _, _, hij, hj, hd, ?_, rfl, ?_⟩
    · by_cases hp : 0 < coef bset.ineq i (basic_set_offset bset type + pos)
      · rw [if_pos hp, if_pos hp]; exact Or.inl ⟨rfl, rfl⟩
      · rw [if_neg hp, if_neg hp]; exact Or.inr ⟨rfl, rfl⟩
    · intro htype
      have hoff : 1 ≤ basic_set_offset bset type + pos := by
        cases type <;> simp only [basic_set_offset, ne_eq, not_true_eq_false] at * <;> omega
      obtain ⟨⟨d0, -, -⟩, -, dn, -⟩ := hd
      have hneg := dn (basic_set_offset bset type + pos) (by omega) hoff
      by_cases hp : 0 < coef bset.ineq i (basic_set_offset bset type + pos)
      · rw [if_pos hp, if_pos hp]
        simp only [coef] at hp ⊢
        exact ⟨hp, by omega⟩
      · rw [if_neg hp, if_neg hp]
        simp only [coef] at hp ⊢
        exact ⟨by omega, by omega⟩

/-- Witness of C13: dimension `d` of the container `p >= 0`,
`-3 d + p + 2 >= 0`, `3 d - p >= 0`; rows 1 and 2 are found, row 2 is the
lower bound. -/
theorem has_defining_inequalities_spec_witness :
    isl_basic_set_has_defining_inequalities bsetTight isl_dim_set 0 =
      (1, some (isl_basic_set_constraint (isl_basic_set_copy bsetTight) 2),
        some (isl_basic_set_constraint (isl_basic_set_copy bsetTight) 1)) ∧
    ∃ i j lo up, i < j ∧ j < bsetTight.ineq.length ∧
      definingPair (isl_basic_set_total_dim bsetTight)
        (basic_set_offset bsetTight isl_dim_set + 0)
        (bsetTight.ineq.getD i []) (bsetTight.ineq.getD j []) ∧
      ((lo = i ∧ up = j) ∨ (lo = j ∧ up = i)) ∧
      isl_basic_set_has_defining_inequalities bsetTight isl_dim_set 0 =
        (1, some (isl_basic_set_constraint (isl_basic_set_copy bsetTight) lo),
          some (isl_basic_set_constraint (isl_basic_set_copy bsetTight) up)) ∧
      (isl_dim_set ≠ .isl_dim_all →
        0 < coef bsetTight.ineq lo (basic_set_offset bsetTight isl_dim_set + 0) ∧
        coef bsetTight.ineq up (basic_set_offset bsetTight isl_dim_set + 0) < 0) :=
  ⟨by decide,
   (has_defining_inequalities_spec bsetTight isl_dim_set 0 (by decide)).2.1 (by decide)⟩


/-! ## Integer tightness of defining inequalities -/

theorem seqDot_agree (as : List Int) (d : Nat) (p q : Nat → Int)
    (h : ∀ k, k ≠ d → p k = q k) :
    seqDot as p - seqDot as q = as.getD d 0 * (p d - q d) := by
  induction as generalizing d p q with
  | nil => simp [seqDot]
  | cons a as ih =>
    cases d with
    | zero =>
      have hs : (fun k => p (k + 1)) = fun k => q (k + 1) := by
        funext k
        exact h (k + 1) (by omega)
      simp only [seqDot, List.getD_cons_zero, hs]
      ring
    | succ d =>
      have h0 : p 0 = q 0 := h 0 (by omega)
      have := ih d (fun k => p (k + 1)) (fun k => q (k + 1))
        (fun k hk => h (k + 1) (by omega))
      simp only [seqDot, List.getD_cons_succ, h0]
      linarith

theorem negated_tail (as bs : List Int) (hlen : as.length = bs.length)
    (h : ∀ k, k < as.length → bs.getD k 0 = -(as.getD k 0)) :
    bs = as.map (fun v => -v) := by
  apply List.ext_getElem (by simp [hlen])
  intro k h1 h2
  have := h k (by simpa using h2)
  simp only [List.getD_eq_getElem?_getD, List.getElem?_eq_getElem h1,
    List.getElem?_eq_getElem (show k < as.length by simpa using h2), Option.getD_some] at this
  simp [this]

/-- Two rows that sandwich a dimension leave at most one integer value for
it, the other coordinates being fixed. -/
theorem sandwich_unique (total d : Nat) (ri rj : List Int)
    (hi : ri.length = 1 + total) (hj : rj.length = 1 + total)
    (hd : definingPair total (1 + d) ri rj) (p q : Nat → Int)
    (hagree : ∀ k, k ≠ d → p k = q k)
    (hp : 0 ≤ rowValue ri p ∧ 0 ≤ rowValue rj p)
    (hq : 0 ≤ rowValue ri q ∧ 0 ≤ rowValue rj q) : p d = q d := by
  obtain ⟨ci, as, rfl, hla⟩ := row_cases ri total hi
  obtain ⟨cj, bs, rfl, hlb⟩ := row_cases rj total hj
  obtain ⟨-, -, dn, da⟩ := hd
  have hbs : bs = as.map (fun v => -v) := by
    apply negated_tail as bs (by omega)
    intro k hk
    have := dn (k + 1) (by omega) (by omega)
    simpa using this
  subst hbs
  simp only [rowValue, seqDot_neg] at hp hq
  have hdiff := seqDot_agree as d p q hagree
  rw [Nat.add_comm 1 d] at da
  simp only [List.getD_cons_zero, List.getD_cons_succ] at da
  by_contra hne
  have hδ : 1 ≤ (p d - q d).natAbs := by omega
  have hmul : (as.getD d 0 * (p d - q d)).natAbs =
      (as.getD d 0).natAbs * (p d - q d).natAbs := Int.natAbs_mul _ _
  have hge : (as.getD d 0).natAbs ≤ (as.getD d 0 * (p d - q d)).natAbs := by
    rw [hmul]
    exact Nat.le_mul_of_pos_right _ hδ
  omega

/-- C14, as stated, fails: for the rows `3 d - 1 >= 0` and `-3 d + 1 >= 0`
the detection answers 1 (the constants sum to 0, below 3 in absolute value),
yet no integer value of `d` satisfies both rows. -/
theorem defining_inequalities_without_value :
    ∃ lo up, isl_basic_set_has_defining_inequalities bsetSandwich isl_dim_set 0 =
        (1, some lo, some up) ∧
      rowAt lo.bmap lo.line = [-1, 3] ∧ rowAt up.bmap up.line = [1, -3] ∧
      ∀ p : Nat → Int, ¬ (0 ≤ rowValue (rowAt lo.bmap lo.line) p ∧
        0 ≤ rowValue (rowAt up.bmap up.line) p) := by
  refine ⟨isl_basic_set_constraint (isl_basic_set_copy bsetSandwich) 0,
    isl_basic_set_constraint (isl_basic_set_copy bsetSandwich) 1, by decide, by decide,
    by decide, ?_⟩
  intro p
  have e0 : rowAt (isl_basic_set_constraint (isl_basic_set_copy bsetSandwich) 0).bmap
      (isl_basic_set_constraint (isl_basic_set_copy bsetSandwich) 0).line = [-1, 3] := by decide
  have e1 : rowAt (isl_basic_set_constraint (isl_basic_set_copy bsetSandwich) 1).bmap
      (isl_basic_set_constraint (isl_basic_set_copy bsetSandwich) 1).line = [1, -3] := by decide
  rw [e0, e1]
  simp only [rowValue, seqDot]
  omega

/-- C14, amended to "at most one": when, on a well-formed basic set and a
type other than `isl_dim_all`, `isl_basic_set_has_defining_inequalities`
returns 1 with `lower` and `upper`, two integer points that agree on all
other dimensions and both satisfy the two rows agree on that dimension. -/
theorem defining_inequalities_at_most_one (bset : isl_basic_set) (hwf : wellFormed bset)
    (type : isl_dim_type) (htype : type ≠ .isl_dim_all) (pos : Nat)
    (lo up : isl_constraint)
    (h : isl_basic_set_has_defining_inequalities bset type pos = (1, some lo, some up))
    (p q : Nat → Int)
    (hagree : ∀ k, k ≠ basic_set_offset bset type + pos - 1 → p k = q k)
    (hp : 0 ≤ rowValue (rowAt lo.bmap lo.line) p ∧ 0 ≤ rowValue (rowAt up.bmap up.line) p)
    (hq : 0 ≤ rowValue (rowAt lo.bmap lo.line) q ∧ 0 ≤ rowValue (rowAt up.bmap up.line) q) :
    p (basic_set_offset bset type + pos - 1) = q (basic_set_offset bset type + pos - 1) := by
  have hpos : pos < isl_basic_set_dim bset type := by
    by_contra hn
    unfold isl_basic_set_has_defining_inequalities at h
    rw [if_pos hn] at h
    simp at h
  have hoff : 1 ≤ basic_set_offset bset type + pos := by
    cases type <;> simp only [basic_set_offset, ne_eq, not_true_eq_false] at * <;> omega
  rcases defining_inequalities_cases bset type pos hpos with
    ⟨h0, -⟩ | ⟨i, j, hij, hj, hd, hr⟩
  · rw [h0] at h
    simp at h
  · rw [hr] at h
    simp only [Prod.mk.injEq, Option.some.injEq, true_and] at h
    obtain ⟨hlo, hup⟩ := h
    have hri := hwf.2.2.1 _ (getD_mem_rows bset.ineq i (by omega))
    have hrj := hwf.2.2.1 _ (getD_mem_rows bset.ineq j hj)
    have ci := cursor_row bset i hwf (by omega)
    have cj := cursor_row bset j hwf hj
    rw [show basic_set_offset bset type + pos = 1 + (basic_set_offset bset type + pos - 1)
      by omega] at hd
    by_cases hc : 0 < coef bset.ineq i (basic_set_offset bset type + pos)
    · rw [if_pos hc] at hlo hup
      subst hlo
      subst hup
      rw [ci, cj] at hp hq
      exact sandwich_unique _ _ _ _ hri hrj hd p q hagree hp hq
    · rw [if_neg hc] at hlo hup
      subst hlo
      subst hup
      rw [ci, cj] at hp hq
      exact sandwich_unique _ _ _ _ hri hrj hd p q hagree hp.symm hq.symm

/-- Witness of the amended C14: dimension `d` of the container `p >= 0`,
`-3 d + p + 2 >= 0`, `3 d - p >= 0` at the point `p = 4`, `d = 2`. -/
theorem defining_inequalities_at_most_one_witness :
    isl_basic_set_has_defining_inequalities bsetTight isl_dim_set 0 =
      (1, some (isl_basic_set_constraint (isl_basic_set_copy bsetTight) 2),
        some (isl_basic_set_constraint (isl_basic_set_copy bsetTight) 1)) ∧
    (0 ≤ rowValue (rowAt (isl_basic_set_copy bsetTight) 2) (pointFour 2) ∧
      0 ≤ rowValue (rowAt (isl_basic_set_copy bsetTight) 1) (pointFour 2)) ∧
    pointFour 2 (basic_set_offset bsetTight isl_dim_set + 0 - 1) =
      pointFour 2 (basic_set_offset bsetTight isl_dim_set + 0 - 1) :=
  ⟨by decide, by decide,
   defining_inequalities_at_most_one bsetTight (by decide) isl_dim_set (by decide) 0
    (isl_basic_set_constraint (isl_basic_set_copy bsetTight) 2)
    (isl_basic_set_constraint (isl_basic_set_copy bsetTight) 1) (by decide)
    (pointFour 2) (pointFour 2) (fun _ _ => rfl) (by decide) (by decide)⟩


/-! ## The entries of the comparison row -/

theorem getD_eraseIdx (l : List Int) (i k : Nat) :
    (l.eraseIdx i).getD k 0 = if k < i then l.getD k 0 else l.getD (k + 1) 0 := by
  induction l generalizing i k with
  | nil => simp
  | cons a l ih =>
    cases i with
    | zero => simp
    | succ i =>
      cases k with
      | zero => simp
      | succ k =>
        simp only [List.eraseIdx_cons_succ, List.getD_cons_succ, ih, Nat.succ_lt_succ_iff]

theorem length_eraseIdx_row (T : Nat) (l : List Int) (d : Nat) (hl : l.length = T + 2)
    (hd : d ≤ T) : (l.eraseIdx (1 + d)).length = T + 1 := by
  rw [List.length_eraseIdx, if_pos (by omega)]
  omega

theorem getD_zipWith_combine (m1 m2 : Int) (l1 l2 : List Int) (h : l1.length = l2.length)
    (k : Nat) :
    (List.zipWith (fun u v => m1 * u + m2 * v) l1 l2).getD k 0 =
      m1 * l1.getD k 0 + m2 * l2.getD k 0 := by
  induction l1 generalizing l2 k with
  | nil =>
    cases l2 with
    | nil => simp
    | cons v l2 => simp at h
  | cons u l1 ih =>
    cases l2 with
    | nil => simp at h
    | cons v l2 =>
      cases k with
      | zero => simp
      | succ k =>
        simp only [List.zipWith_cons_cons, List.getD_cons_succ]
        exact ih l2 (by simpa using h) k

/-- The entries of the comparison row. -/
theorem larger_bound_row_getD (T : Nat) (a b : List Int) (d : Nat) (s : Int)
    (ha : a.length = T + 2) (hb : b.length = T + 2) (hd : d ≤ T) (k : Nat) :
    (larger_bound_row T a b d s).getD k 0 =
      (if k < 1 + d then -(b.getD (1 + d) 0) * a.getD k 0 + a.getD (1 + d) 0 * b.getD k 0
        else -(b.getD (1 + d) 0) * a.getD (k + 1) 0 + a.getD (1 + d) 0 * b.getD (k + 1) 0)
      - (if k = 0 ∧ s ≠ 0 then 1 else 0) := by
  have hlen : (a.eraseIdx (1 + d)).length = (b.eraseIdx (1 + d)).length := by
    rw [length_eraseIdx_row T a d ha hd, length_eraseIdx_row T b d hb hd]
  have h0 : ∀ k, (larger_bound_row T a b d 0).getD k 0 =
      if k < 1 + d then -(b.getD (1 + d) 0) * a.getD k 0 + a.getD (1 + d) 0 * b.getD k 0
        else -(b.getD (1 + d) 0) * a.getD (k + 1) 0 + a.getD (1 + d) 0 * b.getD (k + 1) 0 := by
    intro k
    rw [larger_bound_row_eq T a b d ha hb hd, getD_zipWith_combine _ _ _ _ hlen,
      getD_eraseIdx, getD_eraseIdx]
    split <;> rfl
  have hl0 : 0 < (larger_bound_row T a b d 0).length := by
    rw [larger_bound_row_eq T a b d ha hb hd, List.length_zipWith,
      length_eraseIdx_row T a d ha hd, length_eraseIdx_row T b d hb hd]
    omega
  by_cases hs : s ≠ 0
  · rw [larger_bound_row_strict T a b d s hs]
    by_cases hk : k = 0
    · subst hk
      rw [getD_set_self _ _ _ hl0, h0 0]
      simp [hs]
    · rw [getD_set_other _ 0 k _ hk, h0 k]
      simp [hk]
  · have hs' : s = 0 := by simpa using hs
    subst hs'
    rw [h0 k]
    simp

theorem larger_bound_row_length (T : Nat) (a b : List Int) (d : Nat) (s : Int)
    (ha : a.length = T + 2) (hb : b.length = T + 2) (hd : d ≤ T) :
    (larger_bound_row T a b d s).length = 1 + T := by
  have h0 : (larger_bound_row T a b d 0).length = 1 + T := by
    rw [larger_bound_row_eq T a b d ha hb hd, List.length_zipWith,
      length_eraseIdx_row T a d ha hd, length_eraseIdx_row T b d hb hd]
    omega
  by_cases hs : s ≠ 0
  · rw [larger_bound_row_strict T a b d s hs, List.length_set, h0]
  · have hs' : s = 0 := by simpa using hs
    subst hs'
    exact h0

/-- C21: for rows `a` and `b` of the original container (one entry longer
than the rows of the context) and `abs_pos` in range, whatever the strict
flag, `add_larger_bound_constraint` leaves the equality rows and the
inequality rows of the context as they are and appends exactly one inequality
row `r`, as long as the context says, with
`r[k] = (-b_d) * a[k] + a_d * b[k]` at the positions `k` before the column of
`d`, `r[k] = (-b_d) * a[k + 1] + a_d * b[k + 1]` from that column onward, one
less on the constant `r[0]` when strict; the combination omitted at the column
of `d` is 0. -/
theorem add_larger_bound_constraint_row (ctx : isl_basic_set) (a b : List Int)
    (abs_pos : Nat) (strict : Int)
    (ha : a.length = isl_basic_set_total_dim ctx + 2)
    (hb : b.length = isl_basic_set_total_dim ctx + 2)
    (hd : abs_pos ≤ isl_basic_set_total_dim ctx) :
    ∃ r : List Int,
      (add_larger_bound_constraint ctx a b abs_pos strict).ineq = ctx.ineq ++ [r] ∧
      (add_larger_bound_constraint ctx a b abs_pos strict).eq = ctx.eq ∧
      r.length = 1 + isl_basic_set_total_dim ctx ∧
      (∀ k, k < 1 + abs_pos →
        r.getD k 0 = -(b.getD (1 + abs_pos) 0) * a.getD k 0
          + a.getD (1 + abs_pos) 0 * b.getD k 0 - (if k = 0 ∧ strict ≠ 0 then 1 else 0)) ∧
      (∀ k, 1 + abs_pos ≤ k → k < 1 + isl_basic_set_total_dim ctx →
        r.getD k 0 = -(b.getD (1 + abs_pos) 0) * a.getD (k + 1) 0
          + a.getD (1 + abs_pos) 0 * b.getD (k + 1) 0) ∧
      -(b.getD (1 + abs_pos) 0) * a.getD (1 + abs_pos) 0
        + a.getD (1 + abs_pos) 0 * b.getD (1 + abs_pos) 0 = 0 := by
  obtain ⟨h1, h2, -, -⟩ := add_larger_fields ctx a b abs_pos strict
  refine ⟨_, h2, h1, larger_bound_row_length _ a b abs_pos strict ha hb hd, ?_, ?_, by ring⟩
  · intro k hk
    rw [larger_bound_row_getD _ a b abs_pos strict ha hb hd k, if_pos hk]
  · intro k hk _
    have hk0 : ¬ (k = 0 ∧ strict ≠ 0) := fun h => by omega
    rw [larger_bound_row_getD _ a b abs_pos strict ha hb hd k, if_neg (by omega), if_neg hk0]
    ring

/-- Witness of C21: the strict comparison of the rows `d - p >= 0` and
`-d + 10 >= 0` over a parameter `p` and a set dimension `d`, added to the
context over `p` alone. -/
theorem add_larger_bound_constraint_row_witness :
    ∃ r : List Int,
      (add_larger_bound_constraint (base_context bsetParam isl_dim_set 0 1)
        [0, -1, 1] [10, 0, -1] 1 1).ineq =
        (base_context bsetParam isl_dim_set 0 1).ineq ++ [r] ∧
      (add_larger_bound_constraint (base_context bsetParam isl_dim_set 0 1)
        [0, -1, 1] [10, 0, -1] 1 1).eq = (base_context bsetParam isl_dim_set 0 1).eq ∧
      r.length = 1 + isl_basic_set_total_dim (base_context bsetParam isl_dim_set 0 1) ∧
      (∀ k, k < 1 + 1 →
        r.getD k 0 = -(([10, 0, -1] : List Int).getD (1 + 1) 0) * ([0, -1, 1] : List Int).getD k 0
          + ([0, -1, 1] : List Int).getD (1 + 1) 0 * ([10, 0, -1] : List Int).getD k 0
          - (if k = 0 ∧ (1 : Int) ≠ 0 then 1 else 0)) ∧
      (∀ k, 1 + 1 ≤ k → k < 1 + isl_basic_set_total_dim (base_context bsetParam isl_dim_set 0 1) →
        r.getD k 0 = -(([10, 0, -1] : List Int).getD (1 + 1) 0) * ([0, -1, 1] : List Int).getD (k + 1) 0
          + ([0, -1, 1] : List Int).getD (1 + 1) 0 * ([10, 0, -1] : List Int).getD (k + 1) 0) ∧
      -(([10, 0, -1] : List Int).getD (1 + 1) 0) * ([0, -1, 1] : List Int).getD (1 + 1) 0
        + ([0, -1, 1] : List Int).getD (1 + 1) 0 * ([10, 0, -1] : List Int).getD (1 + 1) 0 = 0 :=
  add_larger_bound_constraint_row (base_context bsetParam isl_dim_set 0 1)
    [0, -1, 1] [10, 0, -1] 1 1 (by decide) (by decide) (by decide)


/-! ## Feasibility of a lower and an upper bound -/

/-- At an integer value of the dimension the rational value of a row is its
value at the completed point. -/
theorem rowValueAt_int (r : List Int) (d : Nat) (p : Nat → Int) :
    rowValueAt r d (dropCoord d p) (p d) = (rowValue r p : ℚ) := by
  unfold rowValueAt
  rw [rowValue_eraseIdx]
  push_cast
  ring

/-- The cross-combination of a lower and an upper bound is non-negative
exactly when the lower bound does not exceed the upper bound. -/
theorem cross_nonneg_iff (ad bd A B : Int) (hlow : 0 < ad) (hup : bd < 0) :
    (0 ≤ -bd * A + ad * B ↔ -(A : ℚ) / (ad : ℚ) ≤ -(B : ℚ) / (bd : ℚ)) ∧
    (0 ≤ -bd * A + ad * B ↔ ∃ q : ℚ, 0 ≤ (ad : ℚ) * q + (A : ℚ) ∧ 0 ≤ (bd : ℚ) * q + (B : ℚ)) := by
  have ha : (0 : ℚ) < (ad : ℚ) := by exact_mod_cast hlow
  have hb : (0 : ℚ) < -(bd : ℚ) := by
    have : ((bd : ℤ) : ℚ) < 0 := by exact_mod_cast hup
    linarith
  have hcast : (0 ≤ -bd * A + ad * B) ↔ (0 : ℚ) ≤ -(bd : ℚ) * (A : ℚ) + (ad : ℚ) * (B : ℚ) := by
    constructor
    · intro h
      exact_mod_cast h
    · intro h
      exact_mod_cast h
  have hdiv : -(A : ℚ) / (ad : ℚ) ≤ -(B : ℚ) / (bd : ℚ) ↔
      (0 : ℚ) ≤ -(bd : ℚ) * (A : ℚ) + (ad : ℚ) * (B : ℚ) := by
    have e : -(B : ℚ) / (bd : ℚ) = (B : ℚ) / (-(bd : ℚ)) := by
      rw [div_neg, neg_div]
    rw [e, div_le_div_iff₀ ha hb]
    constructor <;> intro h <;> linarith
  refine ⟨hcast.trans hdiv.symm, hcast.trans ⟨fun h => ?_, ?_⟩⟩
  · refine ⟨-(A : ℚ) / (ad : ℚ), ?_, ?_⟩
    · rw [mul_div_cancel₀ _ (ne_of_gt ha)]
      linarith
    · have h1 : (bd : ℚ) * (-(A : ℚ) / (ad : ℚ)) + (B : ℚ) =
          (-(bd : ℚ) * (A : ℚ) + (ad : ℚ) * (B : ℚ)) / (ad : ℚ) := by
        field_simp
        ring
      rw [h1]
      exact div_nonneg h (le_of_lt ha)
  · rintro ⟨q, h1, h2⟩
    have e1 : 0 ≤ -(bd : ℚ) * ((ad : ℚ) * q + (A : ℚ)) := mul_nonneg (le_of_lt hb) h1
    have e2 : 0 ≤ (ad : ℚ) * ((bd : ℚ) * q + (B : ℚ)) := mul_nonneg (le_of_lt ha) h2
    nlinarith

/-- The non-strict comparison row of a lower bound `a` and an upper bound `b`
is non-negative at `x` exactly when the value of `d` implied by `a` does not
exceed the one implied by `b`, and exactly when some rational value of `d`
satisfies both rows. -/
theorem larger_bound_row_feasibility (T : Nat) (a b : List Int) (d : Nat)
    (ha : a.length = T + 2) (hb : b.length = T + 2) (hd : d ≤ T)
    (hlow : 0 < a.getD (1 + d) 0) (hup : b.getD (1 + d) 0 < 0) (x : Nat → Int) :
    (0 ≤ rowValue (larger_bound_row T a b d 0) x ↔
      implied_bound a d x ≤ implied_bound b d x) ∧
    (0 ≤ rowValue (larger_bound_row T a b d 0) x ↔
      ∃ q : ℚ, 0 ≤ rowValueAt a d x q ∧ 0 ≤ rowValueAt b d x q) := by
  have hv := rowValue_larger_bound_row T a b d 0 ha hb hd x
  have hc := cross_nonneg_iff (a.getD (1 + d) 0) (b.getD (1 + d) 0)
    (rowValue (a.eraseIdx (1 + d)) x) (rowValue (b.eraseIdx (1 + d)) x) hlow hup
  refine ⟨?_, ?_⟩
  · rw [hv]
    simpa [implied_bound] using hc.1
  · rw [hv]
    simpa [rowValueAt] using hc.2

/-- C22: in `foreach_bound_pair`, for a lower-bound row `i` (positive
coefficient at `d`) and an upper-bound row `j` (negative coefficient at `d`)
of a container whose rows are one entry longer than the rows of the context,
the context built for the pair is the simplified, finalized container `B`
whose rows are those of the context where `j` is the smallest upper bound
plus exactly one inequality `r`; `r` is satisfied at an integer point `x` of
the remaining dimensions exactly when the rational value of `d` implied by
row `i` at `x` does not exceed the one implied by row `j` (equality
admitted), and exactly when some rational value of `d` satisfies both rows at
`x`; hence `x` is a point of the context of the pair exactly when it is a
point of the context before and the two bounds are compatible at `x`; and
every context that `foreach_bound_pair` passes to the callback is the one
built so for a lower-bound row and an upper-bound row. -/
theorem bound_pair_context_feasibility {σ : Type} (C : Collab) (hs : SimplifyPreserves C)
    (bset context : isl_basic_set) (abs_pos n_lower n_upper i j : Nat)
    (hrows : ∀ r ∈ bset.ineq, r.length = isl_basic_set_total_dim context + 2)
    (hd : abs_pos ≤ isl_basic_set_total_dim context)
    (hi : i < bset.ineq.length) (hj : j < bset.ineq.length)
    (hlow : 0 < coef bset.ineq i (1 + abs_pos))
    (hup : coef bset.ineq j (1 + abs_pos) < 0)
    (x : Nat → Int) (fn : BoundFn σ) (user : σ) :
    (∃ (B : isl_basic_set) (r : List Int),
      bound_pair_context C bset abs_pos
          (set_largest_lower_bound C context bset abs_pos n_lower i) n_upper i j =
        isl_basic_set_finalize (C.isl_basic_set_simplify B) ∧
      B.eq = (set_smallest_upper_bound C
        (set_largest_lower_bound C context bset abs_pos n_lower i) bset abs_pos n_upper j).eq ∧
      B.ineq = (set_smallest_upper_bound C
        (set_largest_lower_bound C context bset abs_pos n_lower i) bset abs_pos n_upper j).ineq
          ++ [r] ∧
      (0 ≤ rowValue r x ↔
        implied_bound (bset.ineq.getD i []) abs_pos x ≤
          implied_bound (bset.ineq.getD j []) abs_pos x) ∧
      (0 ≤ rowValue r x ↔
        ∃ q : ℚ, 0 ≤ rowValueAt (bset.ineq.getD i []) abs_pos x q ∧
          0 ≤ rowValueAt (bset.ineq.getD j []) abs_pos x q)) ∧
    (sat (bound_pair_context C bset abs_pos
          (set_largest_lower_bound C context bset abs_pos n_lower i) n_upper i j) x ↔
      sat (set_smallest_upper_bound C
          (set_largest_lower_bound C context bset abs_pos n_lower i) bset abs_pos n_upper j) x ∧
        implied_bound (bset.ineq.getD i []) abs_pos x ≤
          implied_bound (bset.ineq.getD j []) abs_pos x) ∧
    (∀ c ∈ (foreach_bound_pair C bset abs_pos context n_lower n_upper fn user).calls,
      ∃ i' j', i' < bset.ineq.length ∧ j' < bset.ineq.length ∧
        0 < coef bset.ineq i' (1 + abs_pos) ∧ coef bset.ineq j' (1 + abs_pos) < 0 ∧
        c.lower = some (isl_basic_set_constraint (isl_basic_set_copy bset) i') ∧
        c.upper = some (isl_basic_set_constraint (isl_basic_set_copy bset) j') ∧
        c.bset = bound_pair_context C bset abs_pos
          (set_largest_lower_bound C context bset abs_pos n_lower i') n_upper i' j') := by
  have hli : (bset.ineq.getD i []).length = isl_basic_set_total_dim context + 2 :=
    hrows _ (getD_mem_rows bset.ineq i hi)
  have hlj : (bset.ineq.getD j []).length = isl_basic_set_total_dim context + 2 :=
    hrows _ (getD_mem_rows bset.ineq j hj)
  have hT : isl_basic_set_total_dim (isl_basic_set_extend_constraints (set_smallest_upper_bound C
      (set_largest_lower_bound C context bset abs_pos n_lower i) bset abs_pos n_upper j) 0 1) =
      isl_basic_set_total_dim context := by
    rw [total_extend, total_set_smallest_upper_bound C hs, total_set_largest_lower_bound C hs]
  have hT2 : isl_basic_set_total_dim
      (set_largest_lower_bound C context bset abs_pos n_lower i) =
      isl_basic_set_total_dim context := total_set_largest_lower_bound C hs _ _ _ _ _
  have hf := larger_bound_row_feasibility (isl_basic_set_total_dim context)
    (bset.ineq.getD i []) (bset.ineq.getD j []) abs_pos hli hlj hd hlow hup x
  refine ⟨?_, ?_, ?_⟩
  · obtain ⟨h1, h2, -, -⟩ := add_larger_fields
      (isl_basic_set_extend_constraints (set_smallest_upper_bound C
        (set_largest_lower_bound C context bset abs_pos n_lower i) bset abs_pos n_upper j) 0 1)
      (bset.ineq.getD i []) (bset.ineq.getD j []) abs_pos 0
    rw [hT] at h2
    exact ⟨_, _, rfl, h1, h2, hf.1, hf.2⟩
  · rw [sat_bound_pair_context C hs, hT2, hf.1]
  · intro c hc
    have hsub := foreach_bound_pair_outer_sublist C bset abs_pos context n_lower n_upper fn
      (List.range bset.ineq.length) user
    have hm := hsub.subset hc
    simp only [pair_candidates, List.mem_flatMap, List.mem_map, List.mem_filter,
      pair_keep_lower, pair_keep_upper, Bool.and_eq_true, decide_eq_true_eq,
      List.mem_range] at hm
    obtain ⟨i', ⟨hi', hp', -⟩, j', ⟨hj', hn', -⟩, rfl⟩ := hm
    exact ⟨i', j', hi', hj', hp', hn', rfl, rfl, rfl⟩

/-- Witness of C22: the lower bound `d - p >= 0` and the upper bound
`-d + 10 >= 0` of the rows `d >= 0`, `d - p >= 0`, `-d + 10 >= 0`, at the
point `p = 7`: the values 7 and 10 of `d`. -/
theorem bound_pair_context_feasibility_witness :
    (0 < coef bsetParam.ineq 1 (1 + 1) ∧ coef bsetParam.ineq 2 (1 + 1) < 0) ∧
    (sat (bound_pair_context collab0 bsetParam 1
          (set_largest_lower_bound collab0 (base_context bsetParam isl_dim_set 0 1)
            bsetParam 1 2 1) 1 1 2) pointSeven ↔
      sat (set_smallest_upper_bound collab0
          (set_largest_lower_bound collab0 (base_context bsetParam isl_dim_set 0 1)
            bsetParam 1 2 1) bsetParam 1 1 2) pointSeven ∧
        implied_bound (bsetParam.ineq.getD 1 []) 1 pointSeven ≤
          implied_bound (bsetParam.ineq.getD 2 []) 1 pointSeven) :=
  ⟨⟨by decide, by decide⟩,
   (bound_pair_context_feasibility collab0 (simplifyId_preserves collab0 rfl) bsetParam
    (base_context bsetParam isl_dim_set 0 1) 1 2 1 1 2 (by decide) (by decide) (by decide)
    (by decide) (by decide) (by decide) pointSeven countFn 0).2.1⟩


/-! ## Failure of the callback -/

theorem user_after_append {σ : Type} (fn : BoundFn σ) (user : σ) (l1 l2 : List BoundCall) :
    user_after fn user (l1 ++ l2) = user_after fn (user_after fn user l1) l2 := by
  induction l1 generalizing user with
  | nil => rfl
  | cons c l1 ih => exact ih _

theorem call_results_append {σ : Type} (fn : BoundFn σ) (user : σ) (l1 l2 : List BoundCall) :
    call_results fn user (l1 ++ l2) =
      call_results fn user l1 ++ call_results fn (user_after fn user l1) l2 := by
  induction l1 generalizing user with
  | nil => rfl
  | cons c l1 ih => exact congrArg _ (ih _)

theorem length_call_results {σ : Type} (fn : BoundFn σ) (user : σ) (l : List BoundCall) :
    (call_results fn user l).length = l.length := by
  induction l generalizing user with
  | nil => rfl
  | cons c l ih => simp only [call_results, List.length_cons, ih]

theorem trace_nil {σ : Type} (fn : BoundFn σ) (user : σ) :
    LoopTrace fn user [] { broke := false, user := user, calls := [] } := by
  refine ⟨rfl, List.prefix_refl _, Or.inl ⟨rfl, ?_, rfl⟩⟩
  simp [call_results]

theorem trace_fail {σ : Type} (fn : BoundFn σ) (user : σ) (c : BoundCall)
    (cands : List BoundCall) (h : (fn c.lower c.upper c.bset user).1 < 0) :
    LoopTrace fn user (c :: cands)
      { broke := true, user := (fn c.lower c.upper c.bset user).2, calls := [c] } := by
  refine ⟨rfl, ⟨cands, rfl⟩, Or.inr ⟨rfl, [], c, rfl, ?_, h⟩⟩
  simp [call_results]

/-- A first part that ran to its end, followed by a second part. -/
theorem trace_append {σ : Type} (fn : BoundFn σ) (user : σ) (c1 c2 : List BoundCall)
    (inner out : LoopOut σ) (h1 : LoopTrace fn user c1 inner) (hb : inner.broke = false)
    (h2 : LoopTrace fn inner.user c2 out) :
    LoopTrace fn user (c1 ++ c2)
      { broke := out.broke, user := out.user, calls := inner.calls ++ out.calls } := by
  obtain ⟨hu1, -, hc1⟩ := h1
  obtain ⟨hu2, hp2, hc2⟩ := h2
  rcases hc1 with ⟨-, hall1, heq1⟩ | ⟨hb1, -⟩
  · refine ⟨?_, ?_, ?_⟩
    · show out.user = user_after fn user (inner.calls ++ out.calls)
      rw [user_after_append, ← hu1, hu2]
    · show inner.calls ++ out.calls <+: c1 ++ c2
      rw [heq1]
      exact (List.prefix_append_right_inj c1).2 hp2
    · rcases hc2 with ⟨hb2, hall2, heq2⟩ | ⟨hb2, pre, c, hpre, hall2, hneg⟩
      · refine Or.inl ⟨hb2, ?_, ?_⟩
        · show ∀ v ∈ call_results fn user (inner.calls ++ out.calls), 0 ≤ v
          rw [call_results_append, ← hu1]
          intro v hv
          rcases List.mem_append.1 hv with hv | hv
          · exact hall1 v hv
          · exact hall2 v hv
        · show inner.calls ++ out.calls = c1 ++ c2
          rw [heq1, heq2]
      · refine Or.inr ⟨hb2, inner.calls ++ pre, c, ?_, ?_, ?_⟩
        · show inner.calls ++ out.calls = inner.calls ++ pre ++ [c]
          rw [hpre, List.append_assoc]
        · rw [call_results_append, ← hu1]
          intro v hv
          rcases List.mem_append.1 hv with hv | hv
          · exact hall1 v hv
          · exact hall2 v hv
        · rw [user_after_append, ← hu1]
          exact hneg
  · rw [hb] at hb1
    cases hb1

/-- A first part that was left through `break`. -/
theorem trace_append_broke {σ : Type} (fn : BoundFn σ) (user : σ) (c1 c2 : List BoundCall)
    (inner : LoopOut σ) (h1 : LoopTrace fn user c1 inner) (hb : inner.broke = true) :
    LoopTrace fn user (c1 ++ c2)
      { broke := true, user := inner.user, calls := inner.calls } := by
  obtain ⟨hu1, hp1, hc1⟩ := h1
  refine ⟨hu1, hp1.trans (List.prefix_append c1 c2), ?_⟩
  rcases hc1 with ⟨hb1, -⟩ | ⟨-, h⟩
  · rw [hb] at hb1
    cases hb1
  · exact Or.inr ⟨rfl, h⟩

theorem trace_cons {σ : Type} (fn : BoundFn σ) (user : σ) (c : BoundCall)
    (cands : List BoundCall) (out : LoopOut σ)
    (h : ¬ (fn c.lower c.upper c.bset user).1 < 0)
    (h2 : LoopTrace fn (fn c.lower c.upper c.bset user).2 cands out) :
    LoopTrace fn user (c :: cands)
      { broke := out.broke, user := out.user, calls := c :: out.calls } := by
  have h1 : LoopTrace fn user [c]
      { broke := false, user := (fn c.lower c.upper c.bset user).2, calls := [c] } := by
    refine ⟨rfl, List.prefix_refl _, Or.inl ⟨rfl, ?_, rfl⟩⟩
    intro v hv
    simp only [call_results, List.mem_singleton] at hv
    rw [hv]
    exact not_lt.1 h
  exact trace_append fn user [c] cands _ out h1 rfl h2

theorem bound_loop_trace {σ : Type} (fn : BoundFn σ) (keep : Nat → Bool)
    (mk : Nat → BoundCall) (js : List Nat) (user : σ) :
    LoopTrace fn user ((js.filter keep).map mk) (bound_loop fn keep mk js user) := by
  induction js generalizing user with
  | nil => exact trace_nil fn user
  | cons i js ih =>
    unfold bound_loop
    by_cases hk : keep i = true
    · simp only [hk, if_true, List.filter_cons_of_pos, List.map_cons]
      split
      · next h => exact trace_fail fn user (mk i) _ h
      · next h => exact trace_cons fn user (mk i) _ _ h (ih _)
    · simp only [hk, Bool.false_eq_true, if_false]
      rw [List.filter_cons_of_neg hk]
      exact ih _

theorem foreach_bound_pair_outer_trace {σ : Type} (C : Collab) (bset : isl_basic_set)
    (d : Nat) (context : isl_basic_set) (nl nu : Nat) (fn : BoundFn σ) (is : List Nat)
    (user : σ) :
    LoopTrace fn user (pair_candidates C bset d context nl nu is)
      (foreach_bound_pair_outer C bset d context nl nu fn is user) := by
  induction is generalizing user with
  | nil => exact trace_nil fn user
  | cons i is ih =>
    unfold foreach_bound_pair_outer
    by_cases h0 : 0 < coef bset.ineq i (1 + d)
    · have hn0 : ¬ ¬ 0 < coef bset.ineq i (1 + d) := by simpa using h0
      rw [if_neg hn0]
      by_cases he : C.isl_basic_set_is_empty (set_largest_lower_bound C context bset d nl i) = 0
      · have hne : ¬ C.isl_basic_set_is_empty
            (set_largest_lower_bound C context bset d nl i) ≠ 0 := by simpa using he
        rw [if_neg hne]
        have hk : pair_keep_lower C bset d context nl i = true := by
          simp [pair_keep_lower, h0, he]
        have hc : pair_candidates C bset d context nl nu (i :: is) =
            ((List.range bset.ineq.length).filter
              (pair_keep_upper C bset d context nl nu i)).map
              (pair_call C bset d context nl nu i) ++
            pair_candidates C bset d context nl nu is := by
          simp [pair_candidates, List.filter_cons_of_pos, hk]
        rw [hc]
        dsimp only
        rw [foreach_bound_pair_inner_eq]
        have hin := bound_loop_trace fn (pair_keep_upper C bset d context nl nu i)
          (pair_call C bset d context nl nu i) (List.range bset.ineq.length) user
        split
        · next hb => exact trace_append_broke fn user _ _ _ hin hb
        · next hb =>
          exact trace_append fn user _ _ _ _ hin (by simpa using hb) (ih _)
      · rw [if_pos he]
        have hk : ¬ pair_keep_lower C bset d context nl i = true := by
          simp [pair_keep_lower, he]
        have hc : pair_candidates C bset d context nl nu (i :: is) =
            pair_candidates C bset d context nl nu is := by
          simp [pair_candidates, List.filter_cons_of_neg, hk]
        rw [hc]
        exact ih user
    · rw [if_pos h0]
      have hk : ¬ pair_keep_lower C bset d context nl i = true := by
        simp [pair_keep_lower, h0]
      have hc : pair_candidates C bset d context nl nu (i :: is) =
          pair_candidates C bset d context nl nu is := by
        simp [pair_candidates, List.filter_cons_of_neg, hk]
      rw [hc]
      exact ih user

/-- What the invariant says of the outcome of a loop: a negative return is
that of the last invocation and the loop was left through `break`; without
one the loop ran to its end over every candidate. -/
theorem trace_outcome {σ : Type} (fn : BoundFn σ) (user : σ) (cands : List BoundCall)
    (out : LoopOut σ) (h : LoopTrace fn user cands out) :
    out.calls <+: cands ∧
    (∀ k, k < out.calls.length → (call_results fn user out.calls).getD k 0 < 0 →
      out.calls.length = k + 1 ∧ out.broke = true) ∧
    ((∀ v ∈ call_results fn user out.calls, 0 ≤ v) → out.broke = false ∧ out.calls = cands) := by
  obtain ⟨-, hp, hc⟩ := h
  refine ⟨hp, ?_, ?_⟩
  · intro k hk hneg
    have hk2 : k < (call_results fn user out.calls).length := by
      rw [length_call_results]; exact hk
    rcases hc with ⟨-, hall, -⟩ | ⟨hb, pre, c, hpre, hall, -⟩
    · have hmem : (call_results fn user out.calls).getD k 0 ∈ call_results fn user out.calls := by
        rw [List.getD_eq_getElem _ _ hk2]
        exact List.getElem_mem hk2
      have := hall _ hmem
      omega
    · refine ⟨?_, hb⟩
      rw [hpre] at hk ⊢
      simp only [List.length_append, List.length_singleton] at hk ⊢
      by_cases hlt : k < pre.length
      · exfalso
        have hlt2 : k < (call_results fn user pre).length := by
          rw [length_call_results]; exact hlt
        have hget : (call_results fn user out.calls).getD k 0 =
            (call_results fn user pre).getD k 0 := by
          rw [hpre, call_results_append, List.getD_eq_getElem?_getD, List.getD_eq_getElem?_getD,
            List.getElem?_append_left hlt2]
        have hmem : (call_results fn user pre).getD k 0 ∈ call_results fn user pre := by
          rw [List.getD_eq_getElem _ _ hlt2]
          exact List.getElem_mem hlt2
        have := hall _ hmem
        omega
      · omega
  · intro hall
    rcases hc with ⟨hb, -, heq⟩ | ⟨-, pre, c, hpre, -, hneg⟩
    · exact ⟨hb, heq⟩
    · exfalso
      have hmem : (fn c.lower c.upper c.bset (user_after fn user pre)).1 ∈
          call_results fn user out.calls := by
        rw [hpre, call_results_append]
        simp [call_results]
      have := hall _ hmem
      omega

/-- The same of an enumeration that returns -1 when its loop was left through
`break` and 0 otherwise. -/
theorem trace_run {σ : Type} (fn : BoundFn σ) (user : σ) (cands : List BoundCall)
    (out : LoopOut σ) (run : Run σ) (h : LoopTrace fn user cands out)
    (hret : run.ret = if out.broke then -1 else 0) (hcalls : run.calls = out.calls) :
    run.calls <+: cands ∧
    (∀ k, k < run.calls.length → (call_results fn user run.calls).getD k 0 < 0 →
      run.calls.length = k + 1 ∧ run.ret = -1) ∧
    ((∀ v ∈ call_results fn user run.calls, 0 ≤ v) → run.ret = 0 ∧ run.calls = cands) := by
  obtain ⟨h1, h2, h3⟩ := trace_outcome fn user cands out h
  rw [hcalls, hret]
  refine ⟨h1, fun k hk hneg => ?_, fun hall => ?_⟩
  · obtain ⟨hl, hb⟩ := h2 k hk hneg
    exact ⟨hl, by rw [hb]; rfl⟩
  · obtain ⟨hb, hc⟩ := h3 hall
    exact ⟨by rw [hb]; rfl, hc⟩

/-- C23: with valid arguments, no equality row on the dimension and some
inequality row that bounds it (the upper-only, lower-only and two-sided
cases), the invocations of `isl_basic_set_foreach_bound_pair` are the first
candidates, in order; an invocation that returns a negative value is the last
one made and the enumeration returns -1; when no invocation returns a negative
value the enumeration returns 0 and has invoked every candidate. -/
theorem callback_abort {σ : Type} (C : Collab) (bset : isl_basic_set)
    (type : isl_dim_type) (pos : Nat) (fn : BoundFn σ) (user : σ)
    (hpos : pos < isl_basic_set_dim bset type)
    (htype : type = .isl_dim_param ∨ type = isl_dim_set)
    (hnoeq : ∀ r ∈ bset.eq, r.getD (1 + bound_abs_pos bset type pos) 0 = 0)
    (hbound : ∃ r ∈ bset.ineq, r.getD (1 + bound_abs_pos bset type pos) 0 ≠ 0) :
    (isl_basic_set_foreach_bound_pair C bset type pos fn user).calls <+:
      bound_candidates C bset type pos ∧
    (∀ k, k < (isl_basic_set_foreach_bound_pair C bset type pos fn user).calls.length →
      (call_results fn user
        (isl_basic_set_foreach_bound_pair C bset type pos fn user).calls).getD k 0 < 0 →
      (isl_basic_set_foreach_bound_pair C bset type pos fn user).calls.length = k + 1 ∧
      (isl_basic_set_foreach_bound_pair C bset type pos fn user).ret = -1) ∧
    ((∀ v ∈ call_results fn user
        (isl_basic_set_foreach_bound_pair C bset type pos fn user).calls, 0 ≤ v) →
      (isl_basic_set_foreach_bound_pair C bset type pos fn user).ret = 0 ∧
      (isl_basic_set_foreach_bound_pair C bset type pos fn user).calls =
        bound_candidates C bset type pos) := by
  have hsome := some_bound_counts bset (bound_abs_pos bset type pos) hbound
  rw [foreach_bound_pair_no_equality C bset type pos fn user hpos htype hnoeq]
  unfold bound_candidates
  dsimp only
  rw [if_neg hsome, if_neg hsome]
  by_cases h1 : (count_bounds bset (bound_abs_pos bset type pos)).1 = 0
  · rw [if_pos h1, if_pos h1]
    refine trace_run fn user _ _ _ ?_ rfl rfl
    rw [foreach_upper_bound_loop_eq]
    exact bound_loop_trace _ _ _ _ _
  · rw [if_neg h1, if_neg h1]
    by_cases h2 : (count_bounds bset (bound_abs_pos bset type pos)).2 = 0
    · rw [if_pos h2, if_pos h2]
      refine trace_run fn user _ _ _ ?_ rfl rfl
      rw [foreach_lower_bound_loop_eq]
      exact bound_loop_trace _ _ _ _ _
    · rw [if_neg h2, if_neg h2]
      exact trace_run fn user _ _ _ (foreach_bound_pair_outer_trace _ _ _ _ _ _ _ _ _) rfl rfl

/-- Witness of C23: on the rows `d >= 0`, `d - p >= 0` and `-d + 10 >= 0` the
two-sided case has two candidates; the callback that fails on its first
invocation is invoked once and the enumeration returns -1. -/
theorem callback_abort_witness :
    (isl_basic_set_foreach_bound_pair collabNever bsetParam isl_dim_set 0 failFn 0).calls.length
      = 0 + 1 ∧
    (isl_basic_set_foreach_bound_pair collabNever bsetParam isl_dim_set 0 failFn 0).ret = -1 :=
  (callback_abort collabNever bsetParam isl_dim_set 0 failFn 0 (by decide) (Or.inr rfl)
    (by decide) (by decide)).2.1 0 (by decide) (by decide)

end Isl
